import Mathlib

/-!
# ILI9341 parallel-bus driver and eye animation (`src/main.c`)

A shallow embedding of `main.c`.  The program only ever *writes* GPIO registers,
so every bus-level C function is embedded as the list of register writes it
performs, in program order.  The meaning of such a list (pin levels, bytes
latched by the display controller, contents of the display memory) is given by
separate interpreters further down.

Machine integers: `uint8_t`/`uint16_t`/`uint32_t` values are `Nat`, `int16_t`
values are `Int`; conversions that the C code performs implicitly (argument
passing, assignment) are written out as `toU8`, `toU16`, `toI16`.
Intermediate arithmetic is done in C `int` (32 bit), which cannot overflow on
operands that came from 16-bit variables, so it is exact here.
-/

namespace ILI9341

/-! ## Integer conversions -/

/-- Conversion to `uint8_t`. -/
def toU8 (v : Nat) : Nat := v % 256

/-- Conversion of a C `int` to `uint16_t`. -/
def toU16 (v : Int) : Nat := (v % 65536).toNat

/-- Conversion of a C `int` to `int16_t` (two's complement wrap-around). -/
def toI16 (v : Int) : Int := (v + 32768) % 65536 - 32768

/-! ## GPIO registers -/

/-- The three GPIO ports the display is wired to. -/
inductive Port
  | A | B | C
deriving DecidableEq, Repr

/-- The two write-only registers used: bit set/reset (`BSRR`) and bit reset (`BRR`). -/
inductive Reg
  | BSRR | BRR
deriving DecidableEq, Repr

/-- One store to a GPIO register: `GPIOx->reg = val`. -/
structure RegWrite where
  port : Port
  reg : Reg
  val : Nat
deriving DecidableEq, Repr

/-- Pin masks of the STM32 HAL (`GPIO_PIN_n = 1 << n`); the header itself is not
part of `main.c`. -/
def GPIO_PIN_0 : Nat := 0x0001
def GPIO_PIN_1 : Nat := 0x0002
def GPIO_PIN_3 : Nat := 0x0008
def GPIO_PIN_4 : Nat := 0x0010
def GPIO_PIN_5 : Nat := 0x0020
def GPIO_PIN_7 : Nat := 0x0080
def GPIO_PIN_8 : Nat := 0x0100
def GPIO_PIN_9 : Nat := 0x0200
def GPIO_PIN_10 : Nat := 0x0400

/-! ## Control-pin macros (`main.c` lines 16-24) -/

def LCD_CS_LOW : RegWrite := ⟨Port.B, Reg.BRR, GPIO_PIN_0⟩
def LCD_CS_HIGH : RegWrite := ⟨Port.B, Reg.BSRR, GPIO_PIN_0⟩
def LCD_RS_LOW : RegWrite := ⟨Port.A, Reg.BRR, GPIO_PIN_4⟩
def LCD_RS_HIGH : RegWrite := ⟨Port.A, Reg.BSRR, GPIO_PIN_4⟩
def LCD_WR_LOW : RegWrite := ⟨Port.A, Reg.BRR, GPIO_PIN_1⟩
def LCD_WR_HIGH : RegWrite := ⟨Port.A, Reg.BSRR, GPIO_PIN_1⟩

/-! ## Byte output (`main.c` lines 28-61) -/

/-- The statement `if (c) set |= pin; else clr |= pin;` acting on the pair
`(set, clr)`. -/
def setOrClr (c : Bool) (pin : Nat) (m : Nat × Nat) : Nat × Nat :=
  if c then (m.1 ||| pin, m.2) else (m.1, m.2 ||| pin)

/-- The pair `(pa_set, pa_clr)` computed for port A: D0 = PA9, D2 = PA10, D7 = PA8. -/
def paMasks (data : Nat) : Nat × Nat :=
  setOrClr (data &&& 0x80 != 0) GPIO_PIN_8
    (setOrClr (data &&& 0x04 != 0) GPIO_PIN_10
      (setOrClr (data &&& 0x01 != 0) GPIO_PIN_9 (0, 0)))

/-- The pair `(pb_set, pb_clr)` for port B: D3 = PB3, D4 = PB5, D5 = PB4, D6 = PB10. -/
def pbMasks (data : Nat) : Nat × Nat :=
  setOrClr (data &&& 0x40 != 0) GPIO_PIN_10
    (setOrClr (data &&& 0x20 != 0) GPIO_PIN_4
      (setOrClr (data &&& 0x10 != 0) GPIO_PIN_5
        (setOrClr (data &&& 0x08 != 0) GPIO_PIN_3 (0, 0))))

/-- The pair `(pc_set, pc_clr)` for port C: D1 = PC7. -/
def pcMasks (data : Nat) : Nat × Nat :=
  setOrClr (data &&& 0x02 != 0) GPIO_PIN_7 (0, 0)

/-- `LCD_Write8Fast`: one `BSRR` store per port (`set | (clr << 16)`), then the
write strobe `WR` low, `__NOP()`, `WR` high.  The `__NOP()` only costs time and
stores nothing. -/
def LCD_Write8Fast (data : Nat) : List RegWrite :=
  [ ⟨Port.A, Reg.BSRR, (paMasks data).1 ||| ((paMasks data).2 <<< 16)⟩,
    ⟨Port.B, Reg.BSRR, (pbMasks data).1 ||| ((pbMasks data).2 <<< 16)⟩,
    ⟨Port.C, Reg.BSRR, (pcMasks data).1 ||| ((pcMasks data).2 <<< 16)⟩,
    LCD_WR_LOW,
    LCD_WR_HIGH ]

/-- `LCD_Write16Fast`: high byte first, then low byte. -/
def LCD_Write16Fast (color : Nat) : List RegWrite :=
  LCD_Write8Fast (toU8 (color >>> 8)) ++ LCD_Write8Fast (toU8 (color &&& 0xFF))

/-! ## Commands, data and the addressing window (`main.c` lines 67-101) -/

def LCD_WriteCommand (cmd : Nat) : List RegWrite :=
  [LCD_CS_LOW, LCD_RS_LOW] ++ LCD_Write8Fast cmd ++ [LCD_CS_HIGH]

def LCD_WriteData (data : Nat) : List RegWrite :=
  [LCD_CS_LOW, LCD_RS_HIGH] ++ LCD_Write8Fast data ++ [LCD_CS_HIGH]

/-- `LCD_SetWindow(x1, y1, x2, y2)` on `uint16_t` arguments: CASET, PASET, RAMWR. -/
def LCD_SetWindow (x1 y1 x2 y2 : Nat) : List RegWrite :=
  LCD_WriteCommand 0x2A ++
  [LCD_CS_LOW, LCD_RS_HIGH] ++
  LCD_Write8Fast (toU8 (x1 >>> 8)) ++ LCD_Write8Fast (toU8 (x1 &&& 0xFF)) ++
  LCD_Write8Fast (toU8 (x2 >>> 8)) ++ LCD_Write8Fast (toU8 (x2 &&& 0xFF)) ++
  [LCD_CS_HIGH] ++
  LCD_WriteCommand 0x2B ++
  [LCD_CS_LOW, LCD_RS_HIGH] ++
  LCD_Write8Fast (toU8 (y1 >>> 8)) ++ LCD_Write8Fast (toU8 (y1 &&& 0xFF)) ++
  LCD_Write8Fast (toU8 (y2 >>> 8)) ++ LCD_Write8Fast (toU8 (y2 &&& 0xFF)) ++
  [LCD_CS_HIGH] ++
  LCD_WriteCommand 0x2C

/-! ## Pixel streaming loops -/

/-- The loop `while (n--) { LCD_Write8Fast(hi); LCD_Write8Fast(lo); }` for a
counter that holds `n` on entry. -/
def pixelLoop (hi lo : Nat) : Nat → List RegWrite
  | 0 => []
  | n + 1 => LCD_Write8Fast hi ++ LCD_Write8Fast lo ++ pixelLoop hi lo n

/-- The body of the unrolled loop: eight pixels, sixteen byte writes. -/
def unrolledBody (hi lo : Nat) : List RegWrite :=
  LCD_Write8Fast hi ++ LCD_Write8Fast lo ++ LCD_Write8Fast hi ++ LCD_Write8Fast lo ++
  LCD_Write8Fast hi ++ LCD_Write8Fast lo ++ LCD_Write8Fast hi ++ LCD_Write8Fast lo ++
  LCD_Write8Fast hi ++ LCD_Write8Fast lo ++ LCD_Write8Fast hi ++ LCD_Write8Fast lo ++
  LCD_Write8Fast hi ++ LCD_Write8Fast lo ++ LCD_Write8Fast hi ++ LCD_Write8Fast lo

/-- The two loops of `LCD_FillRectFast` (lines 119-133):
`while (total >= 8) { ...; total -= 8; }` followed by `while (total--) { ... }`. -/
def fillLoops (hi lo : Nat) : Nat → List RegWrite
  | total + 8 => unrolledBody hi lo ++ fillLoops hi lo total
  | total => pixelLoop hi lo total

/-! ## Rectangle and horizontal-run fills (`main.c` lines 104-157) -/

/-- `LCD_FillRectFast(x, y, w, h, color)` on `uint16_t` arguments.  `x + w` and
`y + h` are computed in `int`; the window corners are converted back to
`uint16_t` when passed to `LCD_SetWindow`; `total` is `uint32_t`. -/
def LCD_FillRectFast (x y w h color : Nat) : List RegWrite :=
  if x ≥ 240 ∨ y ≥ 320 ∨ w = 0 ∨ h = 0 then [] else
  let w := if x + w > 240 then 240 - x else w
  let h := if y + h > 320 then 320 - y else h
  let total := (w * h) % 4294967296
  let hi := toU8 (color >>> 8)
  let lo := toU8 (color &&& 0xFF)
  LCD_SetWindow x y (toU16 ((x : Int) + w - 1)) (toU16 ((y : Int) + h - 1)) ++
  [LCD_CS_LOW, LCD_RS_HIGH] ++
  fillLoops hi lo total ++
  [LCD_CS_HIGH]

/-- `LCD_HLineFast(x, y, w, color)` on `int16_t` coordinates.  After the guards
`w` is positive, so `while (w--)` runs `w` times. -/
def LCD_HLineFast (x y w : Int) (color : Nat) : List RegWrite :=
  if y < 0 ∨ y ≥ 320 ∨ w ≤ 0 then [] else
  let w1 := if x < 0 then toI16 (w + x) else w
  let x1 := if x < 0 then 0 else x
  let w2 := if x1 + w1 > 240 then toI16 (240 - x1) else w1
  if w2 ≤ 0 then [] else
  let hi := toU8 (color >>> 8)
  let lo := toU8 (color &&& 0xFF)
  LCD_SetWindow (toU16 x1) (toU16 y) (toU16 (x1 + w2 - 1)) (toU16 y) ++
  [LCD_CS_LOW, LCD_RS_HIGH] ++
  pixelLoop hi lo w2.toNat ++
  [LCD_CS_HIGH]

/-! ## Electrical interpretation of register writes -/

/-- Output levels of the three ports: pin number to level (`true` = high). -/
structure Pins where
  A : Nat → Bool
  B : Nat → Bool
  C : Nat → Bool

/-- Effect of a register store on one port's output latch.  `BSRR`: bits 0-15
set the pin, bits 16-31 reset it, set wins; `BRR`: bits 0-15 reset the pin. -/
def writeReg (odr : Nat → Bool) (r : Reg) (v : Nat) : Nat → Bool :=
  match r with
  | Reg.BSRR => fun i =>
      if i < 16 then
        (if v.testBit i then true else if v.testBit (i + 16) then false else odr i)
      else odr i
  | Reg.BRR => fun i => if i < 16 ∧ v.testBit i then false else odr i

/-- Effect of a register store on all pins. -/
def Pins.write (p : Pins) (w : RegWrite) : Pins :=
  match w.port with
  | Port.A => { p with A := writeReg p.A w.reg w.val }
  | Port.B => { p with B := writeReg p.B w.reg w.val }
  | Port.C => { p with C := writeReg p.C w.reg w.val }

/-- Chip select (PB0), register select (PA4) and write strobe (PA1). -/
def Pins.cs (p : Pins) : Bool := p.B 0
def Pins.rs (p : Pins) : Bool := p.A 4
def Pins.wr (p : Pins) : Bool := p.A 1

/-- Level of data line `Di`, wired D0=PA9, D1=PC7, D2=PA10, D3=PB3, D4=PB5,
D5=PB4, D6=PB10, D7=PA8 (comment at line 27). -/
def Pins.dline (p : Pins) (i : Nat) : Bool :=
  match i with
  | 0 => p.A 9
  | 1 => p.C 7
  | 2 => p.A 10
  | 3 => p.B 3
  | 4 => p.B 5
  | 5 => p.B 4
  | 6 => p.B 10
  | 7 => p.A 8
  | _ => false

/-- The byte on the data lines D7..D0. -/
def Pins.dataBus (p : Pins) : Nat :=
  (if p.dline 0 then 1 else 0) + (if p.dline 1 then 2 else 0) +
  (if p.dline 2 then 4 else 0) + (if p.dline 3 then 8 else 0) +
  (if p.dline 4 then 16 else 0) + (if p.dline 5 then 32 else 0) +
  (if p.dline 6 then 64 else 0) + (if p.dline 7 then 128 else 0)

/-- What the controller samples on a rising edge of `WR`. -/
structure Strobe where
  cs : Bool
  rs : Bool
  byte : Nat
deriving DecidableEq, Repr

/-- One register store: new pin levels, and the strobe it causes if `WR` rises. -/
def step (p : Pins) (w : RegWrite) : Pins × List Strobe :=
  let q := p.write w
  (q, if !p.wr && q.wr then [⟨q.cs, q.rs, q.dataBus⟩] else [])

/-- Pin levels left by `MX_GPIO_Init` (lines 604-606): `RD`, `WR`, `RS` (PA0, PA1,
PA4) and `CS` (PB0) high, everything else low. -/
def Pins.idle : Pins :=
  { A := fun i => decide (i = 0 ∨ i = 1 ∨ i = 4)
    B := fun i => decide (i = 0)
    C := fun _ => false }

/-- Pin levels after a sequence of register stores. -/
def pinsAfter (p : Pins) : List RegWrite → Pins
  | [] => p
  | w :: ws => pinsAfter (step p w).1 ws

/-- Strobes caused by a sequence of register stores, in order. -/
def strobes (p : Pins) : List RegWrite → List Strobe
  | [] => []
  | w :: ws => (step p w).2 ++ strobes (step p w).1 ws

/-! ## Call traces of the drawing layer

Everything above the two fill routines reaches the bus only through calls of
`LCD_FillRectFast` and `LCD_HLineFast` (and waits in `HAL_Delay`).  A drawing
function is embedded as the sequence of those calls, with the argument values
as the callee receives them (after conversion to the parameter type). -/

/-- One call made by the drawing layer. -/
inductive Call
  | fillRect (x y w h color : Nat)
  | hline (x y w : Int) (color : Nat)
  | delay (ms : Nat)
deriving DecidableEq, Repr

/-- Register writes performed by one call.  `HAL_Delay` writes nothing. -/
def Call.bus : Call → List RegWrite
  | Call.fillRect x y w h color => LCD_FillRectFast x y w h color
  | Call.hline x y w color => LCD_HLineFast x y w color
  | Call.delay _ => []

/-- Register writes performed by a sequence of calls. -/
def busTrace (cs : List Call) : List RegWrite := cs.flatMap Call.bus

/-- Sequential composition of two possibly non-terminating computations that
emit calls; `none` stands for a loop that did not finish. -/
def andThen (a b : Option (List Call)) : Option (List Call) :=
  match a, b with
  | some x, some y => some (x ++ y)
  | _, _ => none

/-- Sequential composition of a list of computations. -/
def seqAll : List (Option (List Call)) → Option (List Call)
  | [] => some []
  | a :: rest => andThen a (seqAll rest)

/-- The loop `for (int16_t i = lo; i <= hi; i++) body(i)` for bounds with
`hi < 32767`, so that `i++` never wraps. -/
def forRange (lo hi : Int) (body : Int → List Call) : List Call :=
  (List.range (hi + 1 - lo).toNat).flatMap (fun k => body (lo + (k : Int)))

/-- `LCD_Fill` (line 163). -/
def LCD_Fill (color : Nat) : List Call := [Call.fillRect 0 0 240 320 color]

/-! ## Rasterizer (`main.c` lines 292-350) -/

/-- The `while (x >= y)` loop of `LCD_FillCircle`, run for at most the given
number of iterations; `none` if the loop condition still holds after that. -/
def circleLoop (x0 y0 : Int) (color : Nat) : Nat → Int → Int → Int → Option (List Call)
  | 0, x, y, _ => if x ≥ y then none else some []
  | fuel + 1, x, y, err =>
    if x ≥ y then
      let runs :=
        [ Call.hline (toI16 (x0 - x)) (toI16 (y0 + y)) (toI16 (x * 2 + 1)) color,
          Call.hline (toI16 (x0 - x)) (toI16 (y0 - y)) (toI16 (x * 2 + 1)) color,
          Call.hline (toI16 (x0 - y)) (toI16 (y0 + x)) (toI16 (y * 2 + 1)) color,
          Call.hline (toI16 (x0 - y)) (toI16 (y0 - x)) (toI16 (y * 2 + 1)) color ]
      let y1 := toI16 (y + 1)
      let x1 := if err < 0 then x else toI16 (x - 1)
      let err1 := if err < 0 then toI16 (err + (2 * y1 + 1)) else toI16 (err + 2 * (y1 - x1 + 1))
      andThen (some runs) (circleLoop x0 y0 color fuel x1 y1 err1)
    else some []

/-- `LCD_FillCircle(x0, y0, r, color)`.  The loop counter `y` is an `int16_t`
that starts at 0 and stays at most `x`, so 32768 iterations are never exceeded
by a terminating run. -/
def LCD_FillCircle (x0 y0 r : Int) (color : Nat) : Option (List Call) :=
  circleLoop x0 y0 color 32768 r 0 (toI16 (1 - r))

/-- `LCD_RoundRect(x, y, w, h, r, color)`. -/
def LCD_RoundRect (x y w h r : Int) (color : Nat) : Option (List Call) :=
  seqAll
    [ some (if w > 2 * r then
        [Call.fillRect (toU16 (x + r)) (toU16 y) (toU16 (w - 2 * r)) (toU16 h) color] else []),
      some (if h > 2 * r then
        [ Call.fillRect (toU16 x) (toU16 (y + r)) (toU16 r) (toU16 (h - 2 * r)) color,
          Call.fillRect (toU16 (x + w - r)) (toU16 (y + r)) (toU16 r) (toU16 (h - 2 * r)) color ]
        else []),
      LCD_FillCircle (toI16 (x + r)) (toI16 (y + r)) r color,
      LCD_FillCircle (toI16 (x + w - r - 1)) (toI16 (y + r)) r color,
      LCD_FillCircle (toI16 (x + r)) (toI16 (y + h - r - 1)) r color,
      LCD_FillCircle (toI16 (x + w - r - 1)) (toI16 (y + h - r - 1)) r color ]

/-- The `while (1)` loop of `LCD_ThickLine` (lines 343-349), run for at most
the given number of iterations; `none` if it has not reached the `break` by
then. -/
def lineLoop (x1 y1 t : Int) (color : Nat) (dx dy sx sy : Int) :
    Nat → Int → Int → Int → Option (List Call)
  | 0, _, _, _ => none
  | fuel + 1, x0, y0, err =>
    let stamp := Call.fillRect (toU16 (x0 - t.tdiv 2)) (toU16 (y0 - t.tdiv 2)) (toU16 t) (toU16 t) color
    if x0 = x1 ∧ y0 = y1 then some [stamp] else
    let e2 := toI16 (2 * err)
    let errA := if e2 > -dy then toI16 (err - dy) else err
    let xA := if e2 > -dy then toI16 (x0 + sx) else x0
    let errB := if e2 < dx then toI16 (errA + dx) else errA
    let yB := if e2 < dx then toI16 (y0 + sy) else y0
    andThen (some [stamp]) (lineLoop x1 y1 t color dx dy sx sy fuel xA yB errB)

/-- `LCD_ThickLine(x0, y0, x1, y1, t, color)`.  The walk is followed for up to
65536 stamps. -/
def LCD_ThickLine (x0 y0 x1 y1 t : Int) (color : Nat) : Option (List Call) :=
  let dx := toI16 (if x1 > x0 then x1 - x0 else x0 - x1)
  let dy := toI16 (if y1 > y0 then y1 - y0 else y0 - y1)
  if dy ≤ 2 then
    let minX := if x0 < x1 then x0 else x1
    let maxX := if x0 > x1 then x0 else x1
    some [Call.fillRect (toU16 minX) (toU16 ((y0 + y1).tdiv 2 - t.tdiv 2))
      (toU16 (maxX - minX + 1)) (toU16 t) color]
  else if dx ≤ 2 then
    let minY := if y0 < y1 then y0 else y1
    let maxY := if y0 > y1 then y0 else y1
    some [Call.fillRect (toU16 ((x0 + x1).tdiv 2 - t.tdiv 2)) (toU16 minY)
      (toU16 t) (toU16 (maxY - minY + 1)) color]
  else
    let sx : Int := if x0 < x1 then 1 else -1
    let sy : Int := if y0 < y1 then 1 else -1
    let err := toI16 (dx - dy)
    lineLoop x1 y1 t color dx dy sx sy 65536 x0 y0 err

/-! ## Eye geometry and expressions (`main.c` lines 258-505) -/

def EYE_AREA_X : Int := 10
def EYE_AREA_Y : Int := 80
def EYE_AREA_W : Int := 220
def EYE_AREA_H : Int := 160
def LX : Int := 55
def RX : Int := 165
def CY : Int := 80
def EYE_W : Int := 50
def EYE_H : Int := 70
def EYE_R : Int := 18
def EYE_COLOR : Nat := 0x07E0
def EYE_BRIGHT : Nat := 0xAFE0
def EYE_DIM : Nat := 0x0320
def EYE_BG : Nat := 0x0000

/-- The enumeration `Expression_t`. -/
inductive Expression_t
  | EXPR_NORMAL | EXPR_HAPPY | EXPR_SAD | EXPR_ANGRY
  | EXPR_SURPRISED | EXPR_SLEEPY | EXPR_WINK_LEFT | EXPR_WINK_RIGHT
  | EXPR_BLINK | EXPR_LOVE | EXPR_DIZZY
  | EXPR_LOOK_LEFT | EXPR_LOOK_RIGHT | EXPR_LOOK_UP | EXPR_LOOK_DOWN
deriving DecidableEq, Repr

open Expression_t

def Eye_Clear : List Call :=
  [Call.fillRect (toU16 EYE_AREA_X) (toU16 EYE_AREA_Y) (toU16 EYE_AREA_W) (toU16 EYE_AREA_H) EYE_BG]

def Eye_Normal (cx ox oy : Int) : Option (List Call) :=
  let sx := toI16 (EYE_AREA_X + cx - EYE_W.tdiv 2)
  let sy := toI16 (EYE_AREA_Y + CY - EYE_H.tdiv 2)
  seqAll
    [ LCD_RoundRect sx sy EYE_W EYE_H EYE_R EYE_COLOR,
      LCD_FillCircle (toI16 (sx + 8 + ox)) (toI16 (sy + 10 + oy)) 5 EYE_BRIGHT ]

def Eye_Closed (cx : Int) : List Call :=
  let sx := toI16 (EYE_AREA_X + cx - EYE_W.tdiv 2 + 5)
  let sy := toI16 (EYE_AREA_Y + CY)
  [Call.fillRect (toU16 sx) (toU16 (sy - 3)) (toU16 (EYE_W - 10)) 7 EYE_COLOR]

/-- `Eye_Half(cx, pct)` with `pct` a `uint8_t`. -/
def Eye_Half (cx : Int) (pct : Nat) : Option (List Call) :=
  let h := toI16 ((EYE_H * (pct : Int)).tdiv 100)
  if h < 10 then some (Eye_Closed cx) else
  let sx := toI16 (EYE_AREA_X + cx - EYE_W.tdiv 2)
  let sy := toI16 (EYE_AREA_Y + CY + EYE_H.tdiv 2 - h)
  LCD_RoundRect sx sy EYE_W h (EYE_R.tdiv 2) EYE_COLOR

/-- `Eye_Happy`: loop bounds `-EYE_W/2 + 3` and `EYE_W/2 - 3`, `n` computed in
`int32_t`. -/
def Eye_Happy (cx : Int) : List Call :=
  let bx := toI16 (EYE_AREA_X + cx)
  let byy := toI16 (EYE_AREA_Y + CY)
  forRange ((-EYE_W).tdiv 2 + 3) (EYE_W.tdiv 2 - 3) (fun i =>
    let n := (i * i * 100).tdiv (EYE_W.tdiv 2 * EYE_W.tdiv 2)
    let y := toI16 (byy + 5 - (15 * (100 - n)).tdiv 100)
    [Call.fillRect (toU16 (bx + i)) (toU16 (y - 4)) 2 6 EYE_COLOR])

def Eye_Sad (cx : Int) : Option (List Call) :=
  let sx := toI16 (EYE_AREA_X + cx - EYE_W.tdiv 2)
  let sy := toI16 (EYE_AREA_Y + CY - EYE_H.tdiv 2 + 8)
  seqAll
    [ LCD_RoundRect sx sy EYE_W (toI16 (EYE_H - 8)) EYE_R EYE_COLOR,
      LCD_ThickLine (toI16 (sx - 3)) (toI16 (sy - 3)) (toI16 (sx + EYE_W + 3)) (toI16 (sy + 12))
        5 EYE_COLOR ]

/-- `Eye_Angry(cx, is_left)` with `is_left` a `uint8_t` flag. -/
def Eye_Angry (cx : Int) ( is_left : Nat) : Option (List Call) :=
  let sx := toI16 (EYE_AREA_X + cx - EYE_W.tdiv 2)
  let sy := toI16 (EYE_AREA_Y + CY - EYE_H.tdiv 2 + 10)
  seqAll
    [ LCD_RoundRect sx sy EYE_W (toI16 (EYE_H - 15)) (toI16 (EYE_R - 3)) EYE_COLOR,
      if is_left ≠ 0 then
        LCD_ThickLine (toI16 (sx - 5)) (toI16 (sy + 8)) (toI16 (sx + EYE_W + 5)) (toI16 (sy - 10))
          6 EYE_COLOR
      else
        LCD_ThickLine (toI16 (sx - 5)) (toI16 (sy - 10)) (toI16 (sx + EYE_W + 5)) (toI16 (sy + 8))
          6 EYE_COLOR ]

def Eye_Surprised (cx : Int) : Option (List Call) :=
  let x := toI16 (EYE_AREA_X + cx)
  let y := toI16 (EYE_AREA_Y + CY)
  seqAll
    [ LCD_FillCircle x y (toI16 (EYE_H.tdiv 2 + 5)) EYE_COLOR,
      LCD_FillCircle x y (toI16 (EYE_H.tdiv 2 - 8)) EYE_DIM,
      LCD_FillCircle (toI16 (x - 8)) (toI16 (y - 8)) 7 EYE_BRIGHT,
      LCD_FillCircle (toI16 (x + 4)) (toI16 (y + 4)) 4 EYE_BRIGHT ]

def Eye_Heart (cx : Int) : Option (List Call) :=
  let x := toI16 (EYE_AREA_X + cx)
  let y := toI16 (EYE_AREA_Y + CY)
  let s : Int := 18
  seqAll
    [ LCD_FillCircle (toI16 (x - s.tdiv 2 - 2)) (toI16 (y - s.tdiv 3)) (toI16 (s.tdiv 2 + 2)) EYE_COLOR,
      LCD_FillCircle (toI16 (x + s.tdiv 2 + 2)) (toI16 (y - s.tdiv 3)) (toI16 (s.tdiv 2 + 2)) EYE_COLOR,
      some (forRange 0 (s + 5 - 1) (fun r =>
        let w := toI16 (s + 5 - r)
        [Call.fillRect (toU16 (x - w)) (toU16 (y - s.tdiv 3 + r)) (toU16 (w * 2 + 1)) 1 EYE_COLOR])) ]

def Eye_X (cx : Int) : Option (List Call) :=
  let x := toI16 (EYE_AREA_X + cx)
  let y := toI16 (EYE_AREA_Y + CY)
  let s := toI16 (EYE_H.tdiv 2 - 8)
  seqAll
    [ LCD_ThickLine (toI16 (x - s)) (toI16 (y - s)) (toI16 (x + s)) (toI16 (y + s)) 6 EYE_COLOR,
      LCD_ThickLine (toI16 (x + s)) (toI16 (y - s)) (toI16 (x - s)) (toI16 (y + s)) 6 EYE_COLOR ]

/-- The `switch` of `Draw_Expression`, after the clear. -/
def drawEyes (expr : Expression_t) (ox oy : Int) : Option (List Call) :=
  match expr with
  | EXPR_NORMAL => seqAll [Eye_Normal LX ox oy, Eye_Normal RX ox oy]
  | EXPR_HAPPY => seqAll [some (Eye_Happy LX), some (Eye_Happy RX)]
  | EXPR_SAD => seqAll [Eye_Sad LX, Eye_Sad RX]
  | EXPR_ANGRY => seqAll [Eye_Angry LX 1, Eye_Angry RX 0]
  | EXPR_SURPRISED => seqAll [Eye_Surprised LX, Eye_Surprised RX]
  | EXPR_SLEEPY => seqAll [Eye_Half LX 30, Eye_Half RX 30]
  | EXPR_WINK_LEFT => seqAll [some (Eye_Closed LX), Eye_Normal RX 0 0]
  | EXPR_WINK_RIGHT => seqAll [Eye_Normal LX 0 0, some (Eye_Closed RX)]
  | EXPR_BLINK => seqAll [some (Eye_Closed LX), some (Eye_Closed RX)]
  | EXPR_LOVE => seqAll [Eye_Heart LX, Eye_Heart RX]
  | EXPR_DIZZY => seqAll [Eye_X LX, Eye_X RX]
  | EXPR_LOOK_LEFT => seqAll [Eye_Normal LX (-8) 0, Eye_Normal RX (-8) 0]
  | EXPR_LOOK_RIGHT => seqAll [Eye_Normal LX 8 0, Eye_Normal RX 8 0]
  | EXPR_LOOK_UP => seqAll [Eye_Normal LX 0 (-8), Eye_Normal RX 0 (-8)]
  | EXPR_LOOK_DOWN => seqAll [Eye_Normal LX 0 8, Eye_Normal RX 0 8]

/-- `Draw_Expression(expr, ox, oy)`: clear, then draw both eyes. -/
def Draw_Expression (expr : Expression_t) (ox oy : Int) : Option (List Call) :=
  andThen (some Eye_Clear) (drawEyes expr ox oy)

/-! ## Animation (`main.c` lines 283-285 and 507-574) -/

/-- The three `static` variables `current_expr`, `last_blink`, `last_action`. -/
structure AnimState where
  current_expr : Expression_t
  last_blink : Nat
  last_action : Nat
deriving DecidableEq, Repr

/-- State at program start. -/
def AnimState.init : AnimState := ⟨EXPR_NORMAL, 0, 0⟩

/-- Result of running an animation routine: the new static state and the calls made. -/
def withState (s : AnimState) (c : Option (List Call)) : Option (AnimState × List Call) :=
  c.map (fun l => (s, l))

/-- Run `f`, then `g` on the state `f` left, concatenating the calls made. -/
def thenRun (f : Option (AnimState × List Call)) (g : AnimState → Option (AnimState × List Call)) :
    Option (AnimState × List Call) :=
  match f with
  | none => none
  | some (s, c) =>
    match g s with
    | none => none
    | some (s2, c2) => some (s2, c ++ c2)

def Anim_SetExpr (expr : Expression_t) (s : AnimState) : Option (AnimState × List Call) :=
  withState { s with current_expr := expr } (Draw_Expression expr 0 0)

def Anim_Blink (s : AnimState) : Option (AnimState × List Call) :=
  withState s (seqAll
    [ some Eye_Clear, Eye_Half LX 50, Eye_Half RX 50,
      some Eye_Clear, some (Eye_Closed LX), some (Eye_Closed RX), some [Call.delay 40],
      some Eye_Clear, Eye_Half LX 50, Eye_Half RX 50,
      Draw_Expression s.current_expr 0 0 ])

def Anim_WinkL (s : AnimState) : Option (AnimState × List Call) :=
  withState s (seqAll
    [ some Eye_Clear, some (Eye_Closed LX), Eye_Normal RX 0 0, some [Call.delay 180],
      Draw_Expression EXPR_NORMAL 0 0 ])

def Anim_WinkR (s : AnimState) : Option (AnimState × List Call) :=
  withState s (seqAll
    [ some Eye_Clear, Eye_Normal LX 0 0, some (Eye_Closed RX), some [Call.delay 180],
      Draw_Expression EXPR_NORMAL 0 0 ])

/-- `HAL_Delay(ms)` as an animation step. -/
def HAL_Delay (ms : Nat) (s : AnimState) : Option (AnimState × List Call) :=
  some (s, [Call.delay ms])

def Anim_LookAround (s : AnimState) : Option (AnimState × List Call) :=
  thenRun (Anim_SetExpr EXPR_LOOK_LEFT s) fun s =>
  thenRun (HAL_Delay 280 s) fun s =>
  thenRun (Anim_SetExpr EXPR_NORMAL s) fun s =>
  thenRun (HAL_Delay 80 s) fun s =>
  thenRun (Anim_SetExpr EXPR_LOOK_RIGHT s) fun s =>
  thenRun (HAL_Delay 280 s) fun s =>
  Anim_SetExpr EXPR_NORMAL s

/-- Subtraction of `uint32_t` values. -/
def sub32 (a b : Nat) : Nat := (a + 4294967296 - b % 4294967296) % 4294967296

/-- The `switch (rand() % 5)` of `Anim_Idle`. -/
def idleAction (r : Nat) (s : AnimState) : Option (AnimState × List Call) :=
  match r % 5 with
  | 0 => thenRun (Anim_SetExpr EXPR_LOOK_LEFT s) (HAL_Delay 300)
  | 1 => thenRun (Anim_SetExpr EXPR_LOOK_RIGHT s) (HAL_Delay 300)
  | 2 => Anim_WinkL s
  | 3 => Anim_WinkR s
  | _ => Anim_LookAround s

/-- `Anim_Idle` with the value `t` read from `HAL_GetTick()` and the values
`r1`, `r2`, `r3` returned by the successive calls of `rand()` (the third call
only happens when the action fires). -/
def Anim_Idle (t r1 r2 r3 : Nat) (s : AnimState) : Option (AnimState × List Call) :=
  thenRun
    (if sub32 t s.last_blink > 2500 + r1 % 2000 then
      thenRun (Anim_Blink s) fun s => some ({ s with last_blink := t }, [])
    else some (s, []))
    fun s =>
      if sub32 t s.last_action > 6000 + r2 % 4000 then
        thenRun (idleAction r3 s) fun s =>
        thenRun (Anim_SetExpr EXPR_NORMAL s) fun s =>
        some ({ s with last_action := t }, [])
      else some (s, [])

/-! ## The display controller

The panel is hardware outside the program.  Its model follows the part of the
ILI9341 command set that `main.c` uses after initialisation: column address set
(0x2A), page address set (0x2B) and memory write (0x2C) with 16-bit pixels; the
write pointer runs through the addressing window row by row and wraps at its
end.  Bytes are latched on a write strobe while chip select is low. -/

/-- Controller state. -/
@[ext]
structure Lcd where
  cmd : Nat
  args : List Nat
  xs : Nat
  xe : Nat
  ys : Nat
  ye : Nat
  col : Nat
  row : Nat
  pending : Option Nat
  gram : Nat → Nat → Nat

/-- Store one pixel at the write pointer and advance the pointer. -/
def Lcd.writePixel (l : Lcd) (c : Nat) : Lcd :=
  { l with
    gram := fun x y => if x = l.col ∧ y = l.row then c else l.gram x y
    col := if l.col ≥ l.xe then l.xs else l.col + 1
    row := if l.col ≥ l.xe then (if l.row ≥ l.ye then l.ys else l.row + 1) else l.row }

/-- A parameter byte of a command that takes two big-endian 16-bit values. -/
def Lcd.pushArg (l : Lcd) (b : Nat) : Lcd :=
  let a := l.args ++ [b]
  match l.cmd, a with
  | 0x2A, [b0, b1, b2, b3] => { l with args := a, xs := b0 * 256 + b1, xe := b2 * 256 + b3 }
  | 0x2B, [b0, b1, b2, b3] => { l with args := a, ys := b0 * 256 + b1, ye := b2 * 256 + b3 }
  | _, _ => { l with args := a }

/-- Reaction of the controller to one write strobe. -/
def Lcd.strobe (l : Lcd) (s : Strobe) : Lcd :=
  if s.cs then l
  else if !s.rs then
    if s.byte = 0x2C then
      { l with cmd := s.byte, args := [], pending := none, col := l.xs, row := l.ys }
    else { l with cmd := s.byte, args := [], pending := none }
  else if l.cmd = 0x2C then
    match l.pending with
    | none => { l with pending := some s.byte }
    | some hi => { (l.writePixel (hi * 256 + s.byte)) with pending := none }
  else l.pushArg s.byte

/-- Controller state after a sequence of register writes, starting from pin
levels `p` and controller state `l`. -/
def Lcd.after (l : Lcd) (p : Pins) (ws : List RegWrite) : Lcd :=
  (strobes p ws).foldl Lcd.strobe l

/-! ## Reference descriptions used in the statements -/

/-- The strobes of `n` pixels sent with the given chip-select and register-select
levels: high byte then low byte, `n` times. -/
def pixelStrobes (cs rs : Bool) (hi lo : Nat) (n : Nat) : List Strobe :=
  (List.replicate n [(⟨cs, rs, hi⟩ : Strobe), ⟨cs, rs, lo⟩]).flatten

/-- The strobes of `LCD_SetWindow`: three commands with `RS` low, eight
parameter bytes with `RS` high, all with chip select low. -/
def windowStrobes (x1 y1 x2 y2 : Nat) : List Strobe :=
  [ ⟨false, false, 0x2A⟩,
    ⟨false, true, toU8 (x1 >>> 8)⟩, ⟨false, true, toU8 (x1 &&& 0xFF)⟩,
    ⟨false, true, toU8 (x2 >>> 8)⟩, ⟨false, true, toU8 (x2 &&& 0xFF)⟩,
    ⟨false, false, 0x2B⟩,
    ⟨false, true, toU8 (y1 >>> 8)⟩, ⟨false, true, toU8 (y1 &&& 0xFF)⟩,
    ⟨false, true, toU8 (y2 >>> 8)⟩, ⟨false, true, toU8 (y2 &&& 0xFF)⟩,
    ⟨false, false, 0x2C⟩ ]

/-- A sequence of register writes keeps the bus discipline from pin levels `p`:
chip select is high afterwards and every strobe happens with chip select low. -/
def csFramed (p : Pins) (ws : List RegWrite) : Prop :=
  (pinsAfter p ws).cs = true ∧ ∀ s ∈ strobes p ws, s.cs = false

/-- The register writes of a complete fill: set the window, then stream `n`
pixels with the plain loop inside one chip-select frame in data mode. -/
def fillFrame (x1 y1 x2 y2 : Nat) (hi lo n : Nat) : List RegWrite :=
  LCD_SetWindow x1 y1 x2 y2 ++ [LCD_CS_LOW, LCD_RS_HIGH] ++ pixelLoop hi lo n ++ [LCD_CS_HIGH]

/-- The window `(x1, y1, x2, y2)` a rectangle fill is clipped to, `none` when the
fill is a no-op: width `min w (240 - x)`, height `min h (320 - y)`. -/
def fillRectWindow (x y w h : Nat) : Option (Nat × Nat × Nat × Nat) :=
  if x ≥ 240 ∨ y ≥ 320 ∨ w = 0 ∨ h = 0 then none
  else some (x, y, x + min w (240 - x) - 1, y + min h (320 - y) - 1)

/-- The window a horizontal run is clipped to: columns `max x 0` to
`min (x + w) 240 - 1` of row `y`, `none` when the row is off the surface or no
column is left. -/
def hlineWindow (x y w : Int) : Option (Nat × Nat × Nat × Nat) :=
  if 0 ≤ y ∧ y < 320 ∧ max x 0 < min (x + w) 240 then
    some ((max x 0).toNat, y.toNat, (min (x + w) 240 - 1).toNat, y.toNat)
  else none

/-- The clipped window of a call. -/
def Call.window : Call → Option (Nat × Nat × Nat × Nat)
  | Call.fillRect x y w h _ => fillRectWindow x y w h
  | Call.hline x y w _ => hlineWindow x y w
  | Call.delay _ => none

/-- The 16-bit colour a call sends. -/
def Call.color : Call → Nat
  | Call.fillRect _ _ _ _ c => toU8 (c >>> 8) * 256 + toU8 (c &&& 0xFF)
  | Call.hline _ _ _ c => toU8 (c >>> 8) * 256 + toU8 (c &&& 0xFF)
  | Call.delay _ => 0

/-- A framebuffer with the window `(x1, y1, x2, y2)` overwritten by colour `c`. -/
def paintRect (win : Nat × Nat × Nat × Nat) (c : Nat) (g : Nat → Nat → Nat) : Nat → Nat → Nat :=
  fun x y => if win.1 ≤ x ∧ x ≤ win.2.2.1 ∧ win.2.1 ≤ y ∧ y ≤ win.2.2.2 then c else g x y

/-- A framebuffer after one call: its clipped window is overwritten. -/
def Call.paint (c : Call) (g : Nat → Nat → Nat) : Nat → Nat → Nat :=
  match c.window with
  | none => g
  | some win => paintRect win c.color g

/-- A framebuffer after a sequence of calls. -/
def paintAll (cs : List Call) (g : Nat → Nat → Nat) : Nat → Nat → Nat :=
  cs.foldl (fun g c => c.paint g) g

/-- Whether a call paints only inside the area cleared by `Eye_Clear`:
columns 10 to 229, rows 80 to 239. -/
def inEyeArea (c : Call) : Bool :=
  match c.window with
  | none => true
  | some (x1, y1, x2, y2) => decide (10 ≤ x1 ∧ x2 < 230 ∧ 80 ≤ y1 ∧ y2 < 240)

/-- Range of `int16_t`. -/
def isI16 (v : Int) : Prop := -32768 ≤ v ∧ v ≤ 32767

instance (v : Int) : Decidable (isI16 v) := by unfold isI16; infer_instance

/-- The controller after `n` further pixels of colour `c`. -/
def Lcd.writePixels (l : Lcd) (c : Nat) : Nat → Lcd
  | 0 => l
  | n + 1 => (l.writePixel c).writePixels c n

/-- Display memory after a sequence of calls, starting from controller state
`l` and pin levels `p`. -/
def gramAfter (l : Lcd) (p : Pins) (cs : List Call) : Nat → Nat → Nat :=
  (l.after p (busTrace cs)).gram

/-- Whether the arguments of a call lie in the range of their C parameter types. -/
def Call.inRange : Call → Bool
  | Call.fillRect x y w h c =>
      decide (x < 65536 ∧ y < 65536 ∧ w < 65536 ∧ h < 65536 ∧ c < 65536)
  | Call.hline x y w c => decide (isI16 x ∧ isI16 y ∧ isI16 w ∧ c < 65536)
  | Call.delay _ => true

/-- Whether a computation finishes and makes only in-range calls that paint
inside the eye area. -/
def staysInEyeArea (c : Option (List Call)) : Bool :=
  match c with
  | none => false
  | some l => l.all (fun c => c.inRange && inEyeArea c)

/-! ## Painted pixels -/

/-- Pixel `(px, py)` of the surface lies in the clipped window of the call, so
the call writes it. -/
def Call.hits (c : Call) (px py : Nat) : Prop :=
  match c.window with
  | none => False
  | some (x1, y1, x2, y2) => x1 ≤ px ∧ px ≤ x2 ∧ y1 ≤ py ∧ py ≤ y2

instance (c : Call) (px py : Nat) : Decidable (c.hits px py) := by
  unfold Call.hits
  split <;> infer_instance

/-- Pixel `(px, py)` is written by some call of the sequence. -/
def painted (l : List Call) (px py : Nat) : Prop := ∃ c ∈ l, c.hits px py

instance (l : List Call) (px py : Nat) : Decidable (painted l px py) := by
  unfold painted
  infer_instance

/-- The point `(px, py)` of the integer plane is a surface pixel written by
the sequence of calls. -/
def paintedAt (l : List Call) (px py : Int) : Prop :=
  0 ≤ px ∧ 0 ≤ py ∧ painted l px.toNat py.toNat

/-- The calls of a terminating computation (no calls for a diverging one). -/
def callsOf (c : Option (List Call)) : List Call := c.getD []

/-- Arithmetic on the centre and radius of a circle stays within `int16_t`:
`cx ± r`, `cy ± r` and the longest run `2r + 1` are representable. -/
def circleFits (cx cy r : Int) : Prop :=
  -32768 ≤ cx - r ∧ cx + r ≤ 32767 ∧ -32768 ≤ cy - r ∧ cy + r ≤ 32767 ∧ 2 * r + 1 ≤ 32767

/-- A call is a horizontal run that lies within the square
`[cx-r, cx+r] x [cy-r, cy+r]` and is symmetric about the column `cx`:
columns `cx-a .. cx+a` of row `cy+b`. -/
def runInBox (cx cy r : Int) (color : Nat) (q : Call) : Prop :=
  ∃ a b : Int, 0 ≤ a ∧ a ≤ r ∧ -r ≤ b ∧ b ≤ r ∧ q = Call.hline (cx - a) (cy + b) (2 * a + 1) color

/-- The length argument of a horizontal run is at most `n`. -/
def runLengthLe (n : Int) (q : Call) : Prop :=
  ∃ x y w color, q = Call.hline x y w color ∧ w ≤ n

instance (l : List Call) (px py : Int) : Decidable (paintedAt l px py) := by
  unfold paintedAt
  infer_instance

/-- Number of distinct pixels of the 240x320 surface written by a sequence of calls. -/
def paintedCount (l : List Call) : Nat :=
  ((Finset.range 240 ×ˢ Finset.range 320).filter (fun q => painted l q.1 q.2)).card

/-- The outline drawn by `Eye_Normal`: its rounded rectangle (line 363). -/
def eyeOutline (cx : Int) : Option (List Call) :=
  LCD_RoundRect (toI16 (EYE_AREA_X + cx - EYE_W.tdiv 2))
    (toI16 (EYE_AREA_Y + CY - EYE_H.tdiv 2)) EYE_W EYE_H EYE_R EYE_COLOR

/-- The highlight drawn by `Eye_Normal`: its filled circle (line 364). -/
def eyeHighlight (cx ox oy : Int) : Option (List Call) :=
  LCD_FillCircle (toI16 (toI16 (EYE_AREA_X + cx - EYE_W.tdiv 2) + 8 + ox))
    (toI16 (toI16 (EYE_AREA_Y + CY - EYE_H.tdiv 2) + 10 + oy)) 5 EYE_BRIGHT

/-- Whether the clipped window of `q` lies inside the clipped window of a single
call of `l`. -/
def windowWithin (q : Call) (l : List Call) : Bool :=
  match q.window with
  | none => true
  | some (a1, b1, a2, b2) =>
    l.any (fun o =>
      match o.window with
      | none => false
      | some (x1, y1, x2, y2) => decide (x1 ≤ a1 ∧ a2 ≤ x2 ∧ y1 ≤ b1 ∧ b2 ≤ y2))

/-- Whether outline and highlight both finish and every highlight run lies
inside one outline window. -/
def highlightInside (cx ox oy : Int) : Bool :=
  match eyeOutline cx, eyeHighlight cx ox oy with
  | some o, some hl => hl.all (fun q => windowWithin q o)
  | _, _ => false

/-- The left-eye call of each `case` of `Draw_Expression`. -/
def leftEye (expr : Expression_t) (ox oy : Int) : Option (List Call) :=
  match expr with
  | EXPR_NORMAL => Eye_Normal LX ox oy
  | EXPR_HAPPY => some (Eye_Happy LX)
  | EXPR_SAD => Eye_Sad LX
  | EXPR_ANGRY => Eye_Angry LX 1
  | EXPR_SURPRISED => Eye_Surprised LX
  | EXPR_SLEEPY => Eye_Half LX 30
  | EXPR_WINK_LEFT => some (Eye_Closed LX)
  | EXPR_WINK_RIGHT => Eye_Normal LX 0 0
  | EXPR_BLINK => some (Eye_Closed LX)
  | EXPR_LOVE => Eye_Heart LX
  | EXPR_DIZZY => Eye_X LX
  | EXPR_LOOK_LEFT => Eye_Normal LX (-8) 0
  | EXPR_LOOK_RIGHT => Eye_Normal LX 8 0
  | EXPR_LOOK_UP => Eye_Normal LX 0 (-8)
  | EXPR_LOOK_DOWN => Eye_Normal LX 0 8

/-- The right-eye call of each `case` of `Draw_Expression`. -/
def rightEye (expr : Expression_t) (ox oy : Int) : Option (List Call) :=
  match expr with
  | EXPR_NORMAL => Eye_Normal RX ox oy
  | EXPR_HAPPY => some (Eye_Happy RX)
  | EXPR_SAD => Eye_Sad RX
  | EXPR_ANGRY => Eye_Angry RX 0
  | EXPR_SURPRISED => Eye_Surprised RX
  | EXPR_SLEEPY => Eye_Half RX 30
  | EXPR_WINK_LEFT => Eye_Normal RX 0 0
  | EXPR_WINK_RIGHT => some (Eye_Closed RX)
  | EXPR_BLINK => some (Eye_Closed RX)
  | EXPR_LOVE => Eye_Heart RX
  | EXPR_DIZZY => Eye_X RX
  | EXPR_LOOK_LEFT => Eye_Normal RX (-8) 0
  | EXPR_LOOK_RIGHT => Eye_Normal RX 8 0
  | EXPR_LOOK_UP => Eye_Normal RX 0 (-8)
  | EXPR_LOOK_DOWN => Eye_Normal RX 0 8

/-- Whether the clipped window of a call, if any, lies in columns `lo ≤ x < hi`
and rows `80 ≤ y < 240`. -/
def windowInCols (lo hi : Nat) (c : Call) : Bool :=
  match c.window with
  | none => true
  | some (x1, y1, x2, y2) => decide (lo ≤ x1 ∧ x2 < hi ∧ 80 ≤ y1 ∧ y2 < 240)

/-- Whether both eyes of an expression finish drawing, the left eye within
columns 10 to 119 and the right eye within columns 120 to 229, rows 80 to 239. -/
def socketsApart (expr : Expression_t) : Bool :=
  match leftEye expr 0 0, rightEye expr 0 0 with
  | some l, some r => l.all (windowInCols 10 120) && r.all (windowInCols 120 230)
  | _, _ => false

/-- Successive calls of `Anim_Idle` that all read the same tick value `t`
from `HAL_GetTick()`; each element of the list gives the three values
`rand()` returns during one call. -/
def idleCalls (t : Nat) : List (Nat × Nat × Nat) → AnimState → Option (AnimState × List Call)
  | [], s => some (s, [])
  | (r1, r2, r3) :: rest, s => thenRun (Anim_Idle t r1 r2 r3 s) (idleCalls t rest)

/-- The call `LCD_ThickLine` makes in its loop when the walk stands at `p`:
the `t × t` square whose corner is `t/2` before `p` in both directions. -/
def stampAt (t : Int) (color : Nat) (p : Int × Int) : Call :=
  Call.fillRect (toU16 (p.1 - t.tdiv 2)) (toU16 (p.2 - t.tdiv 2)) (toU16 t) (toU16 t) color

/-- The result `r` is a run of `n + 1` stamps whose positions start at
`(x, y)`, end at `(x1, y1)` and all lie in the bounding box of these two. -/
def WalkFrom (x1 y1 t : Int) (color : Nat) (r : Option (List Call)) (n : Nat) (x y : Int) :
    Prop :=
  ∃ path : List (Int × Int),
    r = some (path.map (stampAt t color)) ∧
    path.head? = some (x, y) ∧ path.getLast? = some (x1, y1) ∧
    (∀ p ∈ path, min x x1 ≤ p.1 ∧ p.1 ≤ max x x1 ∧ min y y1 ≤ p.2 ∧ p.2 ≤ max y y1) ∧
    path.length = n + 1

/-! # Verification

## Byte output -/

theorem and_bit_eq_testBit : ∀ d, d < 256 → ∀ i, i < 8 → (d &&& 2 ^ i != 0) = d.testBit i := by
  decide!

theorem byte_of_bits : ∀ d, d < 256 →
    (if (d &&& 0x01 != 0) = true then 1 else 0) + (if (d &&& 0x02 != 0) = true then 2 else 0) +
    (if (d &&& 0x04 != 0) = true then 4 else 0) + (if (d &&& 0x08 != 0) = true then 8 else 0) +
    (if (d &&& 0x10 != 0) = true then 16 else 0) + (if (d &&& 0x20 != 0) = true then 32 else 0) +
    (if (d &&& 0x40 != 0) = true then 64 else 0) + (if (d &&& 0x80 != 0) = true then 128 else 0) = d := by
  decide!

theorem not_and_self_bool (b : Bool) : (!b && b) = false := by cases b <;> rfl

theorem pinsA_write8 (d : Nat) (p : Pins) (i : Nat) :
    (pinsAfter p (LCD_Write8Fast d)).A i =
      if i = 9 then (d &&& 0x01 != 0) else if i = 10 then (d &&& 0x04 != 0)
      else if i = 8 then (d &&& 0x80 != 0) else if i = 1 then true else p.A i := by
  simp only [LCD_Write8Fast, paMasks, pbMasks, pcMasks]
  generalize (d &&& 0x01 != 0) = b0
  generalize (d &&& 0x04 != 0) = b2
  generalize (d &&& 0x80 != 0) = b7
  by_cases hi : i < 16
  · interval_cases i <;> cases b0 <;> cases b2 <;> cases b7 <;> rfl
  · have h9 : i ≠ 9 := by omega
    have h10 : i ≠ 10 := by omega
    have h8 : i ≠ 8 := by omega
    have h1 : i ≠ 1 := by omega
    simp [pinsAfter, step, Pins.write, writeReg, hi, h9, h10, h8, h1, LCD_WR_LOW, LCD_WR_HIGH]

theorem pinsB_write8 (d : Nat) (p : Pins) (i : Nat) :
    (pinsAfter p (LCD_Write8Fast d)).B i =
      if i = 3 then (d &&& 0x08 != 0) else if i = 5 then (d &&& 0x10 != 0)
      else if i = 4 then (d &&& 0x20 != 0) else if i = 10 then (d &&& 0x40 != 0) else p.B i := by
  simp only [LCD_Write8Fast, paMasks, pbMasks, pcMasks]
  generalize (d &&& 0x08 != 0) = b3
  generalize (d &&& 0x10 != 0) = b4
  generalize (d &&& 0x20 != 0) = b5
  generalize (d &&& 0x40 != 0) = b6
  by_cases hi : i < 16
  · interval_cases i <;> cases b3 <;> cases b4 <;> cases b5 <;> cases b6 <;> rfl
  · have h3 : i ≠ 3 := by omega
    have h5 : i ≠ 5 := by omega
    have h4 : i ≠ 4 := by omega
    have h10 : i ≠ 10 := by omega
    simp [pinsAfter, step, Pins.write, writeReg, hi, h3, h5, h4, h10, LCD_WR_LOW, LCD_WR_HIGH]

theorem pinsC_write8 (d : Nat) (p : Pins) (i : Nat) :
    (pinsAfter p (LCD_Write8Fast d)).C i = if i = 7 then (d &&& 0x02 != 0) else p.C i := by
  simp only [LCD_Write8Fast, paMasks, pbMasks, pcMasks]
  generalize (d &&& 0x02 != 0) = b1
  by_cases hi : i < 16
  · interval_cases i <;> cases b1 <;> rfl
  · have h7 : i ≠ 7 := by omega
    simp [pinsAfter, step, Pins.write, writeReg, hi, h7, LCD_WR_LOW, LCD_WR_HIGH]

theorem cs_write8 (d : Nat) (p : Pins) : (pinsAfter p (LCD_Write8Fast d)).cs = p.cs := by
  simp [Pins.cs, pinsB_write8]

theorem rs_write8 (d : Nat) (p : Pins) : (pinsAfter p (LCD_Write8Fast d)).rs = p.rs := by
  simp [Pins.rs, pinsA_write8]

theorem wr_write8 (d : Nat) (p : Pins) : (pinsAfter p (LCD_Write8Fast d)).wr = true := by
  simp [Pins.wr, pinsA_write8]


theorem dataBus_write8 (d : Nat) (hd : d < 256) (p : Pins) :
    (pinsAfter p (LCD_Write8Fast d)).dataBus = d := by
  have e := byte_of_bits d hd
  unfold Pins.dataBus Pins.dline
  rw [pinsA_write8, pinsA_write8, pinsA_write8, pinsB_write8, pinsB_write8, pinsB_write8,
    pinsB_write8, pinsC_write8]
  exact e

theorem step_quiet (p : Pins) (w : RegWrite) (h : (p.write w).wr = p.wr) :
    (step p w).2 = [] := by
  unfold step
  simp only [h, not_and_self_bool]
  rfl

theorem wr_write_dataA (d : Nat) (p : Pins) :
    (p.write ⟨Port.A, Reg.BSRR, (paMasks d).1 ||| ((paMasks d).2 <<< 16)⟩).wr = p.wr := by
  simp only [paMasks]
  generalize (d &&& 0x01 != 0) = b0
  generalize (d &&& 0x04 != 0) = b2
  generalize (d &&& 0x80 != 0) = b7
  cases b0 <;> cases b2 <;> cases b7 <;> rfl

theorem step_rise (p : Pins) (w : RegWrite) (h0 : p.wr = false) (h1 : (p.write w).wr = true) :
    (step p w).2 = [⟨(p.write w).cs, (p.write w).rs, (p.write w).dataBus⟩] := by
  unfold step
  simp only [h0, h1]
  rfl

theorem step_fall (p : Pins) (w : RegWrite) (h1 : (p.write w).wr = false) :
    (step p w).2 = [] := by
  unfold step
  simp only [h1, Bool.and_false]
  rfl

theorem step_portB (p : Pins) (r : Reg) (v : Nat) : (step p ⟨Port.B, r, v⟩).2 = [] :=
  step_quiet p _ rfl

theorem step_portC (p : Pins) (r : Reg) (v : Nat) : (step p ⟨Port.C, r, v⟩).2 = [] :=
  step_quiet p _ rfl

theorem step_WR_LOW (p : Pins) : (step p LCD_WR_LOW).2 = [] :=
  step_fall p _ rfl

theorem step_WR_HIGH (p : Pins) :
    (step (step p LCD_WR_LOW).1 LCD_WR_HIGH).2 =
      [⟨((step p LCD_WR_LOW).1.write LCD_WR_HIGH).cs, ((step p LCD_WR_LOW).1.write LCD_WR_HIGH).rs,
        ((step p LCD_WR_LOW).1.write LCD_WR_HIGH).dataBus⟩] :=
  step_rise _ _ rfl rfl

theorem strobes_write8_aux (d : Nat) (p : Pins) :
    strobes p (LCD_Write8Fast d) =
      [⟨(pinsAfter p (LCD_Write8Fast d)).cs, (pinsAfter p (LCD_Write8Fast d)).rs,
        (pinsAfter p (LCD_Write8Fast d)).dataBus⟩] := by
  unfold LCD_Write8Fast
  simp only [strobes, pinsAfter]
  rw [step_quiet p _ (wr_write_dataA d p), step_portB, step_portC, step_WR_LOW, step_WR_HIGH]
  rfl

theorem strobes_write8 (d : Nat) (hd : d < 256) (p : Pins) :
    strobes p (LCD_Write8Fast d) = [⟨p.cs, p.rs, d⟩] := by
  rw [strobes_write8_aux, cs_write8, rs_write8, dataBus_write8 d hd]

theorem toU8_lt (v : Nat) : toU8 v < 256 := Nat.mod_lt _ (by decide)

theorem strobes_append (p : Pins) (a b : List RegWrite) :
    strobes p (a ++ b) = strobes p a ++ strobes (pinsAfter p a) b := by
  induction a generalizing p with
  | nil => rfl
  | cons w ws ih =>
    show (step p w).2 ++ strobes (step p w).1 (ws ++ b) =
      ((step p w).2 ++ strobes (step p w).1 ws) ++ strobes (pinsAfter (step p w).1 ws) b
    rw [ih, List.append_assoc]

theorem pinsAfter_append (p : Pins) (a b : List RegWrite) :
    pinsAfter p (a ++ b) = pinsAfter (pinsAfter p a) b := by
  induction a generalizing p with
  | nil => rfl
  | cons w ws ih =>
    show pinsAfter (step p w).1 (ws ++ b) = pinsAfter (pinsAfter (step p w).1 ws) b
    rw [ih]

theorem strobes_cons_portB (p : Pins) (r : Reg) (v : Nat) (ws : List RegWrite) :
    strobes p (⟨Port.B, r, v⟩ :: ws) = strobes (p.write ⟨Port.B, r, v⟩) ws := by
  simp only [strobes, step_portB, List.nil_append]
  rfl

theorem strobes_cons_RS_LOW (p : Pins) (ws : List RegWrite) :
    strobes p (LCD_RS_LOW :: ws) = strobes (p.write LCD_RS_LOW) ws := by
  simp only [strobes, step_quiet p LCD_RS_LOW rfl, List.nil_append]
  rfl

theorem strobes_cons_RS_HIGH (p : Pins) (ws : List RegWrite) :
    strobes p (LCD_RS_HIGH :: ws) = strobes (p.write LCD_RS_HIGH) ws := by
  simp only [strobes, step_quiet p LCD_RS_HIGH rfl, List.nil_append]
  rfl

theorem strobes_cons_CS_LOW (p : Pins) (ws : List RegWrite) :
    strobes p (LCD_CS_LOW :: ws) = strobes (p.write LCD_CS_LOW) ws :=
  strobes_cons_portB p _ _ ws

theorem strobes_cons_CS_HIGH (p : Pins) (ws : List RegWrite) :
    strobes p (LCD_CS_HIGH :: ws) = strobes (p.write LCD_CS_HIGH) ws :=
  strobes_cons_portB p _ _ ws

theorem strobes_nil (p : Pins) : strobes p [] = [] := rfl

theorem pinsAfter_nil (p : Pins) : pinsAfter p [] = p := rfl

theorem pinsAfter_cons (p : Pins) (w : RegWrite) (ws : List RegWrite) :
    pinsAfter p (w :: ws) = pinsAfter (p.write w) ws := rfl

theorem strobes_WriteCommand (c : Nat) (hc : c < 256) (p : Pins) :
    strobes p (LCD_WriteCommand c) = [⟨false, false, c⟩] := by
  unfold LCD_WriteCommand
  simp only [List.cons_append, List.nil_append, strobes_cons_CS_LOW, strobes_cons_RS_LOW,
    strobes_append, strobes_write8 c hc, strobes_cons_CS_HIGH, strobes_nil, List.append_nil]
  rfl

theorem cs_WriteCommand (c : Nat) (p : Pins) : (pinsAfter p (LCD_WriteCommand c)).cs = true := by
  unfold LCD_WriteCommand
  simp only [pinsAfter_append]
  rfl

theorem rs_WriteCommand (c : Nat) (p : Pins) : (pinsAfter p (LCD_WriteCommand c)).rs = false := by
  unfold LCD_WriteCommand
  simp only [pinsAfter_append, List.cons_append, List.nil_append, pinsAfter_cons]
  show (pinsAfter _ (LCD_Write8Fast c)).rs = false
  rw [rs_write8]
  rfl

/-- Strobes of a chip-select frame in data mode: `CS` low, `RS` high, a body, `CS` high. -/
theorem strobes_dataFrame (body : List RegWrite) (p : Pins) :
    strobes p ([LCD_CS_LOW, LCD_RS_HIGH] ++ body ++ [LCD_CS_HIGH]) =
      strobes ((p.write LCD_CS_LOW).write LCD_RS_HIGH) body := by
  simp only [List.cons_append, List.nil_append, strobes_cons_CS_LOW, strobes_cons_RS_HIGH,
    strobes_append, strobes_cons_CS_HIGH, strobes_nil, List.append_nil]

theorem pinsAfter_dataFrame (body : List RegWrite) (p : Pins) :
    pinsAfter p ([LCD_CS_LOW, LCD_RS_HIGH] ++ body ++ [LCD_CS_HIGH]) =
      (pinsAfter ((p.write LCD_CS_LOW).write LCD_RS_HIGH) body).write LCD_CS_HIGH := by
  simp only [List.cons_append, List.nil_append, pinsAfter_append, pinsAfter_cons, pinsAfter_nil]

theorem strobes_two (a b : Nat) (p : Pins) (ha : a < 256) (hb : b < 256) :
    strobes p (LCD_Write8Fast a ++ LCD_Write8Fast b) = [⟨p.cs, p.rs, a⟩, ⟨p.cs, p.rs, b⟩] := by
  rw [strobes_append, strobes_write8 a ha, strobes_write8 b hb, cs_write8, rs_write8]
  rfl

theorem strobes_SetWindow (x1 y1 x2 y2 : Nat) (p : Pins) :
    strobes p (LCD_SetWindow x1 y1 x2 y2) = windowStrobes x1 y1 x2 y2 := by
  unfold LCD_SetWindow
  simp only [List.append_assoc, strobes_append, strobes_WriteCommand _ (show 0x2A < 256 by decide),
    strobes_WriteCommand _ (show 0x2B < 256 by decide),
    strobes_WriteCommand _ (show 0x2C < 256 by decide), strobes_write8 _ (toU8_lt _),
    List.cons_append, List.nil_append, strobes_cons_CS_LOW, strobes_cons_RS_HIGH,
    strobes_cons_CS_HIGH, strobes_nil, List.append_nil, pinsAfter_append, pinsAfter_cons,
    pinsAfter_nil, cs_write8, rs_write8]
  rfl

theorem pixelLoop_succ (hi lo n : Nat) :
    pixelLoop hi lo (n + 1) = LCD_Write8Fast hi ++ LCD_Write8Fast lo ++ pixelLoop hi lo n := rfl

theorem pixelLoop_add (hi lo m n : Nat) :
    pixelLoop hi lo (m + n) = pixelLoop hi lo m ++ pixelLoop hi lo n := by
  induction m with
  | zero => simp only [Nat.zero_add]; rfl
  | succ k ih =>
    rw [Nat.add_right_comm, pixelLoop_succ, pixelLoop_succ, ih]
    simp only [List.append_assoc]

theorem pixelLoop_eight (hi lo n : Nat) :
    pixelLoop hi lo (n + 8) = unrolledBody hi lo ++ pixelLoop hi lo n := by
  simp only [pixelLoop, unrolledBody, List.append_assoc]

/-- The unrolled loop followed by the remainder loop is the plain loop. -/
theorem fillLoops_eq_pixelLoop (hi lo : Nat) : ∀ n, fillLoops hi lo n = pixelLoop hi lo n := by
  intro n
  induction n using Nat.strong_induction_on with
  | _ n ih =>
    by_cases h : n < 8
    · interval_cases n <;> rfl
    · obtain ⟨m, rfl⟩ : ∃ m, n = m + 8 := ⟨n - 8, by omega⟩
      rw [pixelLoop_eight, ← ih m (by omega)]
      rfl

theorem cs_pixelLoop (hi lo n : Nat) (p : Pins) : (pinsAfter p (pixelLoop hi lo n)).cs = p.cs := by
  induction n generalizing p with
  | zero => rfl
  | succ k ih => rw [pixelLoop_succ, pinsAfter_append, pinsAfter_append, ih, cs_write8, cs_write8]

theorem rs_pixelLoop (hi lo n : Nat) (p : Pins) : (pinsAfter p (pixelLoop hi lo n)).rs = p.rs := by
  induction n generalizing p with
  | zero => rfl
  | succ k ih => rw [pixelLoop_succ, pinsAfter_append, pinsAfter_append, ih, rs_write8, rs_write8]

theorem strobes_pixelLoop (hi lo : Nat) (hhi : hi < 256) (hlo : lo < 256) (n : Nat) (p : Pins) :
    strobes p (pixelLoop hi lo n) = pixelStrobes p.cs p.rs hi lo n := by
  induction n generalizing p with
  | zero => rfl
  | succ k ih =>
    rw [pixelLoop_succ, strobes_append, strobes_two hi lo p hhi hlo, ih, pinsAfter_append,
      cs_write8, cs_write8, rs_write8, rs_write8]
    simp only [pixelStrobes, List.replicate_succ, List.flatten_cons]

/-! ## Rectangle and run fills -/

theorem hiByte_eq (c : Nat) (hc : c < 65536) : toU8 (c >>> 8) = c / 256 := by
  unfold toU8
  rw [Nat.shiftRight_eq_div_pow]
  omega

theorem loByte_eq (c : Nat) : toU8 (c &&& 0xFF) = c % 256 := by
  unfold toU8
  have h := Nat.and_pow_two_sub_one_eq_mod c 8
  norm_num at h
  rw [h]
  omega

theorem toU16_ofNat (n : Nat) (h : n < 65536) : toU16 (n : Int) = n := by
  unfold toU16
  omega

theorem toU16_of_nonneg (v : Int) (h0 : 0 ≤ v) (h1 : v < 65536) : toU16 v = v.toNat := by
  unfold toU16
  omega

theorem toI16_of_isI16 (v : Int) (h : isI16 v) : toI16 v = v := by
  unfold isI16 at h
  unfold toI16
  omega

/-- Shape of a non-trivial rectangle fill: window, then one data frame with the
plain pixel loop. -/
theorem fillRect_bus (x y w h c : Nat) (hx : x < 240) (hy : y < 320) (hw : 1 ≤ w) (hh : 1 ≤ h) :
    LCD_FillRectFast x y w h c =
      fillFrame x y (x + min w (240 - x) - 1) (y + min h (320 - y) - 1)
        (toU8 (c >>> 8)) (toU8 (c &&& 0xFF)) (min w (240 - x) * min h (320 - y)) := by
  have hg : ¬ (x ≥ 240 ∨ y ≥ 320 ∨ w = 0 ∨ h = 0) := by omega
  have hw' : (if x + w > 240 then 240 - x else w) = min w (240 - x) := by
    split <;> omega
  have hh' : (if y + h > 320 then 320 - y else h) = min h (320 - y) := by
    split <;> omega
  have hwb : min w (240 - x) ≤ 240 := by omega
  have hhb : min h (320 - y) ≤ 320 := by omega
  have htot : (min w (240 - x) * min h (320 - y)) % 4294967296 =
      min w (240 - x) * min h (320 - y) := by
    apply Nat.mod_eq_of_lt
    calc min w (240 - x) * min h (320 - y) ≤ 240 * 320 := Nat.mul_le_mul hwb hhb
      _ < 4294967296 := by decide
  have hx2 : toU16 ((x : Int) + (min w (240 - x) : Nat) - 1) = x + min w (240 - x) - 1 := by
    unfold toU16
    omega
  have hy2 : toU16 ((y : Int) + (min h (320 - y) : Nat) - 1) = y + min h (320 - y) - 1 := by
    unfold toU16
    omega
  unfold LCD_FillRectFast
  rw [if_neg hg]
  simp only [hw', hh', htot, hx2, hy2, fillLoops_eq_pixelLoop, fillFrame]

theorem fillRect_noop (x y w h c : Nat) (hg : x ≥ 240 ∨ y ≥ 320 ∨ w = 0 ∨ h = 0) :
    LCD_FillRectFast x y w h c = [] := by
  unfold LCD_FillRectFast
  rw [if_pos hg]

theorem fillFrame_congr {x1 y1 x2 y2 n x1' y1' x2' y2' n' : Nat} (hi lo : Nat)
    (h1 : x1 = x1') (h2 : y1 = y1') (h3 : x2 = x2') (h4 : y2 = y2') (h5 : n = n') :
    LCD_SetWindow x1 y1 x2 y2 ++ [LCD_CS_LOW, LCD_RS_HIGH] ++ pixelLoop hi lo n ++ [LCD_CS_HIGH] =
      fillFrame x1' y1' x2' y2' hi lo n' := by
  subst h1 h2 h3 h4 h5
  rfl

theorem hline_bus (x y w : Int) (c : Nat) (hx : isI16 x) (hw : isI16 w)
    (hy : 0 ≤ y ∧ y < 320) (hlen : max x 0 < min (x + w) 240) :
    LCD_HLineFast x y w c =
      fillFrame (max x 0).toNat y.toNat (min (x + w) 240 - 1).toNat y.toNat
        (toU8 (c >>> 8)) (toU8 (c &&& 0xFF)) (min (x + w) 240 - max x 0).toNat := by
  unfold isI16 at hx hw
  have hg : ¬ (y < 0 ∨ y ≥ 320 ∨ w ≤ 0) := by omega
  unfold LCD_HLineFast
  rw [if_neg hg]
  by_cases hneg : x < 0
  · have e1 : toI16 (w + x) = w + x := toI16_of_isI16 _ (by unfold isI16; omega)
    have e2 : toI16 (240 - 0) = 240 := by decide
    simp only [if_pos hneg, e1, e2]
    by_cases hbig : 0 + (w + x) > 240
    · simp only [if_pos hbig]
      rw [if_neg (by omega)]
      apply fillFrame_congr <;> first | omega | (unfold toU16; omega)
    · simp only [if_neg hbig]
      rw [if_neg (by omega)]
      apply fillFrame_congr <;> first | omega | (unfold toU16; omega)
  · have e2 : toI16 (240 - x) = 240 - x := toI16_of_isI16 _ (by unfold isI16; omega)
    simp only [if_neg hneg, e2]
    by_cases hbig : x + w > 240
    · simp only [if_pos hbig]
      rw [if_neg (by omega)]
      apply fillFrame_congr <;> first | omega | (unfold toU16; omega)
    · simp only [if_neg hbig]
      rw [if_neg (by omega)]
      apply fillFrame_congr <;> first | omega | (unfold toU16; omega)

theorem hline_noop (x y w : Int) (c : Nat) (hx : isI16 x) (hw : isI16 w)
    (h : ¬ (0 ≤ y ∧ y < 320 ∧ max x 0 < min (x + w) 240)) :
    LCD_HLineFast x y w c = [] := by
  unfold isI16 at hx hw
  unfold LCD_HLineFast
  by_cases hg : y < 0 ∨ y ≥ 320 ∨ w ≤ 0
  · rw [if_pos hg]
  · rw [if_neg hg]
    by_cases hneg : x < 0
    · have e1 : toI16 (w + x) = w + x := toI16_of_isI16 _ (by unfold isI16; omega)
      have e2 : toI16 (240 - 0) = 240 := by decide
      simp only [if_pos hneg, e1, e2]
      by_cases hbig : 0 + (w + x) > 240
      · omega
      · simp only [if_neg hbig]
        rw [if_pos (by omega)]
    · have e2 : toI16 (240 - x) = 240 - x := toI16_of_isI16 _ (by unfold isI16; omega)
      simp only [if_neg hneg, e2]
      by_cases hbig : x + w > 240
      · simp only [if_pos hbig]
        rw [if_pos (by omega)]
      · omega

theorem shape_ite (c : Prop) [Decidable c] (t : List RegWrite) (Q : List RegWrite → Prop)
    (h : Q t) : (if c then ([] : List RegWrite) else t) = [] ∨ Q (if c then [] else t) := by
  by_cases hc : c
  · rw [if_pos hc]; exact Or.inl rfl
  · rw [if_neg hc]; exact Or.inr h

theorem fillRect_shape (x y w h c : Nat) :
    LCD_FillRectFast x y w h c = [] ∨
    ∃ x1 y1 x2 y2 n, LCD_FillRectFast x y w h c =
      fillFrame x1 y1 x2 y2 (toU8 (c >>> 8)) (toU8 (c &&& 0xFF)) n := by
  unfold LCD_FillRectFast
  apply shape_ite _ _
    (fun l => ∃ x1 y1 x2 y2 n, l = fillFrame x1 y1 x2 y2 (toU8 (c >>> 8)) (toU8 (c &&& 0xFF)) n)
  simp only [fillLoops_eq_pixelLoop]
  exact ⟨_, _, _, _, _, rfl⟩

theorem hline_shape (x y w : Int) (c : Nat) :
    LCD_HLineFast x y w c = [] ∨
    ∃ x1 y1 x2 y2 n, LCD_HLineFast x y w c =
      fillFrame x1 y1 x2 y2 (toU8 (c >>> 8)) (toU8 (c &&& 0xFF)) n := by
  unfold LCD_HLineFast
  by_cases hg : y < 0 ∨ y ≥ 320 ∨ w ≤ 0
  · rw [if_pos hg]; exact Or.inl rfl
  · rw [if_neg hg]
    apply shape_ite _ _
      (fun l => ∃ x1 y1 x2 y2 n, l = fillFrame x1 y1 x2 y2 (toU8 (c >>> 8)) (toU8 (c &&& 0xFF)) n)
    exact ⟨_, _, _, _, _, rfl⟩

theorem strobes_fillFrame (x1 y1 x2 y2 hi lo n : Nat) (hhi : hi < 256) (hlo : lo < 256)
    (p : Pins) :
    strobes p (fillFrame x1 y1 x2 y2 hi lo n) =
      windowStrobes x1 y1 x2 y2 ++ pixelStrobes false true hi lo n := by
  unfold fillFrame
  simp only [List.append_assoc, List.cons_append, List.nil_append, strobes_append,
    strobes_SetWindow, strobes_cons_CS_LOW, strobes_cons_RS_HIGH, strobes_pixelLoop hi lo hhi hlo,
    strobes_cons_CS_HIGH, strobes_nil, List.append_nil]
  rfl

theorem cs_fillFrame (x1 y1 x2 y2 hi lo n : Nat) (p : Pins) :
    (pinsAfter p (fillFrame x1 y1 x2 y2 hi lo n)).cs = true := by
  unfold fillFrame
  simp only [pinsAfter_append]
  rfl

theorem windowStrobes_cs (x1 y1 x2 y2 : Nat) : ∀ s ∈ windowStrobes x1 y1 x2 y2, s.cs = false := by
  intro s hs
  simp only [windowStrobes, List.mem_cons, List.mem_singleton] at hs
  rcases hs with h | h | h | h | h | h | h | h | h | h | h | h <;> first | (subst h; rfl) | cases h

theorem pixelStrobes_cs (cs rs : Bool) (hi lo n : Nat) :
    ∀ s ∈ pixelStrobes cs rs hi lo n, s.cs = cs ∧ s.rs = rs := by
  intro s hs
  induction n with
  | zero => simp [pixelStrobes] at hs
  | succ k ih =>
    simp only [pixelStrobes, List.replicate_succ, List.flatten_cons, List.cons_append,
      List.nil_append, List.mem_cons] at hs
    rcases hs with h | h | h
    · subst h; exact ⟨rfl, rfl⟩
    · subst h; exact ⟨rfl, rfl⟩
    · exact ih h

theorem csFramed_fillFrame (x1 y1 x2 y2 hi lo n : Nat) (hhi : hi < 256) (hlo : lo < 256)
    (p : Pins) : csFramed p (fillFrame x1 y1 x2 y2 hi lo n) := by
  refine ⟨cs_fillFrame _ _ _ _ _ _ _ p, ?_⟩
  rw [strobes_fillFrame _ _ _ _ _ _ _ hhi hlo]
  intro s hs
  rcases List.mem_append.mp hs with h | h
  · exact windowStrobes_cs _ _ _ _ s h
  · exact (pixelStrobes_cs _ _ _ _ _ s h).1

theorem csFramed_nil (p : Pins) (h : p.cs = true) : csFramed p [] :=
  ⟨h, fun _ hs => by cases hs⟩

theorem strobes_write8_cs (d : Nat) (p : Pins) :
    ∀ s ∈ strobes p (LCD_Write8Fast d), s.cs = p.cs := by
  intro s hs
  rw [strobes_write8_aux, List.mem_singleton] at hs
  subst hs
  exact cs_write8 d p

theorem csFramed_WriteCommand (cmd : Nat) (p : Pins) : csFramed p (LCD_WriteCommand cmd) := by
  refine ⟨cs_WriteCommand cmd p, ?_⟩
  unfold LCD_WriteCommand
  simp only [List.cons_append, List.nil_append, strobes_cons_CS_LOW, strobes_cons_RS_LOW,
    strobes_append, strobes_cons_CS_HIGH, strobes_nil, List.append_nil]
  exact strobes_write8_cs cmd _

theorem csFramed_WriteData (d : Nat) (p : Pins) : csFramed p (LCD_WriteData d) := by
  constructor
  · unfold LCD_WriteData
    simp only [pinsAfter_append]
    rfl
  · unfold LCD_WriteData
    simp only [List.cons_append, List.nil_append, strobes_cons_CS_LOW, strobes_cons_RS_HIGH,
      strobes_append, strobes_cons_CS_HIGH, strobes_nil, List.append_nil]
    exact strobes_write8_cs d _

theorem csFramed_SetWindow (x1 y1 x2 y2 : Nat) (p : Pins) :
    csFramed p (LCD_SetWindow x1 y1 x2 y2) := by
  constructor
  · unfold LCD_SetWindow
    rw [pinsAfter_append]
    exact cs_WriteCommand _ _
  · rw [strobes_SetWindow]
    exact windowStrobes_cs _ _ _ _

theorem csFramed_FillRectFast (x y w h c : Nat) (p : Pins) (hp : p.cs = true) :
    csFramed p (LCD_FillRectFast x y w h c) := by
  rcases fillRect_shape x y w h c with h0 | ⟨x1, y1, x2, y2, n, h1⟩
  · rw [h0]; exact csFramed_nil p hp
  · rw [h1]; exact csFramed_fillFrame _ _ _ _ _ _ _ (toU8_lt _) (toU8_lt _) p

theorem csFramed_HLineFast (x y w : Int) (c : Nat) (p : Pins) (hp : p.cs = true) :
    csFramed p (LCD_HLineFast x y w c) := by
  rcases hline_shape x y w c with h0 | ⟨x1, y1, x2, y2, n, h1⟩
  · rw [h0]; exact csFramed_nil p hp
  · rw [h1]; exact csFramed_fillFrame _ _ _ _ _ _ _ (toU8_lt _) (toU8_lt _) p

theorem toU16_neg_ge (v : Int) (h0 : -32768 ≤ v) (h1 : v < 0) : 32768 ≤ toU16 v := by
  unfold toU16
  omega

theorem bigEndian (v : Nat) (h : v < 65536) : (v >>> 8) * 256 + (v &&& 0xFF) = v := by
  have h1 := hiByte_eq v h
  have h2 := loByte_eq v
  unfold toU8 at h1 h2
  have h3 : v >>> 8 < 256 := by
    rw [Nat.shiftRight_eq_div_pow]
    omega
  have h4 : v &&& 0xFF < 256 := by
    have := Nat.and_pow_two_sub_one_eq_mod v 8
    norm_num at this
    rw [this]
    omega
  omega

theorem toU8_hi (v : Nat) (h : v < 65536) : toU8 (v >>> 8) = v >>> 8 := by
  unfold toU8
  rw [Nat.shiftRight_eq_div_pow]
  omega

theorem toU8_lo (v : Nat) : toU8 (v &&& 0xFF) = v &&& 0xFF := by
  unfold toU8
  have := Nat.and_pow_two_sub_one_eq_mod v 8
  norm_num at this
  rw [this]
  omega

/-! ## Claims C1 to C7 -/

/-- C1: for `x < 240`, `y < 320`, `w ≥ 1`, `h ≥ 1` and a 16-bit colour `c`,
`LCD_FillRectFast` sets the window `(x, y, x+w'-1, y+h'-1)` with
`w' = min w (240-x)`, `h' = min h (320-y)` and then streams exactly `w'*h'`
pixels, each as the high byte of `c` followed by the low byte, in one data
frame; the unrolled loop plus remainder loop equal the plain loop. -/
theorem C1_fillRect_window_and_stream (x y w h c : Nat) (p : Pins)
    (hx : x < 240) (hy : y < 320) (hw : 1 ≤ w) (hh : 1 ≤ h) (hc : c < 65536) :
    LCD_FillRectFast x y w h c =
        LCD_SetWindow x y (x + min w (240 - x) - 1) (y + min h (320 - y) - 1) ++
        [LCD_CS_LOW, LCD_RS_HIGH] ++
        pixelLoop (c / 256) (c % 256) (min w (240 - x) * min h (320 - y)) ++
        [LCD_CS_HIGH] ∧
    strobes p (LCD_FillRectFast x y w h c) =
        windowStrobes x y (x + min w (240 - x) - 1) (y + min h (320 - y) - 1) ++
        pixelStrobes false true (c / 256) (c % 256) (min w (240 - x) * min h (320 - y)) ∧
    ∀ n, fillLoops (c / 256) (c % 256) n = pixelLoop (c / 256) (c % 256) n := by
  have e := fillRect_bus x y w h c hx hy hw hh
  rw [hiByte_eq c hc, loByte_eq c] at e
  refine ⟨e, ?_, fillLoops_eq_pixelLoop _ _⟩
  rw [e]
  exact strobes_fillFrame _ _ _ _ _ _ _ (by omega) (by omega) p

theorem C1_fillRect_witness :
    strobes Pins.idle (LCD_FillRectFast 238 5 7 2 0xABCD) =
      windowStrobes 238 5 239 6 ++ pixelStrobes false true 0xAB 0xCD 4 :=
  (C1_fillRect_window_and_stream 238 5 7 2 0xABCD Pins.idle (by decide) (by decide) (by decide)
    (by decide) (by decide)).2.1

/-- C2: when `x ≥ 240` or `y ≥ 320` or `w = 0` or `h = 0`, `LCD_FillRectFast`
writes no register at all, so it causes no strobe and leaves every pin as it
was; a negative `int16_t` coordinate arrives as a value of at least 32768 and
falls under this case. -/
theorem C2_fillRect_noop (x y w h c : Nat) (p : Pins)
    (hg : x ≥ 240 ∨ y ≥ 320 ∨ w = 0 ∨ h = 0) :
    LCD_FillRectFast x y w h c = [] ∧
    strobes p (LCD_FillRectFast x y w h c) = [] ∧
    pinsAfter p (LCD_FillRectFast x y w h c) = p ∧
    ∀ v : Int, -32768 ≤ v → v < 0 →
      32768 ≤ toU16 v ∧ LCD_FillRectFast (toU16 v) y w h c = [] ∧
      LCD_FillRectFast x (toU16 v) w h c = [] := by
  have e := fillRect_noop x y w h c hg
  refine ⟨e, by rw [e]; rfl, by rw [e]; rfl, ?_⟩
  intro v h0 h1
  have hv := toU16_neg_ge v h0 h1
  exact ⟨hv, fillRect_noop _ _ _ _ _ (Or.inl (by omega)),
    fillRect_noop _ _ _ _ _ (Or.inr (Or.inl (by omega)))⟩

theorem C2_fillRect_noop_witness :
    (240 ≥ 240 ∨ 0 ≥ 320 ∨ 5 = 0 ∨ 5 = 0) ∧ LCD_FillRectFast 240 0 5 5 0x07E0 = [] :=
  ⟨by decide, (C2_fillRect_noop 240 0 5 5 0x07E0 Pins.idle (by decide)).1⟩

theorem fillRectWindow_bounds (x y w h x1 y1 x2 y2 : Nat)
    (hwin : fillRectWindow x y w h = some (x1, y1, x2, y2)) :
    x1 = x ∧ y1 = y ∧ x1 ≤ x2 ∧ x2 ≤ 239 ∧ y1 ≤ y2 ∧ y2 ≤ 319 ∧
    (x2 - x1 + 1) * (y2 - y1 + 1) = min w (240 - x) * min h (320 - y) ∧
    ¬ (x ≥ 240 ∨ y ≥ 320 ∨ w = 0 ∨ h = 0) := by
  unfold fillRectWindow at hwin
  split at hwin
  · cases hwin
  · rename_i hg
    simp only [Option.some.injEq, Prod.mk.injEq] at hwin
    obtain ⟨rfl, rfl, rfl, rfl⟩ := hwin
    refine ⟨rfl, rfl, by omega, by omega, by omega, by omega, ?_, hg⟩
    congr 1 <;> omega

theorem hlineWindow_bounds (x y w : Int) (x1 y1 x2 y2 : Nat)
    (hwin : hlineWindow x y w = some (x1, y1, x2, y2)) :
    x1 ≤ x2 ∧ x2 ≤ 239 ∧ y1 = y2 ∧ y2 ≤ 319 ∧
    (x1 : Int) = max x 0 ∧ (y1 : Int) = y ∧ (x2 : Int) = min (x + w) 240 - 1 ∧
    (0 ≤ y ∧ y < 320 ∧ max x 0 < min (x + w) 240) := by
  unfold hlineWindow at hwin
  split at hwin
  · rename_i hg
    simp only [Option.some.injEq, Prod.mk.injEq] at hwin
    obtain ⟨rfl, rfl, rfl, rfl⟩ := hwin
    refine ⟨by omega, by omega, rfl, by omega, by omega, by omega, by omega, hg⟩
  · cases hwin

/-- C3: every window that `LCD_FillRectFast` (any arguments) and
`LCD_HLineFast` (any `int16_t` start and length) pass to `LCD_SetWindow`
satisfies `x1 ≤ x2 ≤ 239` and `y1 ≤ y2 ≤ 319`: each call either writes nothing
or is one fill frame whose window is the clipped window, and that window lies
on the 240x320 surface. -/
theorem C3_window_inside_surface (x y w h c : Nat) (xi yi wi : Int) (ci : Nat)
    (hxi : isI16 xi) (hwi : isI16 wi) :
    ((fillRectWindow x y w h = none ∧ LCD_FillRectFast x y w h c = []) ∨
      ∃ x1 y1 x2 y2 n, fillRectWindow x y w h = some (x1, y1, x2, y2) ∧
        LCD_FillRectFast x y w h c =
          fillFrame x1 y1 x2 y2 (toU8 (c >>> 8)) (toU8 (c &&& 0xFF)) n ∧
        x1 ≤ x2 ∧ x2 ≤ 239 ∧ y1 ≤ y2 ∧ y2 ≤ 319) ∧
    ((hlineWindow xi yi wi = none ∧ LCD_HLineFast xi yi wi ci = []) ∨
      ∃ x1 y1 x2 y2 n, hlineWindow xi yi wi = some (x1, y1, x2, y2) ∧
        LCD_HLineFast xi yi wi ci =
          fillFrame x1 y1 x2 y2 (toU8 (ci >>> 8)) (toU8 (ci &&& 0xFF)) n ∧
        x1 ≤ x2 ∧ x2 ≤ 239 ∧ y1 ≤ y2 ∧ y2 ≤ 319) := by
  constructor
  · by_cases hg : x ≥ 240 ∨ y ≥ 320 ∨ w = 0 ∨ h = 0
    · exact Or.inl ⟨by unfold fillRectWindow; rw [if_pos hg], fillRect_noop x y w h c hg⟩
    · have hwin : fillRectWindow x y w h =
          some (x, y, x + min w (240 - x) - 1, y + min h (320 - y) - 1) := by
        unfold fillRectWindow; rw [if_neg hg]
      obtain ⟨_, _, b1, b2, b3, b4, _, _⟩ := fillRectWindow_bounds _ _ _ _ _ _ _ _ hwin
      exact Or.inr ⟨_, _, _, _, _, hwin,
        fillRect_bus x y w h c (by omega) (by omega) (by omega) (by omega), b1, b2, b3, b4⟩
  · by_cases hg : 0 ≤ yi ∧ yi < 320 ∧ max xi 0 < min (xi + wi) 240
    · have hwin : hlineWindow xi yi wi = some ((max xi 0).toNat, yi.toNat,
          (min (xi + wi) 240 - 1).toNat, yi.toNat) := by
        unfold hlineWindow; rw [if_pos hg]
      obtain ⟨b1, b2, b3, b4, _⟩ := hlineWindow_bounds _ _ _ _ _ _ _ hwin
      exact Or.inr ⟨_, _, _, _, _, hwin, hline_bus xi yi wi ci hxi hwi ⟨hg.1, hg.2.1⟩ hg.2.2,
        b1, b2, by omega, b4⟩
    · exact Or.inl ⟨by unfold hlineWindow; rw [if_neg hg], hline_noop xi yi wi ci hxi hwi hg⟩

theorem C3_window_inside_surface_witness :
    isI16 (-3) ∧ isI16 300 ∧
    fillRectWindow 230 310 65535 65535 = some (230, 310, 239, 319) ∧
    hlineWindow (-3) 7 300 = some (0, 7, 239, 7) ∧
    (LCD_HLineFast (-3) 7 300 0x07E0 = [] ∨
      ∃ x1 y1 x2 y2 n, hlineWindow (-3) 7 300 = some (x1, y1, x2, y2) ∧
        LCD_HLineFast (-3) 7 300 0x07E0 =
          fillFrame x1 y1 x2 y2 (toU8 (0x07E0 >>> 8)) (toU8 (0x07E0 &&& 0xFF)) n ∧
        x1 ≤ x2 ∧ x2 ≤ 239 ∧ y1 ≤ y2 ∧ y2 ≤ 319) :=
  ⟨by decide, by decide, by decide, by decide,
    (C3_window_inside_surface 230 310 65535 65535 0 (-3) 7 300 0x07E0 (by decide) (by decide)).2.imp
      (fun h => h.2) (fun h => h)⟩

/-- C4: for `int16_t` `x`, `w` and a 16-bit colour, `LCD_HLineFast` clips both
ends independently.  When `0 ≤ y < 320` and `max x 0 < min (x+w) 240` it sets
the window `(max x 0, y, min (x+w) 240 - 1, y)` and streams exactly
`min (x+w) 240 - max x 0` pixels; otherwise it writes no register. -/
theorem C4_hline_clips_both_ends (x y w : Int) (c : Nat) (p : Pins)
    (hx : isI16 x) (hw : isI16 w) (hc : c < 65536) :
    (0 ≤ y ∧ y < 320 ∧ max x 0 < min (x + w) 240 →
      LCD_HLineFast x y w c =
        LCD_SetWindow (max x 0).toNat y.toNat (min (x + w) 240 - 1).toNat y.toNat ++
        [LCD_CS_LOW, LCD_RS_HIGH] ++
        pixelLoop (c / 256) (c % 256) (min (x + w) 240 - max x 0).toNat ++
        [LCD_CS_HIGH] ∧
      strobes p (LCD_HLineFast x y w c) =
        windowStrobes (max x 0).toNat y.toNat (min (x + w) 240 - 1).toNat y.toNat ++
        pixelStrobes false true (c / 256) (c % 256) (min (x + w) 240 - max x 0).toNat) ∧
    (¬ (0 ≤ y ∧ y < 320 ∧ max x 0 < min (x + w) 240) →
      LCD_HLineFast x y w c = [] ∧ strobes p (LCD_HLineFast x y w c) = []) := by
  constructor
  · intro hg
    have e := hline_bus x y w c hx hw ⟨hg.1, hg.2.1⟩ hg.2.2
    rw [hiByte_eq c hc, loByte_eq c] at e
    refine ⟨e, ?_⟩
    rw [e]
    exact strobes_fillFrame _ _ _ _ _ _ _ (by omega) (by omega) p
  · intro hg
    have e := hline_noop x y w c hx hw hg
    exact ⟨e, by rw [e]; rfl⟩

theorem C4_hline_clips_both_ends_witness :
    isI16 (-3) ∧ isI16 5 ∧
    strobes Pins.idle (LCD_HLineFast (-3) 7 5 0x07E0) =
      windowStrobes 0 7 1 7 ++ pixelStrobes false true 0x07 0xE0 2 :=
  ⟨by decide, by decide,
    ((C4_hline_clips_both_ends (-3) 7 5 0x07E0 Pins.idle (by decide) (by decide) (by decide)).1
      (by decide)).2⟩

/-- C5: for 16-bit coordinates `LCD_SetWindow` causes exactly eleven strobes, in
this order: command 0x2A, data `x1>>8`, `x1&0xFF`, `x2>>8`, `x2&0xFF`, command
0x2B, data `y1>>8`, `y1&0xFF`, `y2>>8`, `y2&0xFF`, command 0x2C; the commands
go out with `RS` low, the data bytes with `RS` high, and each data pair is the
coordinate in big-endian order. -/
theorem C5_setWindow_bytes (x1 y1 x2 y2 : Nat) (p : Pins)
    (hx1 : x1 < 65536) (hy1 : y1 < 65536) (hx2 : x2 < 65536) (hy2 : y2 < 65536) :
    strobes p (LCD_SetWindow x1 y1 x2 y2) =
      [ ⟨false, false, 0x2A⟩,
        ⟨false, true, x1 >>> 8⟩, ⟨false, true, x1 &&& 0xFF⟩,
        ⟨false, true, x2 >>> 8⟩, ⟨false, true, x2 &&& 0xFF⟩,
        ⟨false, false, 0x2B⟩,
        ⟨false, true, y1 >>> 8⟩, ⟨false, true, y1 &&& 0xFF⟩,
        ⟨false, true, y2 >>> 8⟩, ⟨false, true, y2 &&& 0xFF⟩,
        ⟨false, false, 0x2C⟩ ] ∧
    (x1 >>> 8) * 256 + (x1 &&& 0xFF) = x1 ∧ (x2 >>> 8) * 256 + (x2 &&& 0xFF) = x2 ∧
    (y1 >>> 8) * 256 + (y1 &&& 0xFF) = y1 ∧ (y2 >>> 8) * 256 + (y2 &&& 0xFF) = y2 := by
  refine ⟨?_, bigEndian x1 hx1, bigEndian x2 hx2, bigEndian y1 hy1, bigEndian y2 hy2⟩
  rw [strobes_SetWindow]
  unfold windowStrobes
  rw [toU8_hi x1 hx1, toU8_hi x2 hx2, toU8_hi y1 hy1, toU8_hi y2 hy2, toU8_lo, toU8_lo, toU8_lo,
    toU8_lo]

theorem C5_setWindow_bytes_witness :
    strobes Pins.idle (LCD_SetWindow 10 80 229 239) =
      [ ⟨false, false, 0x2A⟩, ⟨false, true, 0⟩, ⟨false, true, 10⟩, ⟨false, true, 0⟩,
        ⟨false, true, 229⟩, ⟨false, false, 0x2B⟩, ⟨false, true, 0⟩, ⟨false, true, 80⟩,
        ⟨false, true, 0⟩, ⟨false, true, 239⟩, ⟨false, false, 0x2C⟩ ] :=
  (C5_setWindow_bytes 10 80 229 239 Pins.idle (by decide) (by decide) (by decide) (by decide)).1

theorem paMasks_ok (d : Nat) :
    (paMasks d).1 &&& (paMasks d).2 = 0 ∧
    (paMasks d).1 ||| (paMasks d).2 = GPIO_PIN_8 ||| GPIO_PIN_9 ||| GPIO_PIN_10 := by
  simp only [paMasks]
  generalize (d &&& 0x01 != 0) = b0
  generalize (d &&& 0x04 != 0) = b2
  generalize (d &&& 0x80 != 0) = b7
  cases b0 <;> cases b2 <;> cases b7 <;> decide

theorem pbMasks_ok (d : Nat) :
    (pbMasks d).1 &&& (pbMasks d).2 = 0 ∧
    (pbMasks d).1 ||| (pbMasks d).2 = GPIO_PIN_3 ||| GPIO_PIN_4 ||| GPIO_PIN_5 ||| GPIO_PIN_10 := by
  simp only [pbMasks]
  generalize (d &&& 0x08 != 0) = b3
  generalize (d &&& 0x10 != 0) = b4
  generalize (d &&& 0x20 != 0) = b5
  generalize (d &&& 0x40 != 0) = b6
  cases b3 <;> cases b4 <;> cases b5 <;> cases b6 <;> decide

theorem pcMasks_ok (d : Nat) :
    (pcMasks d).1 &&& (pcMasks d).2 = 0 ∧ (pcMasks d).1 ||| (pcMasks d).2 = GPIO_PIN_7 := by
  simp only [pcMasks]
  generalize (d &&& 0x02 != 0) = b1
  cases b1 <;> decide

theorem bits_eq_testBit : ∀ d, d < 256 →
    (d &&& 0x01 != 0) = d.testBit 0 ∧ (d &&& 0x02 != 0) = d.testBit 1 ∧
    (d &&& 0x04 != 0) = d.testBit 2 ∧ (d &&& 0x08 != 0) = d.testBit 3 ∧
    (d &&& 0x10 != 0) = d.testBit 4 ∧ (d &&& 0x20 != 0) = d.testBit 5 ∧
    (d &&& 0x40 != 0) = d.testBit 6 ∧ (d &&& 0x80 != 0) = d.testBit 7 := by
  decide!

theorem dline_pins (q : Pins) :
    q.dline 0 = q.A 9 ∧ q.dline 1 = q.C 7 ∧ q.dline 2 = q.A 10 ∧ q.dline 3 = q.B 3 ∧
    q.dline 4 = q.B 5 ∧ q.dline 5 = q.B 4 ∧ q.dline 6 = q.B 10 ∧ q.dline 7 = q.A 8 :=
  ⟨rfl, rfl, rfl, rfl, rfl, rfl, rfl, rfl⟩

theorem dline_write8 (d : Nat) (hd : d < 256) (p : Pins) (i : Nat) (hi : i < 8) :
    (pinsAfter p (LCD_Write8Fast d)).dline i = d.testBit i := by
  obtain ⟨h0, h1, h2, h3, h4, h5, h6, h7⟩ := bits_eq_testBit d hd
  obtain ⟨e0, e1, e2, e3, e4, e5, e6, e7⟩ := dline_pins (pinsAfter p (LCD_Write8Fast d))
  interval_cases i
  · rw [e0, pinsA_write8, if_pos rfl, h0]
  · rw [e1, pinsC_write8, if_pos rfl, h1]
  · rw [e2, pinsA_write8, if_neg (by decide), if_pos rfl, h2]
  · rw [e3, pinsB_write8, if_pos rfl, h3]
  · rw [e4, pinsB_write8, if_neg (by decide), if_pos rfl, h4]
  · rw [e5, pinsB_write8, if_neg (by decide), if_neg (by decide), if_pos rfl, h5]
  · rw [e6, pinsB_write8, if_neg (by decide), if_neg (by decide), if_neg (by decide),
      if_pos rfl, h6]
  · rw [e7, pinsA_write8, if_neg (by decide), if_neg (by decide), if_pos rfl, h7]

/-- C6: for every byte `d` and all prior pin levels, `LCD_Write8Fast d` stores
once to each port's `BSRR` the value `set | (clr << 16)`, where `set` and `clr`
are disjoint and together are exactly that port's data pins (PA8, PA9, PA10;
PB3, PB4, PB5, PB10; PC7), then pulses `WR` low and high.  Afterwards data line
`Di` is high iff bit `i` of `d` is set, the single strobe carries the byte `d`
with the chip-select and register-select levels unchanged, `WR` is high, and no
pin other than the eight data lines and `WR` has changed. -/
theorem C6_write8_presents_byte (d : Nat) (p : Pins) (hd : d < 256) :
    LCD_Write8Fast d =
      [ ⟨Port.A, Reg.BSRR, (paMasks d).1 ||| ((paMasks d).2 <<< 16)⟩,
        ⟨Port.B, Reg.BSRR, (pbMasks d).1 ||| ((pbMasks d).2 <<< 16)⟩,
        ⟨Port.C, Reg.BSRR, (pcMasks d).1 ||| ((pcMasks d).2 <<< 16)⟩,
        LCD_WR_LOW, LCD_WR_HIGH ] ∧
    ((paMasks d).1 &&& (paMasks d).2 = 0 ∧
      (paMasks d).1 ||| (paMasks d).2 = GPIO_PIN_8 ||| GPIO_PIN_9 ||| GPIO_PIN_10) ∧
    ((pbMasks d).1 &&& (pbMasks d).2 = 0 ∧
      (pbMasks d).1 ||| (pbMasks d).2 =
        GPIO_PIN_3 ||| GPIO_PIN_4 ||| GPIO_PIN_5 ||| GPIO_PIN_10) ∧
    ((pcMasks d).1 &&& (pcMasks d).2 = 0 ∧ (pcMasks d).1 ||| (pcMasks d).2 = GPIO_PIN_7) ∧
    (∀ i, i < 8 → (pinsAfter p (LCD_Write8Fast d)).dline i = d.testBit i) ∧
    strobes p (LCD_Write8Fast d) = [⟨p.cs, p.rs, d⟩] ∧
    (pinsAfter p (LCD_Write8Fast d)).wr = true ∧
    (∀ i, i ∉ [1, 8, 9, 10] → (pinsAfter p (LCD_Write8Fast d)).A i = p.A i) ∧
    (∀ i, i ∉ [3, 4, 5, 10] → (pinsAfter p (LCD_Write8Fast d)).B i = p.B i) ∧
    (∀ i, i ≠ 7 → (pinsAfter p (LCD_Write8Fast d)).C i = p.C i) := by
  refine ⟨rfl, paMasks_ok d, pbMasks_ok d, pcMasks_ok d, dline_write8 d hd p,
    strobes_write8 d hd p, wr_write8 d p, ?_, ?_, ?_⟩
  · intro i hi
    simp only [List.mem_cons, List.mem_singleton, List.not_mem_nil, or_false, not_or] at hi
    rw [pinsA_write8, if_neg hi.2.2.1, if_neg hi.2.2.2, if_neg hi.2.1, if_neg hi.1]
  · intro i hi
    simp only [List.mem_cons, List.mem_singleton, List.not_mem_nil, or_false, not_or] at hi
    rw [pinsB_write8, if_neg hi.1, if_neg hi.2.2.1, if_neg hi.2.1, if_neg hi.2.2.2]
  · intro i hi
    rw [pinsC_write8, if_neg hi]

theorem C6_write8_presents_byte_witness :
    (0xA5 < 256) ∧ strobes Pins.idle (LCD_Write8Fast 0xA5) = [⟨true, true, 0xA5⟩] :=
  ⟨by decide, (C6_write8_presents_byte 0xA5 Pins.idle (by decide)).2.2.2.2.2.1⟩

/-- C7: if chip select is high on entry, then for all arguments chip select is
high again when `LCD_WriteCommand`, `LCD_WriteData`, `LCD_SetWindow`,
`LCD_FillRectFast` and `LCD_HLineFast` return (the early-return paths
included), and every write strobe they cause happens with chip select low. -/
theorem C7_chip_select_discipline (p : Pins) (hp : p.cs = true) :
    (∀ cmd, csFramed p (LCD_WriteCommand cmd)) ∧
    (∀ d, csFramed p (LCD_WriteData d)) ∧
    (∀ x1 y1 x2 y2, csFramed p (LCD_SetWindow x1 y1 x2 y2)) ∧
    (∀ x y w h c, csFramed p (LCD_FillRectFast x y w h c)) ∧
    (∀ x y w c, csFramed p (LCD_HLineFast x y w c)) :=
  ⟨fun cmd => csFramed_WriteCommand cmd p, fun d => csFramed_WriteData d p,
    fun x1 y1 x2 y2 => csFramed_SetWindow x1 y1 x2 y2 p,
    fun x y w h c => csFramed_FillRectFast x y w h c p hp,
    fun x y w c => csFramed_HLineFast x y w c p hp⟩

theorem C7_chip_select_discipline_witness :
    Pins.idle.cs = true ∧ csFramed Pins.idle (LCD_FillRectFast 10 80 220 160 0) ∧
    csFramed Pins.idle (LCD_FillRectFast 240 0 1 1 0) :=
  ⟨rfl, (C7_chip_select_discipline Pins.idle rfl).2.2.2.1 10 80 220 160 0,
    (C7_chip_select_discipline Pins.idle rfl).2.2.2.1 240 0 1 1 0⟩

/-! ## The display controller on a fill frame -/

theorem after_append (l : Lcd) (p : Pins) (a b : List RegWrite) :
    l.after p (a ++ b) = (l.after p a).after (pinsAfter p a) b := by
  unfold Lcd.after
  rw [strobes_append, List.foldl_append]

theorem after_nil (l : Lcd) (p : Pins) : l.after p [] = l := rfl

theorem strobe_caset (l : Lcd) :
    l.strobe ⟨false, false, 0x2A⟩ = { l with cmd := 0x2A, args := [], pending := none } := rfl

theorem strobe_paset (l : Lcd) :
    l.strobe ⟨false, false, 0x2B⟩ = { l with cmd := 0x2B, args := [], pending := none } := rfl

theorem strobe_ramwr (l : Lcd) :
    l.strobe ⟨false, false, 0x2C⟩ =
      { l with cmd := 0x2C, args := [], pending := none, col := l.xs, row := l.ys } := rfl

theorem caset_args (cmd : Nat) (a : List Nat) (xs xe ys ye col row : Nat) (pd : Option Nat)
    (g : Nat → Nat → Nat) (b0 b1 b2 b3 : Nat) :
    [(⟨false, false, 0x2A⟩ : Strobe), ⟨false, true, b0⟩, ⟨false, true, b1⟩, ⟨false, true, b2⟩,
      ⟨false, true, b3⟩].foldl Lcd.strobe ⟨cmd, a, xs, xe, ys, ye, col, row, pd, g⟩ =
      ⟨0x2A, [b0, b1, b2, b3], b0 * 256 + b1, b2 * 256 + b3, ys, ye, col, row, none, g⟩ := rfl

theorem paset_args (cmd : Nat) (a : List Nat) (xs xe ys ye col row : Nat) (pd : Option Nat)
    (g : Nat → Nat → Nat) (b0 b1 b2 b3 : Nat) :
    [(⟨false, false, 0x2B⟩ : Strobe), ⟨false, true, b0⟩, ⟨false, true, b1⟩, ⟨false, true, b2⟩,
      ⟨false, true, b3⟩].foldl Lcd.strobe ⟨cmd, a, xs, xe, ys, ye, col, row, pd, g⟩ =
      ⟨0x2B, [b0, b1, b2, b3], xs, xe, b0 * 256 + b1, b2 * 256 + b3, col, row, none, g⟩ := rfl

/-- The controller after the eleven strobes of `LCD_SetWindow`. -/
theorem foldl_windowStrobes (l : Lcd) (x1 y1 x2 y2 : Nat) :
    (windowStrobes x1 y1 x2 y2).foldl Lcd.strobe l =
      { cmd := 0x2C, args := [],
        xs := toU8 (x1 >>> 8) * 256 + toU8 (x1 &&& 0xFF),
        xe := toU8 (x2 >>> 8) * 256 + toU8 (x2 &&& 0xFF),
        ys := toU8 (y1 >>> 8) * 256 + toU8 (y1 &&& 0xFF),
        ye := toU8 (y2 >>> 8) * 256 + toU8 (y2 &&& 0xFF),
        col := toU8 (x1 >>> 8) * 256 + toU8 (x1 &&& 0xFF),
        row := toU8 (y1 >>> 8) * 256 + toU8 (y1 &&& 0xFF),
        pending := none, gram := l.gram } := by
  obtain ⟨cmd, a, xs, xe, ys, ye, col, row, pd, g⟩ := l
  unfold windowStrobes
  generalize toU8 (x1 >>> 8) = a0
  generalize toU8 (x1 &&& 0xFF) = a1
  generalize toU8 (x2 >>> 8) = a2
  generalize toU8 (x2 &&& 0xFF) = a3
  generalize toU8 (y1 >>> 8) = b0
  generalize toU8 (y1 &&& 0xFF) = b1
  generalize toU8 (y2 >>> 8) = b2
  generalize toU8 (y2 &&& 0xFF) = b3
  have e : [(⟨false, false, 0x2A⟩ : Strobe), ⟨false, true, a0⟩, ⟨false, true, a1⟩,
      ⟨false, true, a2⟩, ⟨false, true, a3⟩, ⟨false, false, 0x2B⟩, ⟨false, true, b0⟩,
      ⟨false, true, b1⟩, ⟨false, true, b2⟩, ⟨false, true, b3⟩, ⟨false, false, 0x2C⟩] =
      [(⟨false, false, 0x2A⟩ : Strobe), ⟨false, true, a0⟩, ⟨false, true, a1⟩,
        ⟨false, true, a2⟩, ⟨false, true, a3⟩] ++
      ([(⟨false, false, 0x2B⟩ : Strobe), ⟨false, true, b0⟩, ⟨false, true, b1⟩,
        ⟨false, true, b2⟩, ⟨false, true, b3⟩] ++ [⟨false, false, 0x2C⟩]) := rfl
  rw [e, List.foldl_append, List.foldl_append, caset_args, paset_args]
  rfl

theorem writePixel_cmd (l : Lcd) (c : Nat) : (l.writePixel c).cmd = l.cmd := rfl

theorem writePixel_pending (l : Lcd) (c : Nat) : (l.writePixel c).pending = l.pending := rfl

/-- Two data strobes in memory-write mode store one pixel. -/
theorem strobe_pixel (l : Lcd) (hi lo : Nat) (hcmd : l.cmd = 0x2C) (hp : l.pending = none) :
    (l.strobe ⟨false, true, hi⟩).strobe ⟨false, true, lo⟩ = l.writePixel (hi * 256 + lo) := by
  obtain ⟨cmd, a, xs, xe, ys, ye, col, row, pd, g⟩ := l
  simp only at hcmd hp
  subst hcmd hp
  rfl

theorem foldl_pixelStrobes (hi lo n : Nat) (l : Lcd) (hcmd : l.cmd = 0x2C)
    (hp : l.pending = none) :
    (pixelStrobes false true hi lo n).foldl Lcd.strobe l = l.writePixels (hi * 256 + lo) n := by
  induction n generalizing l with
  | zero => rfl
  | succ k ih =>
    have e : pixelStrobes false true hi lo (k + 1) =
        [(⟨false, true, hi⟩ : Strobe), ⟨false, true, lo⟩] ++ pixelStrobes false true hi lo k := by
      simp only [pixelStrobes, List.replicate_succ, List.flatten_cons]
    rw [e, List.foldl_append]
    show List.foldl Lcd.strobe ((l.strobe ⟨false, true, hi⟩).strobe ⟨false, true, lo⟩) _ = _
    rw [strobe_pixel l hi lo hcmd hp, ih _ (by rw [writePixel_cmd, hcmd])
      (by rw [writePixel_pending, hp])]
    rfl

theorem writePixels_add (l : Lcd) (c m n : Nat) :
    l.writePixels c (m + n) = (l.writePixels c m).writePixels c n := by
  induction m generalizing l with
  | zero => rw [Nat.zero_add]; rfl
  | succ k ih =>
    rw [Nat.add_right_comm]
    exact ih (l.writePixel c)

/-- Streaming the rest of a row: from column `col` to the window's last column. -/
theorem row_fill (c : Nat) (cmd : Nat) (a : List Nat) (xs xe ys ye : Nat) (pd : Option Nat) :
    ∀ (n col row : Nat) (g : Nat → Nat → Nat), col + n = xe →
      (⟨cmd, a, xs, xe, ys, ye, col, row, pd, g⟩ : Lcd).writePixels c (n + 1) =
        ⟨cmd, a, xs, xe, ys, ye, xs, if row ≥ ye then ys else row + 1, pd,
          fun x y => if col ≤ x ∧ x ≤ xe ∧ y = row then c else g x y⟩ := by
  intro n
  induction n with
  | zero =>
    intro col row g h
    have hc : col ≥ xe := by omega
    show Lcd.writePixel _ c = _
    simp only [Lcd.writePixel, if_pos hc]
    congr 1
    funext x y
    have : (x = col ∧ y = row) ↔ (col ≤ x ∧ x ≤ xe ∧ y = row) := by
      constructor
      · rintro ⟨rfl, rfl⟩; exact ⟨le_refl _, by omega, rfl⟩
      · rintro ⟨h1, h2, rfl⟩; exact ⟨by omega, rfl⟩
    simp only [this]
  | succ k ih =>
    intro col row g h
    have hc : ¬ col ≥ xe := by omega
    show (Lcd.writePixel _ c).writePixels c (k + 1) = _
    simp only [Lcd.writePixel, if_neg hc]
    rw [ih (col + 1) row _ (by omega)]
    congr 1
    funext x y
    by_cases h1 : col + 1 ≤ x ∧ x ≤ xe ∧ y = row
    · rw [if_pos h1, if_pos ⟨by omega, h1.2.1, h1.2.2⟩]
    · rw [if_neg h1]
      by_cases h2 : x = col ∧ y = row
      · rw [if_pos h2, if_pos ⟨by omega, by omega, h2.2⟩]
      · rw [if_neg h2, if_neg]
        rintro ⟨h3, h4, h5⟩
        by_cases h6 : x = col
        · exact h2 ⟨h6, h5⟩
        · exact h1 ⟨by omega, h4, h5⟩

/-- Streaming whole rows: from the start of row `row` to the end of the window. -/
theorem rows_fill (c : Nat) (cmd : Nat) (a : List Nat) (xs xe ys ye : Nat) (pd : Option Nat)
    (hx : xs ≤ xe) :
    ∀ (m row : Nat) (g : Nat → Nat → Nat), row + m = ye →
      (⟨cmd, a, xs, xe, ys, ye, xs, row, pd, g⟩ : Lcd).writePixels c ((m + 1) * (xe - xs + 1)) =
        ⟨cmd, a, xs, xe, ys, ye, xs, ys, pd,
          fun x y => if xs ≤ x ∧ x ≤ xe ∧ row ≤ y ∧ y ≤ ye then c else g x y⟩ := by
  intro m
  induction m with
  | zero =>
    intro row g h
    rw [Nat.zero_add, Nat.one_mul, row_fill c cmd a xs xe ys ye pd (xe - xs) xs row g (by omega)]
    have hr : row ≥ ye := by omega
    rw [if_pos hr]
    congr 1
    funext x y
    have : (xs ≤ x ∧ x ≤ xe ∧ y = row) ↔ (xs ≤ x ∧ x ≤ xe ∧ row ≤ y ∧ y ≤ ye) := by
      constructor
      · rintro ⟨h1, h2, rfl⟩; exact ⟨h1, h2, le_refl _, by omega⟩
      · rintro ⟨h1, h2, h3, h4⟩; exact ⟨h1, h2, by omega⟩
    simp only [this]
  | succ k ih =>
    intro row g h
    have e : (k + 1 + 1) * (xe - xs + 1) = (xe - xs + 1) + (k + 1) * (xe - xs + 1) := by
      rw [Nat.succ_mul, Nat.add_comm]
    rw [e, writePixels_add, row_fill c cmd a xs xe ys ye pd (xe - xs) xs row g (by omega)]
    have hr : ¬ row ≥ ye := by omega
    rw [if_neg hr, ih (row + 1) _ (by omega)]
    congr 1
    funext x y
    by_cases h1 : xs ≤ x ∧ x ≤ xe ∧ row + 1 ≤ y ∧ y ≤ ye
    · rw [if_pos h1, if_pos ⟨h1.1, h1.2.1, by omega, h1.2.2.2⟩]
    · rw [if_neg h1]
      by_cases h2 : xs ≤ x ∧ x ≤ xe ∧ y = row
      · rw [if_pos h2, if_pos ⟨h2.1, h2.2.1, by omega, by omega⟩]
      · rw [if_neg h2, if_neg]
        rintro ⟨h3, h4, h5, h6⟩
        by_cases h7 : y = row
        · exact h2 ⟨h3, h4, h7⟩
        · exact h1 ⟨h3, h4, by omega, h6⟩

theorem coord_bytes (v : Nat) (h : v < 65536) :
    toU8 (v >>> 8) * 256 + toU8 (v &&& 0xFF) = v := by
  rw [toU8_hi v h, toU8_lo]
  exact bigEndian v h

/-- A fill frame whose pixel count is the size of its window overwrites exactly
that window in the display memory, whatever state the controller was in. -/
theorem gram_fillFrame (l : Lcd) (p : Pins) (x1 y1 x2 y2 hi lo : Nat)
    (hx : x1 ≤ x2) (hx2 : x2 < 65536) (hy : y1 ≤ y2) (hy2 : y2 < 65536)
    (hhi : hi < 256) (hlo : lo < 256) (n : Nat) (hn : n = (x2 - x1 + 1) * (y2 - y1 + 1)) :
    (l.after p (fillFrame x1 y1 x2 y2 hi lo n)).gram =
      paintRect (x1, y1, x2, y2) (hi * 256 + lo) l.gram := by
  subst hn
  unfold Lcd.after
  rw [strobes_fillFrame _ _ _ _ _ _ _ hhi hlo, List.foldl_append, foldl_windowStrobes,
    coord_bytes x1 (by omega), coord_bytes x2 hx2, coord_bytes y1 (by omega), coord_bytes y2 hy2,
    foldl_pixelStrobes _ _ _ _ rfl rfl, Nat.mul_comm (x2 - x1 + 1),
    rows_fill _ _ _ _ _ _ _ _ hx (y2 - y1) y1 _ (by omega)]
  rfl

theorem gram_fillRect (l : Lcd) (p : Pins) (x y w h c : Nat) :
    (l.after p (LCD_FillRectFast x y w h c)).gram = (Call.fillRect x y w h c).paint l.gram := by
  by_cases hg : x ≥ 240 ∨ y ≥ 320 ∨ w = 0 ∨ h = 0
  · rw [fillRect_noop x y w h c hg]
    have hwin : (Call.fillRect x y w h c).window = none := by
      show fillRectWindow x y w h = none
      unfold fillRectWindow; rw [if_pos hg]
    unfold Call.paint
    rw [hwin]
    rfl
  · have hwin : (Call.fillRect x y w h c).window =
        some (x, y, x + min w (240 - x) - 1, y + min h (320 - y) - 1) := by
      show fillRectWindow x y w h = _
      unfold fillRectWindow; rw [if_neg hg]
    rw [fillRect_bus x y w h c (by omega) (by omega) (by omega) (by omega)]
    have hcol : (Call.fillRect x y w h c).color = toU8 (c >>> 8) * 256 + toU8 (c &&& 0xFF) := rfl
    unfold Call.paint
    rw [hwin, hcol]
    exact gram_fillFrame l p x y (x + min w (240 - x) - 1) (y + min h (320 - y) - 1)
      (toU8 (c >>> 8)) (toU8 (c &&& 0xFF)) (by omega) (by omega) (by omega) (by omega)
      (toU8_lt _) (toU8_lt _) _ (by congr 1 <;> omega)

theorem gram_hline (l : Lcd) (p : Pins) (x y w : Int) (c : Nat) (hx : isI16 x) (hw : isI16 w) :
    (l.after p (LCD_HLineFast x y w c)).gram = (Call.hline x y w c).paint l.gram := by
  by_cases hg : 0 ≤ y ∧ y < 320 ∧ max x 0 < min (x + w) 240
  · have hwin : (Call.hline x y w c).window = some ((max x 0).toNat, y.toNat,
        (min (x + w) 240 - 1).toNat, y.toNat) := by
      show hlineWindow x y w = _
      unfold hlineWindow; rw [if_pos hg]
    rw [hline_bus x y w c hx hw ⟨hg.1, hg.2.1⟩ hg.2.2]
    have e1 : (min (x + w) 240 - max x 0).toNat =
        ((min (x + w) 240 - 1).toNat - (max x 0).toNat + 1) * (y.toNat - y.toNat + 1) := by
      rw [Nat.sub_self, Nat.zero_add, Nat.mul_one]
      omega
    have hcol : (Call.hline x y w c).color = toU8 (c >>> 8) * 256 + toU8 (c &&& 0xFF) := rfl
    unfold Call.paint
    rw [hwin, hcol]
    exact gram_fillFrame l p (max x 0).toNat y.toNat (min (x + w) 240 - 1).toNat y.toNat
      (toU8 (c >>> 8)) (toU8 (c &&& 0xFF)) (by omega) (by omega) (le_refl _) (by omega)
      (toU8_lt _) (toU8_lt _) _ e1
  · rw [hline_noop x y w c hx hw hg]
    have hwin : (Call.hline x y w c).window = none := by
      show hlineWindow x y w = none
      unfold hlineWindow; rw [if_neg hg]
    unfold Call.paint
    rw [hwin]
    rfl

theorem gram_call (l : Lcd) (p : Pins) (c : Call) (hr : c.inRange = true) :
    (l.after p c.bus).gram = c.paint l.gram := by
  cases c with
  | fillRect x y w h col => exact gram_fillRect l p x y w h col
  | hline x y w col =>
    have h := of_decide_eq_true hr
    exact gram_hline l p x y w col h.1 h.2.2.1
  | delay ms => rfl

theorem busTrace_cons (c : Call) (cs : List Call) : busTrace (c :: cs) = c.bus ++ busTrace cs := by
  simp only [busTrace, List.flatMap_cons]

/-- The display memory after a sequence of in-range calls is obtained by
painting their clipped windows in order. -/
theorem gramAfter_eq_paintAll (cs : List Call) (hr : ∀ c ∈ cs, c.inRange = true) :
    ∀ (l : Lcd) (p : Pins), gramAfter l p cs = paintAll cs l.gram := by
  induction cs with
  | nil => intro l p; rfl
  | cons c cs ih =>
    intro l p
    have h1 := gram_call l p c (hr c (List.mem_cons_self _ _))
    have h2 := ih (fun d hd => hr d (List.mem_cons_of_mem _ hd)) (l.after p c.bus)
      (pinsAfter p c.bus)
    unfold gramAfter at h2 ⊢
    rw [busTrace_cons, after_append, h2, h1]
    rfl

/-! ## Painting inside the eye area -/

theorem paintAll_append (a b : List Call) (g : Nat → Nat → Nat) :
    paintAll (a ++ b) g = paintAll b (paintAll a g) := by
  unfold paintAll
  rw [List.foldl_append]

theorem paintAll_cons (c : Call) (cs : List Call) (g : Nat → Nat → Nat) :
    paintAll (c :: cs) g = paintAll cs (c.paint g) := rfl

/-- A call that stays in the eye area leaves every pixel outside it alone. -/
theorem paint_outside (c : Call) (hc : inEyeArea c = true) (g : Nat → Nat → Nat) (x y : Nat)
    (hxy : ¬ (10 ≤ x ∧ x < 230 ∧ 80 ≤ y ∧ y < 240)) : c.paint g x y = g x y := by
  unfold Call.paint
  unfold inEyeArea at hc
  cases hw : c.window with
  | none => rfl
  | some win =>
    obtain ⟨x1, y1, x2, y2⟩ := win
    rw [hw] at hc
    have h := of_decide_eq_true hc
    show paintRect (x1, y1, x2, y2) c.color g x y = g x y
    unfold paintRect
    rw [if_neg]
    intro h2
    simp only at h2
    omega

theorem paintAll_outside (cs : List Call) (hc : ∀ c ∈ cs, inEyeArea c = true) :
    ∀ (g : Nat → Nat → Nat) (x y : Nat), ¬ (10 ≤ x ∧ x < 230 ∧ 80 ≤ y ∧ y < 240) →
      paintAll cs g x y = g x y := by
  induction cs with
  | nil => intro g x y _; rfl
  | cons c cs ih =>
    intro g x y hxy
    rw [paintAll_cons, ih (fun d hd => hc d (List.mem_cons_of_mem _ hd)) _ x y hxy]
    exact paint_outside c (hc c (List.mem_cons_self _ _)) g x y hxy

theorem paint_Eye_Clear (g : Nat → Nat → Nat) :
    paintAll Eye_Clear g =
      fun x y => if 10 ≤ x ∧ x ≤ 229 ∧ 80 ≤ y ∧ y ≤ 239 then 0 else g x y := rfl

/-- Clearing the eye area wipes out whatever was painted inside it before. -/
theorem clear_after_inside (cs : List Call) (hc : ∀ c ∈ cs, inEyeArea c = true)
    (g : Nat → Nat → Nat) : paintAll Eye_Clear (paintAll cs g) = paintAll Eye_Clear g := by
  rw [paint_Eye_Clear, paint_Eye_Clear]
  funext x y
  by_cases h : 10 ≤ x ∧ x ≤ 229 ∧ 80 ≤ y ∧ y ≤ 239
  · rw [if_pos h, if_pos h]
  · rw [if_neg h, if_neg h]
    exact paintAll_outside cs hc g x y (by omega)

theorem paintAll_redraw (pre eyes : List Call) (hc : ∀ c ∈ pre, inEyeArea c = true)
    (g : Nat → Nat → Nat) :
    paintAll (pre ++ (Eye_Clear ++ eyes)) g = paintAll (Eye_Clear ++ eyes) g := by
  rw [paintAll_append, paintAll_append, paintAll_append, clear_after_inside pre hc]

/-! ## Expressions and animations -/

open Expression_t

/-- Every expression finishes drawing and paints only inside the eye area. -/
theorem drawEyes_stays (e : Expression_t) : staysInEyeArea (drawEyes e 0 0) = true := by
  cases e <;> decide!

/-- The three transition frames of a blink paint only inside the eye area. -/
theorem blinkFrames_stay :
    staysInEyeArea (seqAll
      [ some Eye_Clear, Eye_Half LX 50, Eye_Half RX 50,
        some Eye_Clear, some (Eye_Closed LX), some (Eye_Closed RX), some [Call.delay 40],
        some Eye_Clear, Eye_Half LX 50, Eye_Half RX 50 ]) = true := by
  decide!

theorem Eye_Clear_stays : staysInEyeArea (some Eye_Clear) = true := by decide!

theorem staysInEyeArea_elim (c : Option (List Call)) (h : staysInEyeArea c = true) :
    ∃ l, c = some l ∧ (∀ d ∈ l, d.inRange = true) ∧ (∀ d ∈ l, inEyeArea d = true) := by
  cases c with
  | none => cases h
  | some l =>
    refine ⟨l, rfl, ?_, ?_⟩
    · intro d hd
      have := List.all_eq_true.mp h d hd
      exact (Bool.and_eq_true _ _ ▸ this).1
    · intro d hd
      have := List.all_eq_true.mp h d hd
      exact (Bool.and_eq_true _ _ ▸ this).2

theorem seqAll_append (xs ys : List (Option (List Call))) :
    seqAll (xs ++ ys) = andThen (seqAll xs) (seqAll ys) := by
  induction xs with
  | nil =>
    show seqAll ys = andThen (some []) (seqAll ys)
    cases seqAll ys <;> rfl
  | cons a rest ih =>
    show andThen a (seqAll (rest ++ ys)) = andThen (andThen a (seqAll rest)) (seqAll ys)
    rw [ih]
    cases a <;> cases seqAll rest <;> cases seqAll ys <;> simp [andThen]

theorem seqAll_single (a : Option (List Call)) : seqAll [a] = a := by
  cases a with
  | none => rfl
  | some l => simp [seqAll, andThen]

/-- `Draw_Expression e 0 0` is the clear followed by in-range calls inside the eye area. -/
theorem Draw_Expression_eq (e : Expression_t) :
    ∃ eyes, Draw_Expression e 0 0 = some (Eye_Clear ++ eyes) ∧
      (∀ d ∈ Eye_Clear ++ eyes, d.inRange = true) ∧
      (∀ d ∈ Eye_Clear ++ eyes, inEyeArea d = true) := by
  obtain ⟨eyes, he, hr, ha⟩ := staysInEyeArea_elim _ (drawEyes_stays e)
  obtain ⟨cl, hcl, hrc, hac⟩ := staysInEyeArea_elim _ Eye_Clear_stays
  cases hcl
  refine ⟨eyes, ?_, ?_, ?_⟩
  · unfold Draw_Expression
    rw [he]
    rfl
  · intro d hd
    rcases List.mem_append.mp hd with h | h
    · exact hrc d h
    · exact hr d h
  · intro d hd
    rcases List.mem_append.mp hd with h | h
    · exact hac d h
    · exact ha d h

theorem Anim_SetExpr_eq (e : Expression_t) (s : AnimState) (eyes : List Call)
    (h : Draw_Expression e 0 0 = some (Eye_Clear ++ eyes)) :
    Anim_SetExpr e s = some ({ s with current_expr := e }, Eye_Clear ++ eyes) := by
  unfold Anim_SetExpr withState
  rw [h]
  rfl

/-! ## Claims C8 to C10 -/

/-- C8: for every pair of expressions `a`, `b` (also `a = b`), every scheduler
state, every controller state and all pin levels, the display memory after
`Anim_SetExpr a` followed by `Anim_SetExpr b` equals the display memory after
`Anim_SetExpr b` alone, and so does the scheduler state: drawing twice is
drawing once, and nothing painted for `a` survives into `b`. -/
theorem C8_setExpr_overwrites_previous (a b : Expression_t) (s : AnimState) (l : Lcd)
    (p : Pins) :
    ∃ s1 c1 s2 c2,
      thenRun (Anim_SetExpr a s) (Anim_SetExpr b) = some (s1, c1) ∧
      Anim_SetExpr b s = some (s2, c2) ∧
      s1 = s2 ∧ gramAfter l p c1 = gramAfter l p c2 := by
  obtain ⟨ea, ha, hra, haa⟩ := Draw_Expression_eq a
  obtain ⟨eb, hb, hrb, hab⟩ := Draw_Expression_eq b
  refine ⟨{ s with current_expr := b }, (Eye_Clear ++ ea) ++ (Eye_Clear ++ eb),
    { s with current_expr := b }, Eye_Clear ++ eb, ?_, Anim_SetExpr_eq b s eb hb, rfl, ?_⟩
  · rw [Anim_SetExpr_eq a s ea ha]
    unfold thenRun
    simp only [Anim_SetExpr_eq b _ eb hb]
  · rw [gramAfter_eq_paintAll _ hrb, gramAfter_eq_paintAll]
    · exact paintAll_redraw _ _ haa _
    · intro d hd
      rcases List.mem_append.mp hd with h | h
      · exact hra d h
      · exact hrb d h

/-- C9: for every expression `e`, `Anim_SetExpr e` followed by `Anim_Blink`
terminates, leaves `current_expr = e` and both timers unchanged, and ends with
exactly the display memory that `Anim_SetExpr e` alone produces. -/
theorem C9_blink_restores_expression (e : Expression_t) (s : AnimState) (l : Lcd) (p : Pins) :
    ∃ s1 c1 s2 c2,
      thenRun (Anim_SetExpr e s) Anim_Blink = some (s1, c1) ∧
      Anim_SetExpr e s = some (s2, c2) ∧
      s1.current_expr = e ∧ s1.last_blink = s.last_blink ∧ s1.last_action = s.last_action ∧
      gramAfter l p c1 = gramAfter l p c2 := by
  obtain ⟨eyes, he, hr, ha⟩ := Draw_Expression_eq e
  obtain ⟨pre, hpre, hrp, hap⟩ := staysInEyeArea_elim _ blinkFrames_stay
  have hblink : Anim_Blink { s with current_expr := e } =
      some ({ s with current_expr := e }, pre ++ (Eye_Clear ++ eyes)) := by
    unfold Anim_Blink withState
    have hsplit : seqAll
        [ some Eye_Clear, Eye_Half LX 50, Eye_Half RX 50,
          some Eye_Clear, some (Eye_Closed LX), some (Eye_Closed RX), some [Call.delay 40],
          some Eye_Clear, Eye_Half LX 50, Eye_Half RX 50,
          Draw_Expression e 0 0 ] = some (pre ++ (Eye_Clear ++ eyes)) := by
      rw [he]
      have := seqAll_append
        [ some Eye_Clear, Eye_Half LX 50, Eye_Half RX 50,
          some Eye_Clear, some (Eye_Closed LX), some (Eye_Closed RX), some [Call.delay 40],
          some Eye_Clear, Eye_Half LX 50, Eye_Half RX 50 ] [some (Eye_Clear ++ eyes)]
      rw [hpre, seqAll_single] at this
      exact this
    show Option.map _ (seqAll _) = _
    rw [hsplit]
    rfl
  refine ⟨{ s with current_expr := e }, (Eye_Clear ++ eyes) ++ (pre ++ (Eye_Clear ++ eyes)),
    { s with current_expr := e }, Eye_Clear ++ eyes, ?_, Anim_SetExpr_eq e s eyes he, rfl, rfl,
    rfl, ?_⟩
  · rw [Anim_SetExpr_eq e s eyes he]
    unfold thenRun
    simp only [hblink]
  · have hall : ∀ d ∈ (Eye_Clear ++ eyes) ++ pre, inEyeArea d = true := by
      intro d hd
      rcases List.mem_append.mp hd with h | h
      · exact ha d h
      · exact hap d h
    rw [gramAfter_eq_paintAll _ hr, gramAfter_eq_paintAll, ← List.append_assoc]
    · exact paintAll_redraw _ _ hall _
    · intro d hd
      rcases List.mem_append.mp hd with h | h
      · exact hr d h
      · rcases List.mem_append.mp h with h2 | h2
        · exact hrp d h2
        · exact hr d h2

/-- C10 (the code on the input `current_expr = EXPR_LOVE`): `Anim_WinkL` and
`Anim_WinkR` return with the static state untouched, so `current_expr` is still
`EXPR_LOVE` and not `EXPR_NORMAL`, although the last frame they draw is
`Draw_Expression(EXPR_NORMAL, 0, 0)`. -/
theorem C10_wink_leaves_current_expr :
    (Anim_WinkL ⟨EXPR_LOVE, 0, 0⟩).map (fun r => r.1.current_expr) = some EXPR_LOVE ∧
    (Anim_WinkR ⟨EXPR_LOVE, 0, 0⟩).map (fun r => r.1.current_expr) = some EXPR_LOVE ∧
    (Anim_WinkL ⟨EXPR_LOVE, 0, 0⟩).map (fun r => r.2) =
      seqAll [ some Eye_Clear, some (Eye_Closed LX), Eye_Normal RX 0 0, some [Call.delay 180],
        Draw_Expression EXPR_NORMAL 0 0 ] ∧
    (thenRun (Anim_WinkL ⟨EXPR_LOVE, 0, 0⟩) Anim_Blink).map (fun r => r.2) =
      andThen ((Anim_WinkL ⟨EXPR_LOVE, 0, 0⟩).map (fun r => r.2))
        ((Anim_Blink ⟨EXPR_LOVE, 0, 0⟩).map (fun r => r.2)) := by
  decide!

/-! ## Filled circle -/

theorem circleLoop_zero (x0 y0 : Int) (c : Nat) (x y err : Int) :
    circleLoop x0 y0 c 0 x y err = if x ≥ y then none else some [] := rfl

theorem circleLoop_succ (x0 y0 : Int) (c : Nat) (fuel : Nat) (x y err : Int) :
    circleLoop x0 y0 c (fuel + 1) x y err =
      if x ≥ y then
        andThen (some
          [ Call.hline (toI16 (x0 - x)) (toI16 (y0 + y)) (toI16 (x * 2 + 1)) c,
            Call.hline (toI16 (x0 - x)) (toI16 (y0 - y)) (toI16 (x * 2 + 1)) c,
            Call.hline (toI16 (x0 - y)) (toI16 (y0 + x)) (toI16 (y * 2 + 1)) c,
            Call.hline (toI16 (x0 - y)) (toI16 (y0 - x)) (toI16 (y * 2 + 1)) c ])
          (circleLoop x0 y0 c fuel (if err < 0 then x else toI16 (x - 1)) (toI16 (y + 1))
            (if err < 0 then toI16 (err + (2 * toI16 (y + 1) + 1))
              else toI16 (err + 2 * (toI16 (y + 1) - (if err < 0 then x else toI16 (x - 1)) + 1))))
      else some [] := rfl

theorem toI16_le (v : Int) : toI16 v ≤ 32767 := by
  unfold toI16
  omega

theorem toI16_run_le (x r : Int) (hx : 0 ≤ x) (hxr : x ≤ r) : toI16 (x * 2 + 1) ≤ 2 * r + 1 := by
  unfold toI16
  omega

/-- Termination and shape of the circle loop.  From a state with `0 ≤ y` and
`x ≤ r` the loop finishes within `r + 1 - y` iterations, each iteration issues
four runs, and no length argument exceeds `2r + 1`; when the arithmetic fits in
`int16_t` every run lies in the bounding square of the circle. -/
theorem circleLoop_spec (x0 y0 : Int) (c : Nat) (r : Int) (hr : r ≤ 32766) :
    ∀ (fuel : Nat) (x y err : Int), 0 ≤ y → x ≤ r → (r + 1 - y).toNat ≤ fuel →
      ∃ (L : List Call) (n : Nat), circleLoop x0 y0 c fuel x y err = some L ∧
        L.length = 4 * n ∧ n ≤ (r + 1 - y).toNat ∧
        (∀ q ∈ L, runLengthLe (2 * r + 1) q) ∧
        (circleFits x0 y0 r → ∀ q ∈ L, runInBox x0 y0 r c q) := by
  intro fuel
  induction fuel with
  | zero =>
    intro x y err hy hx hf
    refine ⟨[], 0, ?_, rfl, Nat.zero_le _, fun q hq => absurd hq (List.not_mem_nil q),
      fun _ q hq => absurd hq (List.not_mem_nil q)⟩
    rw [circleLoop_zero, if_neg (by omega)]
  | succ k ih =>
    intro x y err hy hx hf
    rw [circleLoop_succ]
    by_cases hxy : x ≥ y
    · rw [if_pos hxy]
      have ey : toI16 (y + 1) = y + 1 := by unfold toI16; omega
      have ex : (if err < 0 then x else toI16 (x - 1)) ≤ r := by
        split
        · exact hx
        · unfold toI16; omega
      obtain ⟨L, n, hL, hlen, hn, hw, hbox⟩ := ih (if err < 0 then x else toI16 (x - 1))
        (toI16 (y + 1))
        (if err < 0 then toI16 (err + (2 * toI16 (y + 1) + 1))
          else toI16 (err + 2 * (toI16 (y + 1) - (if err < 0 then x else toI16 (x - 1)) + 1)))
        (by rw [ey]; omega) ex (by rw [ey]; omega)
      rw [hL]
      refine ⟨_, n + 1, rfl, ?_, ?_, ?_, ?_⟩
      · simp only [List.length_append, List.length_cons, List.length_nil, hlen]
        omega
      · rw [ey] at hn
        omega
      · intro q hq
        rcases List.mem_append.mp hq with h | h
        · simp only [List.mem_cons, List.mem_singleton, List.not_mem_nil, or_false] at h
          rcases h with h | h | h | h
          · exact ⟨_, _, _, _, h, toI16_run_le x r (by omega) hx⟩
          · exact ⟨_, _, _, _, h, toI16_run_le x r (by omega) hx⟩
          · exact ⟨_, _, _, _, h, toI16_run_le y r hy (by omega)⟩
          · exact ⟨_, _, _, _, h, toI16_run_le y r hy (by omega)⟩
        · exact hw q h
      · intro hfit q hq
        unfold circleFits at hfit
        rcases List.mem_append.mp hq with h | h
        · simp only [List.mem_cons, List.mem_singleton, List.not_mem_nil, or_false] at h
          have e1 : toI16 (x0 - x) = x0 - x := by unfold toI16; omega
          have e2 : toI16 (x0 - y) = x0 - y := by unfold toI16; omega
          have e3 : toI16 (y0 + y) = y0 + y := by unfold toI16; omega
          have e4 : toI16 (y0 - y) = y0 + -y := by unfold toI16; omega
          have e5 : toI16 (y0 + x) = y0 + x := by unfold toI16; omega
          have e6 : toI16 (y0 - x) = y0 + -x := by unfold toI16; omega
          have e7 : toI16 (x * 2 + 1) = 2 * x + 1 := by unfold toI16; omega
          have e8 : toI16 (y * 2 + 1) = 2 * y + 1 := by unfold toI16; omega
          rw [e1, e2, e3, e4, e5, e6, e7, e8] at h
          rcases h with h | h | h | h
          · exact ⟨x, y, by omega, hx, by omega, by omega, h⟩
          · exact ⟨x, -y, by omega, hx, by omega, by omega, h⟩
          · exact ⟨y, x, hy, by omega, by omega, hx, h⟩
          · exact ⟨y, -x, hy, by omega, by omega, by omega, h⟩
        · exact hbox hfit q h
    · rw [if_neg hxy]
      exact ⟨[], 0, rfl, rfl, Nat.zero_le _, fun q hq => absurd hq (List.not_mem_nil q),
        fun _ q hq => absurd hq (List.not_mem_nil q)⟩

theorem LCD_FillCircle_spec (x0 y0 r : Int) (c : Nat) (h0 : 0 ≤ r) (hr : r ≤ 32766) :
    ∃ (L : List Call) (n : Nat), LCD_FillCircle x0 y0 r c = some L ∧
      L.length = 4 * n ∧ (n : Int) ≤ r + 1 ∧
      (∀ q ∈ L, runLengthLe (2 * r + 1) q) ∧
      (circleFits x0 y0 r → ∀ q ∈ L, runInBox x0 y0 r c q) := by
  obtain ⟨L, n, hL, hlen, hn, hw, hbox⟩ := circleLoop_spec x0 y0 c r hr 32768 r 0
    (toI16 (1 - r)) (le_refl _) (le_refl _) (by omega)
  exact ⟨L, n, hL, hlen, by omega, hw, hbox⟩

/-- Under `circleFits` the runs come in pairs mirrored about the row `y0`. -/
theorem circleLoop_flip (x0 y0 : Int) (c : Nat) (r : Int) (hfit : circleFits x0 y0 r) :
    ∀ (fuel : Nat) (x y err : Int) (L : List Call), 0 ≤ y → x ≤ r →
      circleLoop x0 y0 c fuel x y err = some L →
      ∀ a b : Int, Call.hline (x0 - a) (y0 + b) (2 * a + 1) c ∈ L →
        Call.hline (x0 - a) (y0 + -b) (2 * a + 1) c ∈ L := by
  unfold circleFits at hfit
  intro fuel
  induction fuel with
  | zero =>
    intro x y err L hy hx hL a b hq
    rw [circleLoop_zero] at hL
    split at hL
    · cases hL
    · cases hL; cases hq
  | succ k ih =>
    intro x y err L hy hx hL a b hq
    rw [circleLoop_succ] at hL
    by_cases hxy : x ≥ y
    · rw [if_pos hxy] at hL
      have ey : toI16 (y + 1) = y + 1 := by unfold toI16; omega
      have ex : (if err < 0 then x else toI16 (x - 1)) ≤ r := by
        split
        · exact hx
        · unfold toI16; omega
      cases hrest : circleLoop x0 y0 c k (if err < 0 then x else toI16 (x - 1)) (toI16 (y + 1))
        (if err < 0 then toI16 (err + (2 * toI16 (y + 1) + 1))
          else toI16 (err + 2 * (toI16 (y + 1) - (if err < 0 then x else toI16 (x - 1)) + 1)))
        with
      | none => rw [hrest] at hL; cases hL
      | some L' =>
        rw [hrest] at hL
        have hLe : L = _ ++ L' := (Option.some.inj hL).symm
        have e1 : toI16 (x0 - x) = x0 - x := by unfold toI16; omega
        have e2 : toI16 (x0 - y) = x0 - y := by unfold toI16; omega
        have e3 : toI16 (y0 + y) = y0 + y := by unfold toI16; omega
        have e4 : toI16 (y0 - y) = y0 + -y := by unfold toI16; omega
        have e5 : toI16 (y0 + x) = y0 + x := by unfold toI16; omega
        have e6 : toI16 (y0 - x) = y0 + -x := by unfold toI16; omega
        have e7 : toI16 (x * 2 + 1) = 2 * x + 1 := by unfold toI16; omega
        have e8 : toI16 (y * 2 + 1) = 2 * y + 1 := by unfold toI16; omega
        rw [e1, e2, e3, e4, e5, e6, e7, e8] at hLe
        rw [hLe] at hq ⊢
        rcases List.mem_append.mp hq with h | h
        · apply List.mem_append_left
          simp only [List.mem_cons, List.mem_singleton, List.not_mem_nil, or_false,
            Call.hline.injEq, and_true] at h ⊢
          rcases h with h | h | h | h
          · obtain ⟨h1, h2, h3⟩ := h
            have ha : a = x := by omega
            have hb : b = y := by omega
            subst ha hb
            right; left
            exact ⟨rfl, rfl, rfl⟩
          · obtain ⟨h1, h2, h3⟩ := h
            have ha : a = x := by omega
            have hb : b = -y := by omega
            subst ha hb
            left
            exact ⟨rfl, by omega, rfl⟩
          · obtain ⟨h1, h2, h3⟩ := h
            have ha : a = y := by omega
            have hb : b = x := by omega
            subst ha hb
            right; right; right
            exact ⟨rfl, rfl, rfl⟩
          · obtain ⟨h1, h2, h3⟩ := h
            have ha : a = y := by omega
            have hb : b = -x := by omega
            subst ha hb
            right; right; left
            exact ⟨rfl, by omega, rfl⟩
        · apply List.mem_append_right
          exact ih _ _ _ L' (by rw [ey]; omega) ex hrest a b h
    · rw [if_neg hxy] at hL
      cases hL
      cases hq

/-! ## Pixels written by a call -/

theorem hline_hits (x y w : Int) (c : Nat) (px py : Nat) :
    (Call.hline x y w c).hits px py ↔
      (0 ≤ y ∧ y < 320 ∧ max x 0 ≤ (px : Int) ∧ (px : Int) < min (x + w) 240 ∧ (py : Int) = y) := by
  unfold Call.hits
  show (match hlineWindow x y w with
    | none => False
    | some (x1, y1, x2, y2) => x1 ≤ px ∧ px ≤ x2 ∧ y1 ≤ py ∧ py ≤ y2) ↔ _
  unfold hlineWindow
  by_cases hg : 0 ≤ y ∧ y < 320 ∧ max x 0 < min (x + w) 240
  · rw [if_pos hg]
    simp only
    omega
  · rw [if_neg hg]
    simp only [false_iff]
    omega

theorem fillRect_hits (x y w h c : Nat) (px py : Nat) :
    (Call.fillRect x y w h c).hits px py ↔
      (x ≤ px ∧ px < x + w ∧ px < 240 ∧ y ≤ py ∧ py < y + h ∧ py < 320) := by
  unfold Call.hits
  show (match fillRectWindow x y w h with
    | none => False
    | some (x1, y1, x2, y2) => x1 ≤ px ∧ px ≤ x2 ∧ y1 ≤ py ∧ py ≤ y2) ↔ _
  unfold fillRectWindow
  by_cases hg : x ≥ 240 ∨ y ≥ 320 ∨ w = 0 ∨ h = 0
  · rw [if_pos hg]
    simp only [false_iff]
    omega
  · rw [if_neg hg]
    simp only
    omega

theorem delay_hits (ms : Nat) (px py : Nat) : ¬ (Call.delay ms).hits px py := by
  intro h
  exact h

theorem hits_on_surface (q : Call) (px py : Nat) (h : q.hits px py) : px < 240 ∧ py < 320 := by
  cases q with
  | fillRect x y w h' c => rw [fillRect_hits] at h; omega
  | hline x y w c => rw [hline_hits] at h; omega
  | delay ms => exact absurd h (delay_hits ms px py)

theorem painted_nil (px py : Nat) : ¬ painted [] px py := by
  rintro ⟨q, hq, _⟩
  cases hq

theorem painted_append (a b : List Call) (px py : Nat) :
    painted (a ++ b) px py ↔ painted a px py ∨ painted b px py := by
  unfold painted
  constructor
  · rintro ⟨q, hq, hh⟩
    rcases List.mem_append.mp hq with h | h
    · exact Or.inl ⟨q, h, hh⟩
    · exact Or.inr ⟨q, h, hh⟩
  · rintro (⟨q, hq, hh⟩ | ⟨q, hq, hh⟩)
    · exact ⟨q, List.mem_append_left _ hq, hh⟩
    · exact ⟨q, List.mem_append_right _ hq, hh⟩

theorem painted_singleton (q : Call) (px py : Nat) : painted [q] px py ↔ q.hits px py := by
  unfold painted
  simp only [List.mem_singleton, exists_eq_left]

/-- A run in the bounding square of a circle writes only pixels of that square. -/
theorem runInBox_hits (cx cy r : Int) (c : Nat) (q : Call) (hq : runInBox cx cy r c q)
    (px py : Nat) (h : q.hits px py) :
    cx - r ≤ px ∧ (px : Int) ≤ cx + r ∧ cy - r ≤ py ∧ (py : Int) ≤ cy + r := by
  obtain ⟨a, b, ha0, har, hb0, hbr, rfl⟩ := hq
  rw [hline_hits] at h
  omega

theorem circleLoop_done (x0 y0 : Int) (c : Nat) (fuel : Nat) (x y err : Int) (h : x < y) :
    circleLoop x0 y0 c fuel x y err = some [] := by
  cases fuel with
  | zero => rw [circleLoop_zero, if_neg (by omega)]
  | succ k => rw [circleLoop_succ, if_neg (by omega)]

theorem LCD_FillCircle_neg (x0 y0 r : Int) (c : Nat) (hr : r < 0) :
    LCD_FillCircle x0 y0 r c = some [] :=
  circleLoop_done x0 y0 c 32768 r 0 _ hr

theorem LCD_FillCircle_zero (x0 y0 : Int) (c : Nat) (hx : isI16 x0) (hy : isI16 y0) :
    LCD_FillCircle x0 y0 0 c =
      some [Call.hline x0 y0 1 c, Call.hline x0 y0 1 c, Call.hline x0 y0 1 c,
        Call.hline x0 y0 1 c] := by
  unfold isI16 at hx hy
  have e1 : toI16 (x0 - 0) = x0 := by unfold toI16; omega
  have e2 : toI16 (y0 + 0) = y0 := by unfold toI16; omega
  have e3 : toI16 (y0 - 0) = y0 := by unfold toI16; omega
  have e4 : toI16 (0 * 2 + 1) = 1 := by decide
  have e5 : toI16 (1 - 0) = 1 := by decide
  have e6 : toI16 (0 + 1) = 1 := by decide
  have e7 : toI16 (0 - 1) = -1 := by decide
  show circleLoop x0 y0 c (32767 + 1) 0 0 (toI16 (1 - 0)) = _
  rw [circleLoop_succ, if_pos (le_refl _), e1, e2, e3, e4, e5, e6, if_neg (by decide),
    if_neg (by decide), e7, circleLoop_done _ _ _ _ _ _ _ (by decide)]
  rfl

theorem painted_centre (x0 y0 : Int) (c : Nat) (px py : Nat) :
    painted [Call.hline x0 y0 1 c, Call.hline x0 y0 1 c, Call.hline x0 y0 1 c,
        Call.hline x0 y0 1 c] px py ↔
      ((px : Int) = x0 ∧ (py : Int) = y0 ∧ px < 240 ∧ py < 320) := by
  unfold painted
  simp only [List.mem_cons, List.mem_singleton, List.not_mem_nil, or_false, or_self,
    exists_eq_left, hline_hits]
  omega

/-! ## Claim C19 -/

/-- C19 (as amended): for every centre and every radius `0 ≤ r ≤ 32766`,
`LCD_FillCircle` terminates after `n ≤ r + 1` loop iterations and issues `4 n`
horizontal runs, none with a length argument above `2r + 1`.  When `cx ± r`,
`cy ± r` and `2r + 1` are representable in `int16_t`, every run lies within
`[cx-r, cx+r] x [cy-r, cy+r]` and so does every pixel written.  For `r = 0` it
issues the one-pixel run at the centre (four times) and writes exactly the
centre pixel, when that is on the surface; for `r < 0` it issues no run. -/
theorem C19_fillCircle_bounded (cx cy r : Int) (c : Nat) (h0 : 0 ≤ r) (hr : r ≤ 32766) :
    (∃ (L : List Call) (n : Nat), LCD_FillCircle cx cy r c = some L ∧
      L.length = 4 * n ∧ (n : Int) ≤ r + 1 ∧
      (∀ q ∈ L, runLengthLe (2 * r + 1) q) ∧
      (circleFits cx cy r →
        (∀ q ∈ L, runInBox cx cy r c q) ∧
        ∀ px py : Nat, painted L px py →
          cx - r ≤ px ∧ (px : Int) ≤ cx + r ∧ cy - r ≤ py ∧ (py : Int) ≤ cy + r)) ∧
    (isI16 cx → isI16 cy →
      ∃ L, LCD_FillCircle cx cy 0 c = some L ∧ L.length = 4 ∧
        ∀ px py : Nat, painted L px py ↔
          ((px : Int) = cx ∧ (py : Int) = cy ∧ px < 240 ∧ py < 320)) ∧
    (∀ r' : Int, r' < 0 → LCD_FillCircle cx cy r' c = some []) := by
  refine ⟨?_, ?_, fun r' hr' => LCD_FillCircle_neg cx cy r' c hr'⟩
  · obtain ⟨L, n, hL, hlen, hn, hw, hbox⟩ := LCD_FillCircle_spec cx cy r c h0 hr
    refine ⟨L, n, hL, hlen, hn, hw, fun hfit => ⟨hbox hfit, ?_⟩⟩
    rintro px py ⟨q, hq, hh⟩
    exact runInBox_hits cx cy r c q (hbox hfit q hq) px py hh
  · intro hx hy
    exact ⟨_, LCD_FillCircle_zero cx cy c hx hy, rfl, painted_centre cx cy c⟩

theorem C19_fillCircle_bounded_witness :
    (0 : Int) ≤ 40 ∧ (40 : Int) ≤ 32766 ∧
    ∃ (L : List Call) (n : Nat), LCD_FillCircle 65 160 40 EYE_COLOR = some L ∧
      L.length = 4 * n ∧ (n : Int) ≤ 40 + 1 :=
  ⟨by decide, by decide,
    (C19_fillCircle_bounded 65 160 40 EYE_COLOR (by decide) (by decide)).1.imp
      (fun _ h => h.imp (fun _ h2 => ⟨h2.1, h2.2.1, h2.2.2.1⟩))⟩

/-- C19 as stated fails at centre `(100, -32768)`, radius `32766`: the first
iteration issues the run at row `toI16 (-32768 - 32766) = 2`, which writes pixel
`(100, 2)`, although the bounding rows are `-65534 .. -2`. -/
theorem C19_counterexample :
    ∃ L, LCD_FillCircle 100 (-32768) 32766 0 = some L ∧
      Call.hline 100 2 1 0 ∈ L ∧ painted L 100 2 ∧
      ¬ ((-32768 : Int) - 32766 ≤ 2 ∧ (2 : Int) ≤ -32768 + 32766) := by
  obtain ⟨L', n, hL', -⟩ := circleLoop_spec 100 (-32768) 0 32766 (le_refl _) 32767 32766 1
    (toI16 (-32765 + (2 * 1 + 1))) (by decide) (by decide) (by decide)
  have e : LCD_FillCircle 100 (-32768) 32766 0 =
      some ([Call.hline (-32666) (-32768) (-3) 0, Call.hline (-32666) (-32768) (-3) 0,
        Call.hline 100 (-2) 1 0, Call.hline 100 2 1 0] ++ L') := by
    show circleLoop 100 (-32768) 0 (32767 + 1) 32766 0 (toI16 (1 - 32766)) = _
    rw [circleLoop_succ, if_pos (by decide)]
    have e1 : toI16 (1 - 32766) = -32765 := by decide
    have e2 : toI16 (0 + 1) = 1 := by decide
    rw [e1, e2, if_pos (by decide), if_pos (by decide), hL']
    rfl
  refine ⟨_, e, ?_, ?_, by decide⟩
  · exact List.mem_append_left _ (by decide)
  · exact ⟨Call.hline 100 2 1 0, List.mem_append_left _ (by decide), by decide⟩

/-! ## Claim C13 -/

/-- For a circle whose bounding square lies on the surface, the point at offset
`(dx, dy)` from the centre is written iff some run `(a, b)` of the circle has
`|dx| ≤ a` and `dy = b`. -/
theorem circle_paintedAt (cx cy r : Int) (c : Nat) (L : List Call)
    (hx1 : 0 ≤ cx - r) (hx2 : cx + r ≤ 239) (hy1 : 0 ≤ cy - r) (hy2 : cy + r ≤ 319)
    (hbox : ∀ q ∈ L, runInBox cx cy r c q) (dx dy : Int) :
    paintedAt L (cx + dx) (cy + dy) ↔
      ∃ a b : Int, Call.hline (cx - a) (cy + b) (2 * a + 1) c ∈ L ∧ -a ≤ dx ∧ dx ≤ a ∧ dy = b := by
  unfold paintedAt painted
  constructor
  · rintro ⟨h1, h2, q, hq, hh⟩
    obtain ⟨a, b, ha0, har, hb0, hbr, rfl⟩ := hbox q hq
    rw [hline_hits] at hh
    exact ⟨a, b, hq, by omega, by omega, by omega⟩
  · rintro ⟨a, b, hq, h1, h2, h3⟩
    obtain ⟨a', b', ha0, har, hb0, hbr, he⟩ := hbox _ hq
    simp only [Call.hline.injEq, and_true] at he
    have ea : a = a' := by omega
    have eb : b = b' := by omega
    subst ea eb
    refine ⟨by omega, by omega, _, hq, ?_⟩
    rw [hline_hits]
    omega

/-- C13 (as amended): for every centre and radius `r ≥ 0` whose bounding square
`[cx-r, cx+r] x [cy-r, cy+r]` lies on the 240x320 surface, the set of pixels
written by `LCD_FillCircle` is symmetric across all four quadrants: the point
`(cx+dx, cy+dy)` is written iff `(cx-dx, cy+dy)`, `(cx+dx, cy-dy)` and
`(cx-dx, cy-dy)` are written. -/
theorem C13_fillCircle_symmetric (cx cy r : Int) (c : Nat) (h0 : 0 ≤ r)
    (hx1 : 0 ≤ cx - r) (hx2 : cx + r ≤ 239) (hy1 : 0 ≤ cy - r) (hy2 : cy + r ≤ 319) :
    ∃ L, LCD_FillCircle cx cy r c = some L ∧
      ∀ dx dy : Int, paintedAt L (cx + dx) (cy + dy) ↔
        (paintedAt L (cx - dx) (cy + dy) ∧ paintedAt L (cx + dx) (cy - dy) ∧
          paintedAt L (cx - dx) (cy - dy)) := by
  have hfit : circleFits cx cy r := by unfold circleFits; omega
  obtain ⟨L, n, hL, -, -, -, hbox⟩ := LCD_FillCircle_spec cx cy r c h0 (by omega)
  have hflip := circleLoop_flip cx cy c r hfit 32768 r 0 (toI16 (1 - r)) L (le_refl _)
    (le_refl _) hL
  refine ⟨L, hL, ?_⟩
  have key := circle_paintedAt cx cy r c L hx1 hx2 hy1 hy2 (hbox hfit)
  have mx : ∀ dx dy : Int, paintedAt L (cx + dx) (cy + dy) → paintedAt L (cx + -dx) (cy + dy) := by
    intro dx dy h
    obtain ⟨a, b, hq, h1, h2, h3⟩ := (key dx dy).mp h
    exact (key (-dx) dy).mpr ⟨a, b, hq, by omega, by omega, h3⟩
  have my : ∀ dx dy : Int, paintedAt L (cx + dx) (cy + dy) → paintedAt L (cx + dx) (cy + -dy) := by
    intro dx dy h
    obtain ⟨a, b, hq, h1, h2, h3⟩ := (key dx dy).mp h
    exact (key dx (-dy)).mpr ⟨a, -b, hflip a b hq, h1, h2, by omega⟩
  intro dx dy
  have e1 : cx - dx = cx + -dx := by omega
  have e2 : cy - dy = cy + -dy := by omega
  rw [e1, e2]
  constructor
  · intro h
    exact ⟨mx dx dy h, my dx dy h, mx dx (-dy) (my dx dy h)⟩
  · rintro ⟨h, -, -⟩
    have := mx (-dx) dy h
    rwa [neg_neg] at this

theorem C13_fillCircle_symmetric_witness :
    ((0 : Int) ≤ 5 ∧ (0 : Int) ≤ 48 - 5 ∧ (48 : Int) + 5 ≤ 239 ∧ (0 : Int) ≤ 135 - 5 ∧
      (135 : Int) + 5 ≤ 319) ∧
    ∃ L, LCD_FillCircle 48 135 5 EYE_BRIGHT = some L ∧
      (paintedAt L (48 + 3) (135 + 4) ↔
        (paintedAt L (48 - 3) (135 + 4) ∧ paintedAt L (48 + 3) (135 - 4) ∧
          paintedAt L (48 - 3) (135 - 4))) :=
  ⟨by decide,
    (C13_fillCircle_symmetric 48 135 5 EYE_BRIGHT (by decide) (by decide) (by decide) (by decide)
      (by decide)).imp (fun _ h => ⟨h.1, h.2 3 4⟩)⟩

/-- C13 as stated fails next to the edge of the surface: for centre `(0, 0)`
and radius 1 the pixel `(0+1, 0+0)` is written, but the mirrored point
`(0-1, 0+0)` is not a pixel of the surface and is not written. -/
theorem C13_counterexample :
    (LCD_FillCircle 0 0 1 0).isSome = true ∧
    paintedAt (callsOf (LCD_FillCircle 0 0 1 0)) (0 + 1) (0 + 0) ∧
    ¬ paintedAt (callsOf (LCD_FillCircle 0 0 1 0)) (0 - 1) (0 + 0) := by
  decide!

/-! ## Rounded rectangle -/

theorem seqAll_cons_some (l : List Call) (rest : List (Option (List Call))) (m : List Call)
    (h : seqAll rest = some m) : seqAll (some l :: rest) = some (l ++ m) := by
  show andThen (some l) (seqAll rest) = _
  rw [h]
  rfl

/-- Pixels written by a rectangle fill that lies on the surface. -/
theorem band_hits (x y w h : Int) (c : Nat) (px py : Nat) (hx : 0 ≤ x) (hy : 0 ≤ y)
    (hw : 0 ≤ w) (hh : 0 ≤ h) (hxw : x + w ≤ 240) (hyh : y + h ≤ 320) :
    (Call.fillRect (toU16 x) (toU16 y) (toU16 w) (toU16 h) c).hits px py ↔
      (x ≤ px ∧ (px : Int) < x + w ∧ y ≤ py ∧ (py : Int) < y + h) := by
  rw [toU16_of_nonneg x hx (by omega), toU16_of_nonneg y hy (by omega),
    toU16_of_nonneg w hw (by omega), toU16_of_nonneg h hh (by omega), fillRect_hits]
  omega

theorem or_regroup (A B C D E F G N : Prop) (hn : ¬ N) :
    (A ∨ (B ∨ C) ∨ D ∨ E ∨ F ∨ G ∨ N) ↔ (A ∨ B ∨ C ∨ D ∨ E ∨ F ∨ G) := by
  tauto

/-- Decomposition of a rounded rectangle that lies on the surface, with
`w, h > 2r`: the three bands and the four corner circles, and the pixels each
part writes. -/
theorem roundRect_spec (x y w h r : Int) (c : Nat) (h0 : 0 ≤ r) (hw : w > 2 * r)
    (hh : h > 2 * r) (hx : 0 ≤ x) (hxw : x + w ≤ 240) (hy : 0 ≤ y) (hyh : y + h ≤ 320) :
    ∃ L C1 C2 C3 C4 : List Call,
      LCD_RoundRect x y w h r c = some L ∧
      LCD_FillCircle (x + r) (y + r) r c = some C1 ∧
      LCD_FillCircle (x + w - r - 1) (y + r) r c = some C2 ∧
      LCD_FillCircle (x + r) (y + h - r - 1) r c = some C3 ∧
      LCD_FillCircle (x + w - r - 1) (y + h - r - 1) r c = some C4 ∧
      (∀ q ∈ C1, runInBox (x + r) (y + r) r c q) ∧
      (∀ q ∈ C2, runInBox (x + w - r - 1) (y + r) r c q) ∧
      (∀ q ∈ C3, runInBox (x + r) (y + h - r - 1) r c q) ∧
      (∀ q ∈ C4, runInBox (x + w - r - 1) (y + h - r - 1) r c q) ∧
      ∀ px py : Nat, painted L px py ↔
        ((x + r ≤ px ∧ (px : Int) < x + w - r ∧ y ≤ py ∧ (py : Int) < y + h) ∨
         (x ≤ px ∧ (px : Int) < x + r ∧ y + r ≤ py ∧ (py : Int) < y + h - r) ∨
         (x + w - r ≤ px ∧ (px : Int) < x + w ∧ y + r ≤ py ∧ (py : Int) < y + h - r) ∨
         painted C1 px py ∨ painted C2 px py ∨ painted C3 px py ∨ painted C4 px py) := by
  have e1 : toI16 (x + r) = x + r := by unfold toI16; omega
  have e2 : toI16 (y + r) = y + r := by unfold toI16; omega
  have e3 : toI16 (x + w - r - 1) = x + w - r - 1 := by unfold toI16; omega
  have e4 : toI16 (y + h - r - 1) = y + h - r - 1 := by unfold toI16; omega
  obtain ⟨C1, -, hC1, -, -, -, hb1⟩ := LCD_FillCircle_spec (x + r) (y + r) r c h0 (by omega)
  obtain ⟨C2, -, hC2, -, -, -, hb2⟩ :=
    LCD_FillCircle_spec (x + w - r - 1) (y + r) r c h0 (by omega)
  obtain ⟨C3, -, hC3, -, -, -, hb3⟩ :=
    LCD_FillCircle_spec (x + r) (y + h - r - 1) r c h0 (by omega)
  obtain ⟨C4, -, hC4, -, -, -, hb4⟩ :=
    LCD_FillCircle_spec (x + w - r - 1) (y + h - r - 1) r c h0 (by omega)
  have hL : LCD_RoundRect x y w h r c = some
      ([Call.fillRect (toU16 (x + r)) (toU16 y) (toU16 (w - 2 * r)) (toU16 h) c] ++
        ([Call.fillRect (toU16 x) (toU16 (y + r)) (toU16 r) (toU16 (h - 2 * r)) c,
          Call.fillRect (toU16 (x + w - r)) (toU16 (y + r)) (toU16 r) (toU16 (h - 2 * r)) c] ++
          (C1 ++ (C2 ++ (C3 ++ (C4 ++ [])))))) := by
    unfold LCD_RoundRect
    rw [if_pos hw, if_pos hh, e1, e2, e3, e4, hC1, hC2, hC3, hC4]
    rfl
  refine ⟨_, C1, C2, C3, C4, hL, hC1, hC2, hC3, hC4, hb1 (by unfold circleFits; omega),
    hb2 (by unfold circleFits; omega), hb3 (by unfold circleFits; omega),
    hb4 (by unfold circleFits; omega), ?_⟩
  intro px py
  have b1 := band_hits (x + r) y (w - 2 * r) h c px py (by omega) hy (by omega) (by omega)
    (by omega) hyh
  have b2 := band_hits x (y + r) r (h - 2 * r) c px py hx (by omega) h0 (by omega) (by omega)
    (by omega)
  have b3 := band_hits (x + w - r) (y + r) r (h - 2 * r) c px py (by omega) (by omega) h0
    (by omega) (by omega) (by omega)
  have a1 : x + r + (w - 2 * r) = x + w - r := by omega
  have a2 : y + r + (h - 2 * r) = y + h - r := by omega
  have a3 : x + w - r + r = x + w := by omega
  rw [a1] at b1
  rw [a2] at b2 b3
  rw [a3] at b3
  clear e1 e2 e3 e4 a1 a2 a3 hb1 hb2 hb3 hb4 hC1 hC2 hC3 hC4 hL
  have hsplit : ∀ (q1 q2 : Call), painted [q1, q2] px py ↔ (q1.hits px py ∨ q2.hits px py) := by
    intro q1 q2
    have : [q1, q2] = [q1] ++ [q2] := rfl
    rw [this, painted_append, painted_singleton, painted_singleton]
  rw [painted_append, painted_append, painted_append, painted_append, painted_append,
    painted_append, painted_singleton, hsplit, b1, b2, b3]
  have hn : ¬ painted [] px py := painted_nil px py
  exact or_regroup _ _ _ _ _ _ _ _ hn

/-- A corner-circle run reaches from any pixel it writes to the centre column
of the circle. -/
theorem circle_reach (cxc cyc r : Int) (c : Nat) (C : List Call)
    (hb : ∀ q ∈ C, runInBox cxc cyc r c q) (h0 : 0 ≤ cxc - r) (h1 : cxc + r ≤ 239)
    (pa pb py : Nat) (hp : painted C pa py)
    (hbetween : ((pa : Int) ≤ pb ∧ (pb : Int) ≤ cxc) ∨ (cxc ≤ (pb : Int) ∧ (pb : Int) ≤ pa)) :
    painted C pb py := by
  obtain ⟨q, hq, hh⟩ := hp
  refine ⟨q, hq, ?_⟩
  obtain ⟨a, b, ha0, har, hb0, hbr, rfl⟩ := hb q hq
  rw [hline_hits] at hh ⊢
  omega

theorem circle_inside (cxc cyc r : Int) (c : Nat) (C : List Call)
    (hb : ∀ q ∈ C, runInBox cxc cyc r c q) (px py : Nat) (hp : painted C px py) :
    cxc - r ≤ px ∧ (px : Int) ≤ cxc + r ∧ cyc - r ≤ py ∧ (py : Int) ≤ cyc + r := by
  obtain ⟨q, hq, hh⟩ := hp
  exact runInBox_hits cxc cyc r c q (hb q hq) px py hh

/-- Every pixel written by the parts of a rounded rectangle lies in its bounding
rectangle. -/
theorem roundRect_inside (x y w h r : Int) (c : Nat) (h0 : 0 ≤ r) (hw : w > 2 * r)
    (hh : h > 2 * r) (C1 C2 C3 C4 : List Call)
    (hb1 : ∀ q ∈ C1, runInBox (x + r) (y + r) r c q)
    (hb2 : ∀ q ∈ C2, runInBox (x + w - r - 1) (y + r) r c q)
    (hb3 : ∀ q ∈ C3, runInBox (x + r) (y + h - r - 1) r c q)
    (hb4 : ∀ q ∈ C4, runInBox (x + w - r - 1) (y + h - r - 1) r c q) (px py : Nat)
    (hp : (x + r ≤ px ∧ (px : Int) < x + w - r ∧ y ≤ py ∧ (py : Int) < y + h) ∨
         (x ≤ px ∧ (px : Int) < x + r ∧ y + r ≤ py ∧ (py : Int) < y + h - r) ∨
         (x + w - r ≤ px ∧ (px : Int) < x + w ∧ y + r ≤ py ∧ (py : Int) < y + h - r) ∨
         painted C1 px py ∨ painted C2 px py ∨ painted C3 px py ∨ painted C4 px py) :
    x ≤ px ∧ (px : Int) < x + w ∧ y ≤ py ∧ (py : Int) < y + h := by
  rcases hp with h | h | h | h | h | h | h
  · omega
  · omega
  · omega
  · have := circle_inside _ _ _ _ _ hb1 px py h; omega
  · have := circle_inside _ _ _ _ _ hb2 px py h; omega
  · have := circle_inside _ _ _ _ _ hb3 px py h; omega
  · have := circle_inside _ _ _ _ _ hb4 px py h; omega

/-! ## Claim C15 -/

/-- C15: for every `r ≥ 0` and `w, h > 2r` with the rectangle `(x, y, w, h)` on
the surface, `LCD_RoundRect` terminates and leaves no gap: every pixel written
lies in `[x, x+w) x [y, y+h)`; in every row `y ≤ j < y+h` the written pixels
contain the central band's columns `[x+r, x+w-r)` and form one contiguous run
(any pixel between two written pixels of the row is written); and rows
`y+r .. y+h-r-1` are written across the full width. -/
theorem C15_roundRect_no_gap (x y w h r : Int) (c : Nat) (h0 : 0 ≤ r) (hw : w > 2 * r)
    (hh : h > 2 * r) (hx : 0 ≤ x) (hxw : x + w ≤ 240) (hy : 0 ≤ y) (hyh : y + h ≤ 320) :
    ∃ L, LCD_RoundRect x y w h r c = some L ∧
      (∀ px py : Nat, painted L px py →
        x ≤ px ∧ (px : Int) < x + w ∧ y ≤ py ∧ (py : Int) < y + h) ∧
      (∀ py : Nat, y ≤ py → (py : Int) < y + h →
        (∀ px : Nat, x + r ≤ px → (px : Int) < x + w - r → painted L px py) ∧
        (∀ p1 p2 p3 : Nat, p1 ≤ p2 → p2 ≤ p3 → painted L p1 py → painted L p3 py →
          painted L p2 py)) ∧
      (∀ px py : Nat, y + r ≤ py → (py : Int) < y + h - r → x ≤ px → (px : Int) < x + w →
        painted L px py) := by
  obtain ⟨L, C1, C2, C3, C4, hL, -, -, -, -, hb1, hb2, hb3, hb4, hp⟩ :=
    roundRect_spec x y w h r c h0 hw hh hx hxw hy hyh
  refine ⟨L, hL, ?_, ?_, ?_⟩
  · intro px py hpx
    exact roundRect_inside x y w h r c h0 hw hh C1 C2 C3 C4 hb1 hb2 hb3 hb4 px py
      ((hp px py).mp hpx)
  · intro py hpy1 hpy2
    constructor
    · intro px h1 h2
      exact (hp px py).mpr (Or.inl ⟨h1, h2, hpy1, hpy2⟩)
    · intro p1 p2 p3 h12 h23 hp1 hp3
      by_cases hmid : x + r ≤ (p2 : Int) ∧ (p2 : Int) < x + w - r
      · exact (hp p2 py).mpr (Or.inl ⟨hmid.1, hmid.2, hpy1, hpy2⟩)
      · by_cases hleft : (p2 : Int) < x + r
        · rcases (hp p1 py).mp hp1 with h | h | h | h | h | h | h
          · omega
          · exact (hp p2 py).mpr (Or.inr (Or.inl (by omega)))
          · omega
          · exact (hp p2 py).mpr (Or.inr (Or.inr (Or.inr (Or.inl
              (circle_reach _ _ _ _ _ hb1 (by omega) (by omega) p1 p2 py h (by omega))))))
          · exact (hp p2 py).mpr (Or.inr (Or.inr (Or.inr (Or.inr (Or.inl
              (circle_reach _ _ _ _ _ hb2 (by omega) (by omega) p1 p2 py h (by omega)))))))
          · exact (hp p2 py).mpr (Or.inr (Or.inr (Or.inr (Or.inr (Or.inr (Or.inl
              (circle_reach _ _ _ _ _ hb3 (by omega) (by omega) p1 p2 py h (by omega))))))))
          · exact (hp p2 py).mpr (Or.inr (Or.inr (Or.inr (Or.inr (Or.inr (Or.inr
              (circle_reach _ _ _ _ _ hb4 (by omega) (by omega) p1 p2 py h (by omega))))))))
        · rcases (hp p3 py).mp hp3 with h | h | h | h | h | h | h
          · omega
          · omega
          · exact (hp p2 py).mpr (Or.inr (Or.inr (Or.inl (by omega))))
          · exact (hp p2 py).mpr (Or.inr (Or.inr (Or.inr (Or.inl
              (circle_reach _ _ _ _ _ hb1 (by omega) (by omega) p3 p2 py h (by omega))))))
          · exact (hp p2 py).mpr (Or.inr (Or.inr (Or.inr (Or.inr (Or.inl
              (circle_reach _ _ _ _ _ hb2 (by omega) (by omega) p3 p2 py h (by omega)))))))
          · exact (hp p2 py).mpr (Or.inr (Or.inr (Or.inr (Or.inr (Or.inr (Or.inl
              (circle_reach _ _ _ _ _ hb3 (by omega) (by omega) p3 p2 py h (by omega))))))))
          · exact (hp p2 py).mpr (Or.inr (Or.inr (Or.inr (Or.inr (Or.inr (Or.inr
              (circle_reach _ _ _ _ _ hb4 (by omega) (by omega) p3 p2 py h (by omega))))))))
  · intro px py h1 h2 h3 h4
    by_cases hl : (px : Int) < x + r
    · exact (hp px py).mpr (Or.inr (Or.inl ⟨h3, hl, h1, h2⟩))
    · by_cases hm : (px : Int) < x + w - r
      · exact (hp px py).mpr (Or.inl ⟨by omega, hm, by omega, by omega⟩)
      · exact (hp px py).mpr (Or.inr (Or.inr (Or.inl ⟨by omega, h4, h1, h2⟩)))

theorem C15_roundRect_no_gap_witness :
    ((0 : Int) ≤ 18 ∧ (50 : Int) > 2 * 18 ∧ (70 : Int) > 2 * 18 ∧ (0 : Int) ≤ 40 ∧
      (40 : Int) + 50 ≤ 240 ∧ (0 : Int) ≤ 125 ∧ (125 : Int) + 70 ≤ 320) ∧
    ∃ L, LCD_RoundRect 40 125 50 70 18 EYE_COLOR = some L ∧
      ∀ px py : Nat, painted L px py →
        (40 : Int) ≤ px ∧ (px : Int) < 40 + 50 ∧ (125 : Int) ≤ py ∧ (py : Int) < 125 + 70 :=
  ⟨by decide,
    (C15_roundRect_no_gap 40 125 50 70 18 EYE_COLOR (by decide) (by decide) (by decide)
      (by decide) (by decide) (by decide) (by decide)).imp (fun _ h => ⟨h.1, h.2.1⟩)⟩

/-! ## Claim C14 -/

theorem mem_paintedSet (l : List Call) (q : Nat × Nat) :
    q ∈ (Finset.range 240 ×ˢ Finset.range 320).filter (fun q => painted l q.1 q.2) ↔
      painted l q.1 q.2 := by
  rw [Finset.mem_filter, Finset.mem_product, Finset.mem_range, Finset.mem_range]
  constructor
  · exact fun h => h.2
  · intro h
    obtain ⟨c, _, hh⟩ := h
    exact ⟨hits_on_surface c q.1 q.2 hh, ⟨c, ‹_›, hh⟩⟩

/-- Area of the three bands as a set of pixels. -/
theorem bands_card (X Y W H R : Nat) (hW : 2 * R < W) (hH : 2 * R < H) :
    ((Finset.Ico (X + R) (X + W - R) ×ˢ Finset.Ico Y (Y + H)) ∪
      (Finset.Ico X (X + R) ×ˢ Finset.Ico (Y + R) (Y + H - R)) ∪
      (Finset.Ico (X + W - R) (X + W) ×ˢ Finset.Ico (Y + R) (Y + H - R))).card =
      (W - 2 * R) * H + 2 * (R * (H - 2 * R)) := by
  have d1 : Disjoint (Finset.Ico (X + R) (X + W - R) ×ˢ Finset.Ico Y (Y + H))
      (Finset.Ico X (X + R) ×ˢ Finset.Ico (Y + R) (Y + H - R)) := by
    rw [Finset.disjoint_left]
    intro q h1 h2
    simp only [Finset.mem_product, Finset.mem_Ico] at h1 h2
    omega
  have d2 : Disjoint ((Finset.Ico (X + R) (X + W - R) ×ˢ Finset.Ico Y (Y + H)) ∪
      (Finset.Ico X (X + R) ×ˢ Finset.Ico (Y + R) (Y + H - R)))
      (Finset.Ico (X + W - R) (X + W) ×ˢ Finset.Ico (Y + R) (Y + H - R)) := by
    rw [Finset.disjoint_left]
    intro q h1 h2
    simp only [Finset.mem_union, Finset.mem_product, Finset.mem_Ico] at h1 h2
    omega
  rw [Finset.card_union_of_disjoint d2, Finset.card_union_of_disjoint d1, Finset.card_product,
    Finset.card_product, Finset.card_product, Nat.card_Ico, Nat.card_Ico, Nat.card_Ico,
    Nat.card_Ico, Nat.card_Ico]
  have e1 : X + W - R - (X + R) = W - 2 * R := by omega
  have e2 : Y + H - Y = H := by omega
  have e3 : X + R - X = R := by omega
  have e4 : Y + H - R - (Y + R) = H - 2 * R := by omega
  have e5 : X + W - (X + W - R) = R := by omega
  rw [e1, e2, e3, e4, e5]
  omega

theorem paintedCount_one (l : List Call) (a b : Nat)
    (h : ∀ px py : Nat, painted l px py ↔ (px = a ∧ py = b)) : paintedCount l = 1 := by
  unfold paintedCount
  have : (Finset.range 240 ×ˢ Finset.range 320).filter (fun q => painted l q.1 q.2) =
      {(a, b)} := by
    ext q
    rw [mem_paintedSet, Finset.mem_singleton, h, Prod.ext_iff]
  rw [this, Finset.card_singleton]

set_option maxRecDepth 4000 in
/-- Counting for a rounded rectangle whose written pixels are the three bands
and four further sets. -/
theorem roundRect_count (x y w h r : Nat) (L C1 C2 C3 C4 : List Call) (hW : 2 * r < w)
    (hH : 2 * r < h)
    (hp : ∀ px py : Nat, painted L px py ↔
        (((x : Int) + r ≤ px ∧ (px : Int) < x + w - r ∧ (y : Int) ≤ py ∧ (py : Int) < y + h) ∨
         ((x : Int) ≤ px ∧ (px : Int) < x + r ∧ (y : Int) + r ≤ py ∧ (py : Int) < y + h - r) ∨
         ((x : Int) + w - r ≤ px ∧ (px : Int) < x + w ∧ (y : Int) + r ≤ py ∧
           (py : Int) < y + h - r) ∨
         painted C1 px py ∨ painted C2 px py ∨ painted C3 px py ∨ painted C4 px py))
    (hin : ∀ px py : Nat, painted L px py →
      (x : Int) ≤ px ∧ (px : Int) < x + w ∧ (y : Int) ≤ py ∧ (py : Int) < y + h) :
    (w - 2 * r) * h + 2 * (r * (h - 2 * r)) ≤ paintedCount L ∧
    paintedCount L ≤ (w - 2 * r) * h + 2 * (r * (h - 2 * r)) +
      paintedCount C1 + paintedCount C2 + paintedCount C3 + paintedCount C4 ∧
    paintedCount L ≤ w * h := by
  have hsub1 : ((Finset.Ico (x + r) (x + w - r) ×ˢ Finset.Ico y (y + h)) ∪
      (Finset.Ico x (x + r) ×ˢ Finset.Ico (y + r) (y + h - r)) ∪
      (Finset.Ico (x + w - r) (x + w) ×ˢ Finset.Ico (y + r) (y + h - r))) ⊆
      (Finset.range 240 ×ˢ Finset.range 320).filter (fun q => painted L q.1 q.2) := by
    intro q hq
    rw [mem_paintedSet, hp]
    simp only [Finset.mem_union, Finset.mem_product, Finset.mem_Ico] at hq
    rcases hq with (hq | hq) | hq
    · left; omega
    · right; left; omega
    · right; right; left; omega
  have hsub2 : (Finset.range 240 ×ˢ Finset.range 320).filter (fun q => painted L q.1 q.2) ⊆
      ((Finset.Ico (x + r) (x + w - r) ×ˢ Finset.Ico y (y + h)) ∪
      (Finset.Ico x (x + r) ×ˢ Finset.Ico (y + r) (y + h - r)) ∪
      (Finset.Ico (x + w - r) (x + w) ×ˢ Finset.Ico (y + r) (y + h - r))) ∪
      (Finset.range 240 ×ˢ Finset.range 320).filter (fun q => painted C1 q.1 q.2) ∪
      (Finset.range 240 ×ˢ Finset.range 320).filter (fun q => painted C2 q.1 q.2) ∪
      (Finset.range 240 ×ˢ Finset.range 320).filter (fun q => painted C3 q.1 q.2) ∪
      (Finset.range 240 ×ˢ Finset.range 320).filter (fun q => painted C4 q.1 q.2) := by
    intro q hq
    rw [mem_paintedSet, hp] at hq
    simp only [Finset.mem_union, mem_paintedSet, Finset.mem_product, Finset.mem_Ico]
    rcases hq with hq | hq | hq | hq | hq | hq | hq
    · left; left; left; left; left; left; omega
    · left; left; left; left; left; right; omega
    · left; left; left; left; right; omega
    · left; left; left; right; exact hq
    · left; left; right; exact hq
    · left; right; exact hq
    · right; exact hq
  have hsub3 : (Finset.range 240 ×ˢ Finset.range 320).filter (fun q => painted L q.1 q.2) ⊆
      Finset.Ico x (x + w) ×ˢ Finset.Ico y (y + h) := by
    intro q hq
    rw [mem_paintedSet] at hq
    have := hin q.1 q.2 hq
    simp only [Finset.mem_product, Finset.mem_Ico]
    omega
  have c1 := Finset.card_le_card hsub1
  have c2 := Finset.card_le_card hsub2
  have c3 := Finset.card_le_card hsub3
  rw [bands_card x y w h r hW hH] at c1
  rw [Finset.card_product, Nat.card_Ico, Nat.card_Ico, Nat.add_sub_cancel_left,
    Nat.add_sub_cancel_left] at c3
  have u1 := Finset.card_union_le
    (((Finset.Ico (x + r) (x + w - r) ×ˢ Finset.Ico y (y + h)) ∪
      (Finset.Ico x (x + r) ×ˢ Finset.Ico (y + r) (y + h - r)) ∪
      (Finset.Ico (x + w - r) (x + w) ×ˢ Finset.Ico (y + r) (y + h - r))) ∪
      (Finset.range 240 ×ˢ Finset.range 320).filter (fun q => painted C1 q.1 q.2) ∪
      (Finset.range 240 ×ˢ Finset.range 320).filter (fun q => painted C2 q.1 q.2) ∪
      (Finset.range 240 ×ˢ Finset.range 320).filter (fun q => painted C3 q.1 q.2))
    ((Finset.range 240 ×ˢ Finset.range 320).filter (fun q => painted C4 q.1 q.2))
  have u2 := Finset.card_union_le
    (((Finset.Ico (x + r) (x + w - r) ×ˢ Finset.Ico y (y + h)) ∪
      (Finset.Ico x (x + r) ×ˢ Finset.Ico (y + r) (y + h - r)) ∪
      (Finset.Ico (x + w - r) (x + w) ×ˢ Finset.Ico (y + r) (y + h - r))) ∪
      (Finset.range 240 ×ˢ Finset.range 320).filter (fun q => painted C1 q.1 q.2) ∪
      (Finset.range 240 ×ˢ Finset.range 320).filter (fun q => painted C2 q.1 q.2))
    ((Finset.range 240 ×ˢ Finset.range 320).filter (fun q => painted C3 q.1 q.2))
  have u3 := Finset.card_union_le
    (((Finset.Ico (x + r) (x + w - r) ×ˢ Finset.Ico y (y + h)) ∪
      (Finset.Ico x (x + r) ×ˢ Finset.Ico (y + r) (y + h - r)) ∪
      (Finset.Ico (x + w - r) (x + w) ×ˢ Finset.Ico (y + r) (y + h - r))) ∪
      (Finset.range 240 ×ˢ Finset.range 320).filter (fun q => painted C1 q.1 q.2))
    ((Finset.range 240 ×ˢ Finset.range 320).filter (fun q => painted C2 q.1 q.2))
  have u4 := Finset.card_union_le
    ((Finset.Ico (x + r) (x + w - r) ×ˢ Finset.Ico y (y + h)) ∪
      (Finset.Ico x (x + r) ×ˢ Finset.Ico (y + r) (y + h - r)) ∪
      (Finset.Ico (x + w - r) (x + w) ×ˢ Finset.Ico (y + r) (y + h - r)))
    ((Finset.range 240 ×ˢ Finset.range 320).filter (fun q => painted C1 q.1 q.2))
  rw [bands_card x y w h r hW hH] at u4
  unfold paintedCount
  exact ⟨c1, by omega, c3⟩

/-- C14 (as amended): for every `r ≥ 0` and `w, h > 2r` with the rectangle on the
surface, the number of distinct pixels written by `LCD_RoundRect` is at least
the area of the three bands, `(w-2r)*h + 2*r*(h-2r)`, at most that area plus
the areas of the four corner circles, and at most `w*h`. -/
theorem C14_roundRect_area (x y w h r : Int) (c : Nat) (h0 : 0 ≤ r) (hw : w > 2 * r)
    (hh : h > 2 * r) (hx : 0 ≤ x) (hxw : x + w ≤ 240) (hy : 0 ≤ y) (hyh : y + h ≤ 320) :
    ∃ L C1 C2 C3 C4 : List Call,
      LCD_RoundRect x y w h r c = some L ∧
      LCD_FillCircle (x + r) (y + r) r c = some C1 ∧
      LCD_FillCircle (x + w - r - 1) (y + r) r c = some C2 ∧
      LCD_FillCircle (x + r) (y + h - r - 1) r c = some C3 ∧
      LCD_FillCircle (x + w - r - 1) (y + h - r - 1) r c = some C4 ∧
      (w - 2 * r) * h + 2 * r * (h - 2 * r) ≤ (paintedCount L : Int) ∧
      (paintedCount L : Int) ≤ (w - 2 * r) * h + 2 * r * (h - 2 * r) +
        paintedCount C1 + paintedCount C2 + paintedCount C3 + paintedCount C4 ∧
      (paintedCount L : Int) ≤ w * h := by
  obtain ⟨L, C1, C2, C3, C4, hL, hC1, hC2, hC3, hC4, hb1, hb2, hb3, hb4, hp⟩ :=
    roundRect_spec x y w h r c h0 hw hh hx hxw hy hyh
  have hin : ∀ px py : Nat, painted L px py →
      x ≤ px ∧ (px : Int) < x + w ∧ y ≤ py ∧ (py : Int) < y + h := fun px py hpx =>
    roundRect_inside x y w h r c h0 hw hh C1 C2 C3 C4 hb1 hb2 hb3 hb4 px py ((hp px py).mp hpx)
  refine ⟨L, C1, C2, C3, C4, hL, hC1, hC2, hC3, hC4, ?_⟩
  clear hL hC1 hC2 hC3 hC4 hb1 hb2 hb3 hb4
  lift x to ℕ using hx
  lift y to ℕ using hy
  lift r to ℕ using h0
  lift w to ℕ using (by omega)
  lift h to ℕ using (by omega)
  have hW : 2 * r < w := by omega
  have hH : 2 * r < h := by omega
  have hcast : ((w : Int) - 2 * r) * h + 2 * r * (h - 2 * r) =
      (((w - 2 * r) * h + 2 * (r * (h - 2 * r)) : Nat) : Int) := by
    push_cast [Nat.cast_sub (le_of_lt hW), Nat.cast_sub (le_of_lt hH)]
    ring
  rw [hcast]
  obtain ⟨k1, k2, k3⟩ := roundRect_count x y w h r L C1 C2 C3 C4 hW hH hp hin
  exact ⟨by exact_mod_cast k1, by exact_mod_cast k2, by exact_mod_cast k3⟩

theorem C14_roundRect_area_witness :
    ((0 : Int) ≤ 18 ∧ (50 : Int) > 2 * 18 ∧ (70 : Int) > 2 * 18 ∧ (0 : Int) ≤ 40 ∧
      (40 : Int) + 50 ≤ 240 ∧ (0 : Int) ≤ 125 ∧ (125 : Int) + 70 ≤ 320) ∧
    ∃ L, LCD_RoundRect 40 125 50 70 18 EYE_COLOR = some L ∧
      (50 - 2 * 18) * 70 + 2 * 18 * (70 - 2 * 18) ≤ (paintedCount L : Int) ∧
      (paintedCount L : Int) ≤ 50 * 70 :=
  ⟨by decide,
    (C14_roundRect_area 40 125 50 70 18 EYE_COLOR (by decide) (by decide) (by decide)
      (by decide) (by decide) (by decide) (by decide)).imp
      (fun _ h => by
        obtain ⟨_, _, _, _, h1, _, _, _, _, h2, _, h3⟩ := h
        exact ⟨h1, h2, h3⟩)⟩

/-- C14 as stated fails: for `x = y = 0`, `w = h = 1`, `r = 0` the rounded
rectangle writes one pixel, while the three band areas plus the four circle
areas add up to 5, because every corner circle overlaps the central band. -/
theorem C14_counterexample :
    (LCD_RoundRect 0 0 1 1 0 0).isSome = true ∧
    paintedCount (callsOf (LCD_RoundRect 0 0 1 1 0 0)) = 1 ∧
    paintedCount (callsOf (LCD_FillCircle 0 0 0 0)) = 1 ∧
    ((1 - 2 * 0) * 1 + 2 * 0 * (1 - 2 * 0) + 1 + 1 + 1 + 1 : Int) ≠ 1 := by
  have hc : ∀ px py : Nat, painted (callsOf (LCD_FillCircle 0 0 0 0)) px py ↔
      (px = 0 ∧ py = 0) := by
    intro px py
    have e : callsOf (LCD_FillCircle 0 0 0 0) =
        [Call.hline 0 0 1 0, Call.hline 0 0 1 0, Call.hline 0 0 1 0, Call.hline 0 0 1 0] := by
      rw [LCD_FillCircle_zero 0 0 0 (by decide) (by decide)]
      rfl
    rw [e, painted_centre]
    omega
  have hr : ∀ px py : Nat, painted (callsOf (LCD_RoundRect 0 0 1 1 0 0)) px py ↔
      (px = 0 ∧ py = 0) := by
    intro px py
    obtain ⟨L, C1, C2, C3, C4, hL, hC1, hC2, hC3, hC4, -, -, -, -, hp⟩ :=
      roundRect_spec 0 0 1 1 0 0 (by decide) (by decide) (by decide) (by decide) (by decide)
        (by decide) (by decide)
    have e0 : LCD_FillCircle 0 0 0 0 = some
        [Call.hline 0 0 1 0, Call.hline 0 0 1 0, Call.hline 0 0 1 0, Call.hline 0 0 1 0] :=
      LCD_FillCircle_zero 0 0 0 (by decide) (by decide)
    have k1 : C1 = _ := Option.some.inj (hC1.symm.trans e0)
    have k2 : C2 = _ := Option.some.inj (hC2.symm.trans e0)
    have k3 : C3 = _ := Option.some.inj (hC3.symm.trans e0)
    have k4 : C4 = _ := Option.some.inj (hC4.symm.trans e0)
    have eL : callsOf (LCD_RoundRect 0 0 1 1 0 0) = L := by rw [hL]; rfl
    rw [eL, hp, k1, k2, k3, k4, painted_centre]
    omega
  refine ⟨by decide!, paintedCount_one _ 0 0 hr, paintedCount_one _ 0 0 hc, by decide⟩

/-! ## Claim C11 -/

theorem windowWithin_sound (q : Call) (l : List Call) (h : windowWithin q l = true)
    (px py : Nat) (hq : q.hits px py) : painted l px py := by
  unfold windowWithin at h
  unfold Call.hits at hq
  cases hw : q.window with
  | none => rw [hw] at hq; exact absurd hq id
  | some win =>
    obtain ⟨a1, b1, a2, b2⟩ := win
    rw [hw] at h hq
    simp only at h hq
    obtain ⟨o, ho, hdec⟩ := List.any_eq_true.mp h
    refine ⟨o, ho, ?_⟩
    unfold Call.hits
    cases hw2 : o.window with
    | none => rw [hw2] at hdec; cases hdec
    | some win2 =>
      obtain ⟨x1, y1, x2, y2⟩ := win2
      rw [hw2] at hdec
      have := of_decide_eq_true hdec
      show x1 ≤ px ∧ px ≤ x2 ∧ y1 ≤ py ∧ py ≤ y2
      omega

theorem Eye_Normal_parts (cx ox oy : Int) :
    Eye_Normal cx ox oy = seqAll [eyeOutline cx, eyeHighlight cx ox oy] := rfl

theorem highlightInside_left : ∀ i, i < 9 → ∀ j, j < 9 →
    highlightInside LX (i : Nat) (j : Nat) = true := by
  decide!

theorem highlightInside_right : ∀ i, i < 9 → ∀ j, j < 9 →
    highlightInside RX (i : Nat) (j : Nat) = true := by
  decide!

/-- C11 (as amended): for either socket and every gaze offset with
`0 ≤ ox ≤ 8` and `0 ≤ oy ≤ 8` (zero offset, look-right and look-down among
them), `Eye_Normal` terminates and every pixel written for the highlight
circle is also written by the eye's rounded rectangle. -/
theorem C11_highlight_inside_outline (cx ox oy : Int) (hcx : cx = LX ∨ cx = RX)
    (hox0 : 0 ≤ ox) (hox : ox ≤ 8) (hoy0 : 0 ≤ oy) (hoy : oy ≤ 8) :
    ∃ O H, eyeOutline cx = some O ∧ eyeHighlight cx ox oy = some H ∧
      Eye_Normal cx ox oy = some (O ++ (H ++ [])) ∧
      ∀ px py : Nat, painted H px py → painted O px py := by
  have hin : highlightInside cx ox oy = true := by
    have ei : ((ox.toNat : Nat) : Int) = ox := Int.toNat_of_nonneg hox0
    have ej : ((oy.toNat : Nat) : Int) = oy := Int.toNat_of_nonneg hoy0
    rcases hcx with rfl | rfl
    · have := highlightInside_left ox.toNat (by omega) oy.toNat (by omega)
      rwa [ei, ej] at this
    · have := highlightInside_right ox.toNat (by omega) oy.toNat (by omega)
      rwa [ei, ej] at this
  unfold highlightInside at hin
  cases hO : eyeOutline cx with
  | none => rw [hO] at hin; cases hin
  | some O =>
    cases hH : eyeHighlight cx ox oy with
    | none => rw [hO, hH] at hin; cases hin
    | some H =>
      rw [hO, hH] at hin
      refine ⟨O, H, rfl, rfl, ?_, ?_⟩
      · rw [Eye_Normal_parts, hO, hH]
        rfl
      · rintro px py ⟨q, hq, hh⟩
        exact windowWithin_sound q O (List.all_eq_true.mp hin q hq) px py hh

theorem C11_highlight_inside_outline_witness :
    ((0 : Int) ≤ 8 ∧ (8 : Int) ≤ 8 ∧ (0 : Int) ≤ 0 ∧ (0 : Int) ≤ 8) ∧
    ∃ O H, eyeOutline LX = some O ∧ eyeHighlight LX 8 0 = some H ∧
      Eye_Normal LX 8 0 = some (O ++ (H ++ [])) ∧
      ∀ px py : Nat, painted H px py → painted O px py :=
  ⟨by decide,
    C11_highlight_inside_outline LX 8 0 (Or.inl rfl) (by decide) (by decide) (by decide)
      (by decide)⟩

/-- C11 as stated fails for the look-left offset `(-8, 0)`: in the left socket
the highlight circle writes pixel `(35, 135)`, which the rounded rectangle
(columns 40 to 89) does not write. -/
theorem C11_counterexample :
    (eyeOutline LX).isSome = true ∧ (eyeHighlight LX (-8) 0).isSome = true ∧
    painted (callsOf (eyeHighlight LX (-8) 0)) 35 135 ∧
    ¬ painted (callsOf (eyeOutline LX)) 35 135 := by
  decide!

/-! ## Claim C20 -/

theorem drawEyes_parts (e : Expression_t) (ox oy : Int) :
    drawEyes e ox oy = seqAll [leftEye e ox oy, rightEye e ox oy] := by
  cases e <;> rfl

theorem socketsApart_all (e : Expression_t) : socketsApart e = true := by
  cases e <;> decide!

theorem windowInCols_sound (lo hi : Nat) (l : List Call)
    (h : l.all (windowInCols lo hi) = true) (px py : Nat) (hp : painted l px py) :
    lo ≤ px ∧ px < hi ∧ 80 ≤ py ∧ py < 240 := by
  obtain ⟨q, hq, hh⟩ := hp
  have hq2 := List.all_eq_true.mp h q hq
  unfold windowInCols at hq2
  unfold Call.hits at hh
  cases hw : q.window with
  | none => rw [hw] at hh; exact absurd hh id
  | some win =>
    obtain ⟨x1, y1, x2, y2⟩ := win
    rw [hw] at hh hq2
    have := of_decide_eq_true hq2
    simp only at hh
    omega

/-- C20: for each of the 15 expressions, `Anim_SetExpr` terminates with the
clear followed by the left-eye and right-eye calls; every pixel written after
the clear lies in columns `[10, 230)` and rows `[80, 240)`; every pixel written
for the left eye lies in columns below 120 and every pixel written for the
right eye in columns 120 or above. -/
theorem C20_sockets_inside_and_apart (e : Expression_t) (s : AnimState) :
    ∃ l r, leftEye e 0 0 = some l ∧ rightEye e 0 0 = some r ∧
      Anim_SetExpr e s = some ({ s with current_expr := e }, Eye_Clear ++ (l ++ (r ++ []))) ∧
      (∀ px py : Nat, painted (l ++ (r ++ [])) px py →
        10 ≤ px ∧ px < 230 ∧ 80 ≤ py ∧ py < 240) ∧
      (∀ px py : Nat, painted l px py → px < 120) ∧
      (∀ px py : Nat, painted r px py → 120 ≤ px) := by
  have hs := socketsApart_all e
  unfold socketsApart at hs
  cases hl : leftEye e 0 0 with
  | none => rw [hl] at hs; cases hs
  | some l =>
    cases hr : rightEye e 0 0 with
    | none => rw [hl, hr] at hs; cases hs
    | some r =>
      rw [hl, hr] at hs
      have hs2 := (Bool.and_eq_true _ _).mp hs
      have hL := windowInCols_sound 10 120 l hs2.1
      have hR := windowInCols_sound 120 230 r hs2.2
      refine ⟨l, r, rfl, rfl, ?_, ?_, fun px py h => (hL px py h).2.1,
        fun px py h => (hR px py h).1⟩
      · unfold Anim_SetExpr withState Draw_Expression
        rw [drawEyes_parts, hl, hr]
        rfl
      · intro px py h
        rcases (painted_append _ _ px py).mp h with h1 | h1
        · have := hL px py h1; omega
        · rcases (painted_append _ _ px py).mp h1 with h2 | h2
          · have := hR px py h2; omega
          · exact absurd h2 (painted_nil px py)

/-! ## Claims C16 and C17 -/

theorem abs_sub_cases (a b : Int) :
    (if b > a then b - a else a - b) = |b - a| := by
  split
  · rw [abs_of_nonneg (by omega)]
  · rw [abs_of_nonpos (by omega)]
    omega

theorem span_eq_abs (a b : Int) :
    (if a > b then a else b) - (if a < b then a else b) + 1 = |b - a| + 1 := by
  rw [← abs_sub_cases]
  split <;> split <;> omega

theorem ite_eq_min (a b : Int) : (if a < b then a else b) = min a b := by
  split <;> omega

/-- C16: for all endpoints with `|y1 - y0| ≤ 2`, every thickness and colour,
`LCD_ThickLine` issues exactly one call, the fill with left edge
`min x0 x1`, top edge `(y0+y1)/2 - t/2`, width `|x1-x0| + 1` and height `t`
(each converted to the `uint16_t` parameter it is passed as). -/
theorem C16_thickLine_near_horizontal (x0 y0 x1 y1 t : Int) (c : Nat)
    (hdy : |y1 - y0| ≤ 2) :
    LCD_ThickLine x0 y0 x1 y1 t c =
      some [Call.fillRect (toU16 (min x0 x1)) (toU16 ((y0 + y1).tdiv 2 - t.tdiv 2))
        (toU16 (|x1 - x0| + 1)) (toU16 t) c] := by
  unfold LCD_ThickLine
  have h1 : toI16 (if y1 > y0 then y1 - y0 else y0 - y1) ≤ 2 := by
    rw [abs_sub_cases]
    have := abs_nonneg (y1 - y0)
    unfold toI16
    omega
  simp only [h1, if_true]
  rw [span_eq_abs, ite_eq_min]

theorem C16_thickLine_near_horizontal_witness :
    (|(2 : Int) - 0| ≤ 2) ∧
    LCD_ThickLine 0 0 5 2 2 EYE_COLOR = some [Call.fillRect 0 0 6 2 EYE_COLOR] :=
  ⟨by decide, C16_thickLine_near_horizontal 0 0 5 2 2 EYE_COLOR (by decide)⟩

/-- C17 (as amended): for all endpoints with `|x1 - x0| ≤ 2` and
`2 < |y1 - y0| ≤ 32767`, every thickness and colour, `LCD_ThickLine` issues
exactly one call, the fill with left edge `(x0+x1)/2 - t/2`, top edge
`min y0 y1`, width `t` and height `|y1-y0| + 1` (each converted to the
`uint16_t` parameter it is passed as). -/
theorem C17_thickLine_near_vertical (x0 y0 x1 y1 t : Int) (c : Nat)
    (hdx : |x1 - x0| ≤ 2) (hdy : 2 < |y1 - y0|) (hdy2 : |y1 - y0| ≤ 32767) :
    LCD_ThickLine x0 y0 x1 y1 t c =
      some [Call.fillRect (toU16 ((x0 + x1).tdiv 2 - t.tdiv 2)) (toU16 (min y0 y1))
        (toU16 t) (toU16 (|y1 - y0| + 1)) c] := by
  unfold LCD_ThickLine
  have h1 : ¬ toI16 (if y1 > y0 then y1 - y0 else y0 - y1) ≤ 2 := by
    rw [abs_sub_cases]
    unfold toI16
    omega
  have h2 : toI16 (if x1 > x0 then x1 - x0 else x0 - x1) ≤ 2 := by
    rw [abs_sub_cases]
    have := abs_nonneg (x1 - x0)
    unfold toI16
    omega
  simp only [h1, h2, if_true, if_false]
  rw [span_eq_abs, ite_eq_min]

theorem C17_thickLine_near_vertical_witness :
    (|(1 : Int) - 0| ≤ 2 ∧ 2 < |(9 : Int) - 0| ∧ |(9 : Int) - 0| ≤ 32767) ∧
    LCD_ThickLine 0 0 1 9 4 EYE_COLOR = some [Call.fillRect 65534 0 4 10 EYE_COLOR] :=
  ⟨by decide,
    C17_thickLine_near_vertical 0 0 1 9 4 EYE_COLOR (by decide) (by decide) (by decide)⟩

/-- C17 as stated fails when `|y1 - y0| ≤ 2` as well: the test on `dy` comes
first, so for the endpoints `(0,0)`, `(1,1)` and thickness 5 the call issued is
the horizontal rectangle `(0, -2, 2, 5)` and not the vertical rectangle
`(-2, 0, 5, 2)` of the claim. -/
theorem C17_counterexample :
    |(1 : Int) - 0| ≤ 2 ∧
    LCD_ThickLine 0 0 1 1 5 0 = some [Call.fillRect 0 (toU16 (-2)) 2 5 0] ∧
    LCD_ThickLine 0 0 1 1 5 0 ≠
      some [Call.fillRect (toU16 (((0 : Int) + 1).tdiv 2 - (5 : Int).tdiv 2)) (toU16 (min 0 1))
        (toU16 5) (toU16 (|(1 : Int) - 0| + 1)) 0] := by
  decide

/-! ## Claim C12 -/

/-- One call of `Anim_Idle` with neither timer past its minimum threshold
does nothing. -/
theorem Anim_Idle_quiet (t r1 r2 r3 : Nat) (s : AnimState)
    (hb : sub32 t s.last_blink ≤ 2500) (ha : sub32 t s.last_action ≤ 6000) :
    Anim_Idle t r1 r2 r3 s = some (s, []) := by
  unfold Anim_Idle
  rw [if_neg (by omega)]
  simp only [thenRun]
  rw [if_neg (by omega)]
  rfl

/-- C12 (as amended): for every tick value `t`, every scheduler state whose
timers satisfy `t - last_blink ≤ 2500` and `t - last_action ≤ 6000` (32-bit
subtraction; in particular the initial state when `t ≤ 2500`) and every
sequence of random draws, any number of calls of `Anim_Idle` that all read the
tick `t` make no call at all and return the state unchanged: no blink and no
action fires. -/
theorem C12_frozen_clock_quiet (t : Nat) (s : AnimState) (draws : List (Nat × Nat × Nat))
    (hb : sub32 t s.last_blink ≤ 2500) (ha : sub32 t s.last_action ≤ 6000) :
    idleCalls t draws s = some (s, []) := by
  induction draws with
  | nil => rfl
  | cons d rest ih =>
    obtain ⟨r1, r2, r3⟩ := d
    unfold idleCalls
    rw [Anim_Idle_quiet t r1 r2 r3 s hb ha]
    simp only [thenRun, ih]
    rfl

theorem C12_frozen_clock_quiet_witness :
    (sub32 2500 AnimState.init.last_blink ≤ 2500 ∧
      sub32 2500 AnimState.init.last_action ≤ 6000) ∧
    idleCalls 2500 [(0, 0, 0), (1999, 3999, 4)] AnimState.init = some (AnimState.init, []) :=
  ⟨by decide, C12_frozen_clock_quiet 2500 AnimState.init [(0, 0, 0), (1999, 3999, 4)]
    (by decide) (by decide)⟩

/-- C12 as stated fails: from the initial state (both timers 0) with the tick
frozen at 10000 and all draws 0, the first call of `Anim_Idle` fires both the
blink and the action: it makes calls and sets both timers to 10000. -/
theorem C12_counterexample :
    idleCalls 10000 [(0, 0, 0)] AnimState.init ≠ some (AnimState.init, []) ∧
    (idleCalls 10000 [(0, 0, 0)] AnimState.init).map Prod.fst =
      some ⟨EXPR_NORMAL, 10000, 10000⟩ := by
  decide!

/-! ## Claim C18 -/

theorem lineLoop_succ (x1 y1 t : Int) (color : Nat) (dx dy sx sy : Int) (fuel : Nat)
    (x0 y0 err : Int) :
    lineLoop x1 y1 t color dx dy sx sy (fuel + 1) x0 y0 err =
      if x0 = x1 ∧ y0 = y1 then some [stampAt t color (x0, y0)] else
        andThen (some [stampAt t color (x0, y0)])
          (lineLoop x1 y1 t color dx dy sx sy fuel
            (if toI16 (2 * err) > -dy then toI16 (x0 + sx) else x0)
            (if toI16 (2 * err) < dx then toI16 (y0 + sy) else y0)
            (if toI16 (2 * err) < dx then
              toI16 ((if toI16 (2 * err) > -dy then toI16 (err - dy) else err) + dx)
            else (if toI16 (2 * err) > -dy then toI16 (err - dy) else err))) := rfl

theorem WalkFrom_done (x1 y1 t : Int) (color : Nat) :
    WalkFrom x1 y1 t color (some [stampAt t color (x1, y1)]) 0 x1 y1 := by
  refine ⟨[(x1, y1)], rfl, rfl, rfl, ?_, rfl⟩
  intro p hp
  rw [List.mem_singleton] at hp
  subst hp
  simp

theorem WalkFrom_step (x1 y1 t : Int) (color : Nat) (r : Option (List Call)) (n : Nat)
    (x y xn yn : Int)
    (hx : min x x1 ≤ xn ∧ xn ≤ max x x1) (hy : min y y1 ≤ yn ∧ yn ≤ max y y1)
    (h : WalkFrom x1 y1 t color r n xn yn) :
    WalkFrom x1 y1 t color (andThen (some [stampAt t color (x, y)]) r) (n + 1) x y := by
  obtain ⟨path, hr, hhead, hlast, hbox, hlen⟩ := h
  refine ⟨(x, y) :: path, ?_, rfl, ?_, ?_, ?_⟩
  · rw [hr]
    rfl
  · cases path with
    | nil => simp at hlen
    | cons q rest =>
      rw [List.getLast?_cons_cons]
      exact hlast
  · intro p hp
    rw [List.mem_cons] at hp
    rcases hp with rfl | hp
    · simp
    · have := hbox p hp
      omega
  · simp [hlen]

theorem lineLoop_xmajor (x1 y1 t : Int) (color : Nat) (dx dy sx sy : Int)
    (hsx : sx = 1 ∨ sx = -1) (hsy : sy = 1 ∨ sy = -1)
    (hdy0 : 0 < dy) (hle : dy ≤ dx) (hb : dx ≤ 10922) :
    ∀ (n fuel : Nat) (x y err m M N : Int),
      n < fuel → isI16 x → isI16 y → isI16 x1 → isI16 y1 →
      0 ≤ m → x = x1 - sx * n → y = y1 - sy * m →
      M = m * dx → N = n * dy → err = dx - dy - M + N →
      dx - 2 * dy ≤ 2 * err → 2 * err < 3 * dx - 2 * dy → (dx = dy → err = 0) →
      WalkFrom x1 y1 t color (lineLoop x1 y1 t color dx dy sx sy fuel x y err) n x y := by
  intro n
  induction n with
  | zero =>
    intro fuel x y err m M N hf hx hy hx1 hy1 hm0 hxe hye hM hN he hlo hhi heq
    obtain ⟨f, rfl⟩ : ∃ f, fuel = f + 1 := ⟨fuel - 1, by omega⟩
    have hm : m = 0 := by
      by_contra hne
      have h1 : 1 ≤ m := by omega
      have h2 : dx ≤ M := by
        rw [hM]
        nlinarith
      simp at hN
      omega
    have hx' : x = x1 := by simp [hxe]
    have hy' : y = y1 := by simp [hye, hm]
    rw [lineLoop_succ, if_pos ⟨hx', hy'⟩, hx', hy']
    exact WalkFrom_done x1 y1 t color
  | succ n ih =>
    intro fuel x y err m M N hf hx hy hx1 hy1 hm0 hxe hye hM hN he hlo hhi heq
    obtain ⟨f, rfl⟩ : ∃ f, fuel = f + 1 := ⟨fuel - 1, by omega⟩
    have hN' : N = n * dy + dy := by
      rw [hN]
      push_cast
      ring
    have hNn : 0 ≤ (n : Int) * dy := mul_nonneg (Int.ofNat_nonneg n) (le_of_lt hdy0)
    have hxe' : x = x1 - sx * n - sx := by
      rw [hxe]
      push_cast
      ring
    have hxne : ¬ (x = x1 ∧ y = y1) := by
      intro h
      rcases hsx with rfl | rfl <;> omega
    unfold isI16 at hx hy hx1 hy1
    have e2 : toI16 (2 * err) = 2 * err := by
      unfold toI16
      omega
    have hxs : toI16 (2 * err) > -dy := by
      rw [e2]
      by_cases hd : dx = dy
      · have := heq hd
        omega
      · omega
    have eA : toI16 (err - dy) = err - dy := by
      unfold toI16
      omega
    have exA : toI16 (x + sx) = x + sx := by
      unfold toI16
      rcases hsx with rfl | rfl <;> omega
    rw [lineLoop_succ, if_neg hxne, if_pos hxs, if_pos hxs, exA, eA]
    by_cases hys : toI16 (2 * err) < dx
    · rw [if_pos hys, if_pos hys]
      rw [e2] at hys
      have hm1 : 1 ≤ m := by
        by_contra hne
        have hm : m = 0 := by omega
        rw [hm] at hM
        simp at hM
        omega
      have hyle : 0 ≤ (m - 1) * dx := mul_nonneg (by omega) (by omega)
      have hMm : M - dx = (m - 1) * dx := by
        rw [hM]
        ring
      have eB : toI16 (err - dy + dx) = err - dy + dx := by
        unfold toI16
        omega
      have eyB : toI16 (y + sy) = y + sy := by
        unfold toI16
        rcases hsy with rfl | rfl <;> omega
      rw [eB, eyB]
      refine WalkFrom_step x1 y1 t color _ n x y (x + sx) (y + sy) ?_ ?_ ?_
      · rcases hsx with rfl | rfl <;> omega
      · rcases hsy with rfl | rfl <;> omega
      · refine ih f (x + sx) (y + sy) (err - dy + dx) (m - 1) (M - dx) (n * dy)
          (by omega) ?_ ?_ hx1 hy1 (by omega) ?_ ?_ hMm rfl ?_ ?_ ?_ ?_
        · unfold isI16
          rcases hsx with rfl | rfl <;> omega
        · unfold isI16
          rcases hsy with rfl | rfl <;> omega
        · rcases hsx with rfl | rfl <;> omega
        · rw [hye]
          ring
        · omega
        · omega
        · omega
        · intro hd
          have := heq hd
          omega
    · rw [if_neg hys, if_neg hys]
      rw [e2] at hys
      refine WalkFrom_step x1 y1 t color _ n x y (x + sx) y ?_ ?_ ?_
      · rcases hsx with rfl | rfl <;> omega
      · omega
      · refine ih f (x + sx) y (err - dy) m M (n * dy)
          (by omega) ?_ ?_ hx1 hy1 hm0 ?_ hye hM rfl ?_ ?_ ?_ ?_
        · unfold isI16
          rcases hsx with rfl | rfl <;> omega
        · unfold isI16
          omega
        · rcases hsx with rfl | rfl <;> omega
        · omega
        · omega
        · omega
        · intro hd
          have := heq hd
          omega

theorem lineLoop_ymajor (x1 y1 t : Int) (color : Nat) (dx dy sx sy : Int)
    (hsx : sx = 1 ∨ sx = -1) (hsy : sy = 1 ∨ sy = -1)
    (hdx0 : 0 < dx) (hlt : dx < dy) (hb : dy ≤ 10922) :
    ∀ (n fuel : Nat) (x y err m M N : Int),
      n < fuel → isI16 x → isI16 y → isI16 x1 → isI16 y1 →
      0 ≤ m → x = x1 - sx * m → y = y1 - sy * n →
      M = m * dy → N = n * dx → err = dx - dy - N + M →
      2 * dx - 3 * dy < 2 * err → 2 * err ≤ 2 * dx - dy →
      WalkFrom x1 y1 t color (lineLoop x1 y1 t color dx dy sx sy fuel x y err) n x y := by
  intro n
  induction n with
  | zero =>
    intro fuel x y err m M N hf hx hy hx1 hy1 hm0 hxe hye hM hN he hlo hhi
    obtain ⟨f, rfl⟩ : ∃ f, fuel = f + 1 := ⟨fuel - 1, by omega⟩
    have hm : m = 0 := by
      by_contra hne
      have h1 : 1 ≤ m := by omega
      have h2 : dy ≤ M := by
        rw [hM]
        nlinarith
      simp at hN
      omega
    have hx' : x = x1 := by simp [hxe, hm]
    have hy' : y = y1 := by simp [hye]
    rw [lineLoop_succ, if_pos ⟨hx', hy'⟩, hx', hy']
    exact WalkFrom_done x1 y1 t color
  | succ n ih =>
    intro fuel x y err m M N hf hx hy hx1 hy1 hm0 hxe hye hM hN he hlo hhi
    obtain ⟨f, rfl⟩ : ∃ f, fuel = f + 1 := ⟨fuel - 1, by omega⟩
    have hN' : N = n * dx + dx := by
      rw [hN]
      push_cast
      ring
    have hNn : 0 ≤ (n : Int) * dx := mul_nonneg (Int.ofNat_nonneg n) (le_of_lt hdx0)
    have hye' : y = y1 - sy * n - sy := by
      rw [hye]
      push_cast
      ring
    have hyne : ¬ (x = x1 ∧ y = y1) := by
      intro h
      rcases hsy with rfl | rfl <;> omega
    unfold isI16 at hx hy hx1 hy1
    have e2 : toI16 (2 * err) = 2 * err := by
      unfold toI16
      omega
    have hys : toI16 (2 * err) < dx := by
      rw [e2]
      omega
    have eyB : toI16 (y + sy) = y + sy := by
      unfold toI16
      rcases hsy with rfl | rfl <;> omega
    rw [lineLoop_succ, if_neg hyne, if_pos hys, if_pos hys, eyB]
    by_cases hxs : toI16 (2 * err) > -dy
    · rw [if_pos hxs, if_pos hxs]
      rw [e2] at hxs
      have hm1 : 1 ≤ m := by
        by_contra hne
        have hm : m = 0 := by omega
        rw [hm] at hM
        simp at hM
        omega
      have hMm : M - dy = (m - 1) * dy := by
        rw [hM]
        ring
      have eA : toI16 (err - dy) = err - dy := by
        unfold toI16
        omega
      have eB : toI16 (err - dy + dx) = err - dy + dx := by
        unfold toI16
        omega
      have exA : toI16 (x + sx) = x + sx := by
        unfold toI16
        rcases hsx with rfl | rfl <;> omega
      rw [eA, eB, exA]
      refine WalkFrom_step x1 y1 t color _ n x y (x + sx) (y + sy) ?_ ?_ ?_
      · rcases hsx with rfl | rfl <;> omega
      · rcases hsy with rfl | rfl <;> omega
      · refine ih f (x + sx) (y + sy) (err - dy + dx) (m - 1) (M - dy) (n * dx)
          (by omega) ?_ ?_ hx1 hy1 (by omega) ?_ ?_ hMm rfl ?_ ?_ ?_
        · unfold isI16
          rcases hsx with rfl | rfl <;> omega
        · unfold isI16
          rcases hsy with rfl | rfl <;> omega
        · rw [hxe]
          ring
        · rcases hsy with rfl | rfl <;> omega
        · omega
        · omega
        · omega
    · rw [if_neg hxs, if_neg hxs]
      rw [e2] at hxs
      have eB : toI16 (err + dx) = err + dx := by
        unfold toI16
        omega
      rw [eB]
      refine WalkFrom_step x1 y1 t color _ n x y x (y + sy) ?_ ?_ ?_
      · omega
      · rcases hsy with rfl | rfl <;> omega
      · refine ih f x (y + sy) (err + dx) m M (n * dx)
          (by omega) ?_ ?_ hx1 hy1 hm0 hxe ?_ hM rfl ?_ ?_ ?_
        · unfold isI16
          omega
        · unfold isI16
          rcases hsy with rfl | rfl <;> omega
        · rcases hsy with rfl | rfl <;> omega
        · omega
        · omega
        · omega

theorem abs_sub_sign (a b d : Int) (h : |b - a| = d) (hd : 2 < d) :
    (a < b ∧ d = b - a) ∨ (b < a ∧ d = a - b) := by
  rcases le_or_lt a b with hab | hab
  · rw [abs_of_nonneg (by omega)] at h
    left
    omega
  · rw [abs_of_neg (by omega)] at h
    right
    omega

theorem thickLine_walkFrom (x0 y0 x1 y1 t : Int) (color : Nat)
    (hx0 : isI16 x0) (hy0 : isI16 y0) (hx1 : isI16 x1) (hy1 : isI16 y1)
    (hdx : 2 < |x1 - x0|) (hdy : 2 < |y1 - y0|)
    (hbx : |x1 - x0| ≤ 10922) (hby : |y1 - y0| ≤ 10922) :
    WalkFrom x1 y1 t color (LCD_ThickLine x0 y0 x1 y1 t color)
      (max |x1 - x0| |y1 - y0|).toNat x0 y0 := by
  unfold LCD_ThickLine
  rw [abs_sub_cases x0 x1, abs_sub_cases y0 y1]
  generalize hdxe : |x1 - x0| = dx at hdx hbx
  generalize hdye : |y1 - y0| = dy at hdy hby
  have hX := abs_sub_sign x0 x1 dx hdxe hdx
  have hY := abs_sub_sign y0 y1 dy hdye hdy
  clear hdxe hdye
  have edx : toI16 dx = dx := by
    unfold toI16
    omega
  have edy : toI16 dy = dy := by
    unfold toI16
    omega
  have eerr : toI16 (dx - dy) = dx - dy := by
    unfold toI16
    omega
  simp only [edx, edy, eerr]
  rw [if_neg (by omega), if_neg (by omega)]
  have hsx : (if x0 < x1 then (1 : Int) else -1) = 1 ∨ (if x0 < x1 then (1 : Int) else -1) = -1 := by
    split
    · exact Or.inl rfl
    · exact Or.inr rfl
  have hsy : (if y0 < y1 then (1 : Int) else -1) = 1 ∨ (if y0 < y1 then (1 : Int) else -1) = -1 := by
    split
    · exact Or.inl rfl
    · exact Or.inr rfl
  have cdx : ((dx.toNat : Nat) : Int) = dx := Int.toNat_of_nonneg (by omega)
  have cdy : ((dy.toNat : Nat) : Int) = dy := Int.toNat_of_nonneg (by omega)
  have hxe : x0 = x1 - (if x0 < x1 then (1 : Int) else -1) * dx := by
    split <;> omega
  have hye : y0 = y1 - (if y0 < y1 then (1 : Int) else -1) * dy := by
    split <;> omega
  by_cases hle : dy ≤ dx
  · rw [max_eq_left hle]
    refine lineLoop_xmajor x1 y1 t color dx dy _ _ hsx hsy (by omega) hle hbx
      dx.toNat 65536 x0 y0 (dx - dy) dy (dy * dx) (dx.toNat * dy)
      (by omega) hx0 hy0 hx1 hy1 (by omega) ?_ hye rfl rfl ?_ (by omega) (by omega)
      (by omega)
    · rw [cdx]
      exact hxe
    · rw [cdx]
      ring
  · rw [max_eq_right (by omega)]
    refine lineLoop_ymajor x1 y1 t color dx dy _ _ hsx hsy (by omega) (by omega) hby
      dy.toNat 65536 x0 y0 (dx - dy) dx (dx * dy) (dy.toNat * dx)
      (by omega) hx0 hy0 hx1 hy1 (by omega) hxe ?_ rfl rfl ?_ (by omega) (by omega)
    · rw [cdy]
      exact hye
    · rw [cdy]
      ring

/-- C18: for all `int16_t` endpoints with `2 < |x1 - x0| ≤ 10922` and
`2 < |y1 - y0| ≤ 10922` (so that no 16-bit value of the walk overflows), every
thickness and colour, the loop of `LCD_ThickLine` terminates, and the calls it
makes are the `t × t` squares stamped along a path of positions that starts at
`(x0, y0)`, ends at `(x1, y1)`, stays in the bounding box of the two endpoints
and has exactly `max (|x1 - x0|, |y1 - y0|) + 1` positions. -/
theorem C18_thickLine_walk (x0 y0 x1 y1 t : Int) (color : Nat)
    (hx0 : isI16 x0) (hy0 : isI16 y0) (hx1 : isI16 x1) (hy1 : isI16 y1)
    (hdx : 2 < |x1 - x0|) (hdy : 2 < |y1 - y0|)
    (hbx : |x1 - x0| ≤ 10922) (hby : |y1 - y0| ≤ 10922) :
    ∃ path : List (Int × Int),
      LCD_ThickLine x0 y0 x1 y1 t color = some (path.map (stampAt t color)) ∧
      path.head? = some (x0, y0) ∧ path.getLast? = some (x1, y1) ∧
      (∀ p ∈ path,
        min x0 x1 ≤ p.1 ∧ p.1 ≤ max x0 x1 ∧ min y0 y1 ≤ p.2 ∧ p.2 ≤ max y0 y1) ∧
      path.length = (max |x1 - x0| |y1 - y0|).toNat + 1 :=
  thickLine_walkFrom x0 y0 x1 y1 t color hx0 hy0 hx1 hy1 hdx hdy hbx hby

theorem C18_thickLine_walk_witness :
    (isI16 7 ∧ isI16 0 ∧ isI16 2 ∧ isI16 3 ∧ 2 < |(2 : Int) - 7| ∧ 2 < |(3 : Int) - 0| ∧
      |(2 : Int) - 7| ≤ 10922 ∧ |(3 : Int) - 0| ≤ 10922) ∧
    ∃ path : List (Int × Int),
      LCD_ThickLine 7 0 2 3 4 EYE_COLOR = some (path.map (stampAt 4 EYE_COLOR)) ∧
      path.head? = some (7, 0) ∧ path.getLast? = some (2, 3) ∧
      (∀ p ∈ path, min 7 2 ≤ p.1 ∧ p.1 ≤ max 7 2 ∧ min 0 3 ≤ p.2 ∧ p.2 ≤ max 0 3) ∧
      path.length = (max |(2 : Int) - 7| |(3 : Int) - 0|).toNat + 1 :=
  ⟨by decide, C18_thickLine_walk 7 0 2 3 4 EYE_COLOR (by decide) (by decide) (by decide)
    (by decide) (by decide) (by decide) (by decide) (by decide)⟩

/-! ## Claims C21 and C22 -/

/-- C21: for every scheduler state, every tick `t` and all random draws, if
`t - last_blink ≤ 2500` and `t - last_action ≤ 6000` (32-bit subtraction) then
`Anim_Idle` returns having made no call, so nothing is written to the bus,
and `current_expr`, `last_blink` and `last_action` are unchanged. -/
theorem C21_idle_below_thresholds (t r1 r2 r3 : Nat) (s : AnimState)
    (hb : sub32 t s.last_blink ≤ 2500) (ha : sub32 t s.last_action ≤ 6000) :
    ∃ s2 calls, Anim_Idle t r1 r2 r3 s = some (s2, calls) ∧
      calls = [] ∧ busTrace calls = [] ∧
      s2.current_expr = s.current_expr ∧ s2.last_blink = s.last_blink ∧
      s2.last_action = s.last_action :=
  ⟨s, [], Anim_Idle_quiet t r1 r2 r3 s hb ha, rfl, rfl, rfl, rfl, rfl⟩

theorem C21_idle_below_thresholds_witness :
    (sub32 3000 (AnimState.mk EXPR_HAPPY 1000 500).last_blink ≤ 2500 ∧
      sub32 3000 (AnimState.mk EXPR_HAPPY 1000 500).last_action ≤ 6000) ∧
    ∃ s2 calls, Anim_Idle 3000 7 11 4 (AnimState.mk EXPR_HAPPY 1000 500) = some (s2, calls) ∧
      calls = [] ∧ busTrace calls = [] ∧
      s2.current_expr = EXPR_HAPPY ∧ s2.last_blink = 1000 ∧ s2.last_action = 500 :=
  ⟨by decide, C21_idle_below_thresholds 3000 7 11 4 (AnimState.mk EXPR_HAPPY 1000 500)
    (by decide) (by decide)⟩

theorem staysInEyeArea_intro (l : List Call) (hr : ∀ d ∈ l, d.inRange = true)
    (ha : ∀ d ∈ l, inEyeArea d = true) : staysInEyeArea (some l) = true := by
  show l.all (fun c => c.inRange && inEyeArea c) = true
  rw [List.all_eq_true]
  intro d hd
  rw [hr d hd, ha d hd]
  rfl

theorem stays_append (a b : List Call) (ha : staysInEyeArea (some a) = true)
    (hb : staysInEyeArea (some b) = true) : staysInEyeArea (some (a ++ b)) = true := by
  have ha2 : a.all (fun c => c.inRange && inEyeArea c) = true := ha
  have hb2 : b.all (fun c => c.inRange && inEyeArea c) = true := hb
  show (a ++ b).all (fun c => c.inRange && inEyeArea c) = true
  rw [List.all_append, ha2, hb2]
  rfl

/-- Whatever was drawn inside the eye area before a frame that begins with
`Eye_Clear` leaves no trace in the display memory. -/
theorem gram_redraw (pre eyes : List Call) (hpre : staysInEyeArea (some pre) = true)
    (hr : ∀ d ∈ Eye_Clear ++ eyes, d.inRange = true) (l : Lcd) (p : Pins) :
    gramAfter l p (pre ++ (Eye_Clear ++ eyes)) = gramAfter l p (Eye_Clear ++ eyes) := by
  obtain ⟨pre2, hp, hrp, hap⟩ := staysInEyeArea_elim _ hpre
  cases hp
  rw [gramAfter_eq_paintAll _ hr, gramAfter_eq_paintAll]
  · exact paintAll_redraw _ _ hap _
  · intro d hd
    rcases List.mem_append.mp hd with h | h
    · exact hrp d h
    · exact hr d h

theorem Draw_Expression_stays (e : Expression_t) :
    ∃ eyes, Draw_Expression e 0 0 = some (Eye_Clear ++ eyes) ∧
      staysInEyeArea (some (Eye_Clear ++ eyes)) = true := by
  obtain ⟨eyes, he, hr, ha⟩ := Draw_Expression_eq e
  exact ⟨eyes, he, staysInEyeArea_intro _ hr ha⟩

theorem seqAll_snoc (xs : List (Option (List Call))) (a : Option (List Call))
    (pre fr : List Call) (hx : seqAll xs = some pre) (ha : a = some fr) :
    seqAll (xs ++ [a]) = some (pre ++ fr) := by
  rw [seqAll_append, hx, seqAll_single, ha]
  rfl

/-- The routine `Anim_Blink` returns from every state, leaves the state as it
was and draws only inside the eye area. -/
theorem Anim_Blink_stays (s : AnimState) :
    ∃ c, Anim_Blink s = some (s, c) ∧ staysInEyeArea (some c) = true := by
  obtain ⟨eyes, he, hs⟩ := Draw_Expression_stays s.current_expr
  obtain ⟨pre, hpre, -, -⟩ := staysInEyeArea_elim _ blinkFrames_stay
  have hst : staysInEyeArea (some pre) = true := by
    rw [← hpre]
    exact blinkFrames_stay
  refine ⟨pre ++ (Eye_Clear ++ eyes), ?_, stays_append _ _ hst hs⟩
  unfold Anim_Blink withState
  have := seqAll_snoc _ _ pre (Eye_Clear ++ eyes) hpre he
  rw [List.cons_append, List.cons_append, List.cons_append, List.cons_append, List.cons_append,
    List.cons_append, List.cons_append, List.cons_append, List.cons_append, List.cons_append,
    List.nil_append] at this
  rw [this]
  rfl

theorem winkFrames_stay :
    staysInEyeArea (seqAll
      [ some Eye_Clear, some (Eye_Closed LX), Eye_Normal RX 0 0, some [Call.delay 180] ]) = true ∧
    staysInEyeArea (seqAll
      [ some Eye_Clear, Eye_Normal LX 0 0, some (Eye_Closed RX), some [Call.delay 180] ]) = true := by
  decide!

theorem delay_stays (ms : Nat) : staysInEyeArea (some [Call.delay ms]) = true := rfl

theorem Anim_SetExpr_stays (e : Expression_t) (s : AnimState) :
    ∃ c, Anim_SetExpr e s = some ({ s with current_expr := e }, c) ∧
      staysInEyeArea (some c) = true := by
  obtain ⟨eyes, he, hs⟩ := Draw_Expression_stays e
  exact ⟨_, Anim_SetExpr_eq e s eyes he, hs⟩

theorem Anim_WinkL_stays (s : AnimState) :
    ∃ c, Anim_WinkL s = some (s, c) ∧ staysInEyeArea (some c) = true := by
  obtain ⟨eyes, he, hs⟩ := Draw_Expression_stays EXPR_NORMAL
  obtain ⟨pre, hpre, -, -⟩ := staysInEyeArea_elim _ winkFrames_stay.1
  have hst : staysInEyeArea (some pre) = true := by
    rw [← hpre]
    exact winkFrames_stay.1
  refine ⟨pre ++ (Eye_Clear ++ eyes), ?_, stays_append _ _ hst hs⟩
  unfold Anim_WinkL withState
  have := seqAll_snoc _ _ pre (Eye_Clear ++ eyes) hpre he
  rw [List.cons_append, List.cons_append, List.cons_append, List.cons_append,
    List.nil_append] at this
  rw [this]
  rfl

theorem Anim_WinkR_stays (s : AnimState) :
    ∃ c, Anim_WinkR s = some (s, c) ∧ staysInEyeArea (some c) = true := by
  obtain ⟨eyes, he, hs⟩ := Draw_Expression_stays EXPR_NORMAL
  obtain ⟨pre, hpre, -, -⟩ := staysInEyeArea_elim _ winkFrames_stay.2
  have hst : staysInEyeArea (some pre) = true := by
    rw [← hpre]
    exact winkFrames_stay.2
  refine ⟨pre ++ (Eye_Clear ++ eyes), ?_, stays_append _ _ hst hs⟩
  unfold Anim_WinkR withState
  have := seqAll_snoc _ _ pre (Eye_Clear ++ eyes) hpre he
  rw [List.cons_append, List.cons_append, List.cons_append, List.cons_append,
    List.nil_append] at this
  rw [this]
  rfl

/-- Sequencing two routines that return and draw inside the eye area. -/
theorem thenRun_stays (f : Option (AnimState × List Call))
    (g : AnimState → Option (AnimState × List Call)) (s1 s2 : AnimState) (c1 c2 : List Call)
    (hf : f = some (s1, c1)) (hg : g s1 = some (s2, c2))
    (h1 : staysInEyeArea (some c1) = true) (h2 : staysInEyeArea (some c2) = true) :
    thenRun f g = some (s2, c1 ++ c2) ∧ staysInEyeArea (some (c1 ++ c2)) = true := by
  refine ⟨?_, stays_append _ _ h1 h2⟩
  rw [hf]
  unfold thenRun
  simp only [hg]

theorem thenRun_some (s1 s2 : AnimState) (c1 c2 : List Call)
    (g : AnimState → Option (AnimState × List Call)) (hg : g s1 = some (s2, c2)) :
    thenRun (some (s1, c1)) g = some (s2, c1 ++ c2) := by
  unfold thenRun
  simp only [hg]

/-- Sequencing two routines that return, keep both timers and draw inside
the eye area gives a routine of the same kind. -/
theorem thenRun_returns (s : AnimState) (f : Option (AnimState × List Call))
    (g : AnimState → Option (AnimState × List Call))
    (hf : ∃ e c, f = some ({ s with current_expr := e }, c) ∧ staysInEyeArea (some c) = true)
    (hg : ∀ s1 : AnimState, ∃ e c, g s1 = some ({ s1 with current_expr := e }, c) ∧
      staysInEyeArea (some c) = true) :
    ∃ e c, thenRun f g = some ({ s with current_expr := e }, c) ∧
      staysInEyeArea (some c) = true := by
  obtain ⟨e1, c1, h1, hs1⟩ := hf
  obtain ⟨e2, c2, h2, hs2⟩ := hg { s with current_expr := e1 }
  refine ⟨e2, c1 ++ c2, ?_, stays_append _ _ hs1 hs2⟩
  rw [h1, thenRun_some _ _ c1 c2 g h2]

theorem Anim_SetExpr_returns (e : Expression_t) (s : AnimState) :
    ∃ e2 c, Anim_SetExpr e s = some ({ s with current_expr := e2 }, c) ∧
      staysInEyeArea (some c) = true := by
  obtain ⟨c, hc, hs⟩ := Anim_SetExpr_stays e s
  exact ⟨e, c, hc, hs⟩

theorem HAL_Delay_returns (ms : Nat) (s : AnimState) :
    ∃ e c, HAL_Delay ms s = some ({ s with current_expr := e }, c) ∧
      staysInEyeArea (some c) = true :=
  ⟨s.current_expr, [Call.delay ms], rfl, delay_stays ms⟩

/-- Each of the five idle actions returns from every state, keeps both timers
and draws only inside the eye area. -/
theorem idleAction_returns (r : Nat) (s : AnimState) :
    ∃ e c, idleAction r s = some ({ s with current_expr := e }, c) ∧
      staysInEyeArea (some c) = true := by
  have hr : r % 5 = 0 ∨ r % 5 = 1 ∨ r % 5 = 2 ∨ r % 5 = 3 ∨ r % 5 = 4 := by omega
  unfold idleAction
  rcases hr with h | h | h | h | h <;> rw [h]
  · exact thenRun_returns s _ _ (Anim_SetExpr_returns EXPR_LOOK_LEFT s) (HAL_Delay_returns 300)
  · exact thenRun_returns s _ _ (Anim_SetExpr_returns EXPR_LOOK_RIGHT s) (HAL_Delay_returns 300)
  · obtain ⟨c, hc, hs⟩ := Anim_WinkL_stays s
    exact ⟨s.current_expr, c, hc, hs⟩
  · obtain ⟨c, hc, hs⟩ := Anim_WinkR_stays s
    exact ⟨s.current_expr, c, hc, hs⟩
  · show ∃ e c, Anim_LookAround s = some ({ s with current_expr := e }, c) ∧
      staysInEyeArea (some c) = true
    unfold Anim_LookAround
    exact thenRun_returns s _ _ (Anim_SetExpr_returns EXPR_LOOK_LEFT s) fun s1 =>
      thenRun_returns s1 _ _ (HAL_Delay_returns 280 s1) fun s2 =>
      thenRun_returns s2 _ _ (Anim_SetExpr_returns EXPR_NORMAL s2) fun s3 =>
      thenRun_returns s3 _ _ (HAL_Delay_returns 80 s3) fun s4 =>
      thenRun_returns s4 _ _ (Anim_SetExpr_returns EXPR_LOOK_RIGHT s4) fun s5 =>
      thenRun_returns s5 _ _ (HAL_Delay_returns 280 s5) fun s6 =>
      Anim_SetExpr_returns EXPR_NORMAL s6

/-- The blink half of `Anim_Idle`: it returns, keeps `current_expr` and
`last_action`, draws only inside the eye area, and sets `last_blink` to `t`
when the blink fires. -/
theorem idle_blink_part (t r1 : Nat) (s : AnimState) :
    ∃ sb cb,
      (if sub32 t s.last_blink > 2500 + r1 % 2000 then
        thenRun (Anim_Blink s) fun s => some ({ s with last_blink := t }, [])
      else some (s, [])) = some (sb, cb) ∧
      staysInEyeArea (some cb) = true ∧ sb.last_action = s.last_action ∧
      (sub32 t s.last_blink > 2500 + r1 % 2000 → sb.last_blink = t) := by
  by_cases hb : sub32 t s.last_blink > 2500 + r1 % 2000
  · obtain ⟨c, hc, hs⟩ := Anim_Blink_stays s
    refine ⟨{ s with last_blink := t }, c ++ [], ?_, ?_, rfl, fun _ => rfl⟩
    · rw [if_pos hb, hc]
      exact thenRun_some _ _ _ _ _ rfl
    · rw [List.append_nil]
      exact hs
  · refine ⟨s, [], ?_, rfl, rfl, fun h => absurd h hb⟩
    rw [if_neg hb]

/-- The action half of `Anim_Idle` when it fires: it returns with
`current_expr = EXPR_NORMAL`, `last_action = t` and `last_blink` kept, and its
calls are calls inside the eye area followed by the normal frame. -/
theorem idle_action_part (t r3 : Nat) (s : AnimState) :
    ∃ ca eyes,
      (thenRun (idleAction r3 s) fun s =>
        thenRun (Anim_SetExpr EXPR_NORMAL s) fun s =>
        some ({ s with last_action := t }, [])) =
        some (⟨EXPR_NORMAL, s.last_blink, t⟩, ca ++ (Eye_Clear ++ eyes)) ∧
      staysInEyeArea (some ca) = true ∧
      Draw_Expression EXPR_NORMAL 0 0 = some (Eye_Clear ++ eyes) ∧
      (∀ d ∈ Eye_Clear ++ eyes, d.inRange = true) := by
  obtain ⟨e, ca, hca, hsa⟩ := idleAction_returns r3 s
  obtain ⟨eyes, he, hr, -⟩ := Draw_Expression_eq EXPR_NORMAL
  refine ⟨ca, eyes, ?_, hsa, he, hr⟩
  rw [hca]
  refine thenRun_some _ _ _ _ _ ?_
  rw [Anim_SetExpr_eq EXPR_NORMAL _ eyes he]
  have := thenRun_some { s with current_expr := EXPR_NORMAL } ⟨EXPR_NORMAL, s.last_blink, t⟩
    (Eye_Clear ++ eyes) [] (fun s => some ({ s with last_action := t }, [])) rfl
  rw [List.append_nil] at this
  exact this

/-- C22: for every tick `t`, all random draws and every scheduler state,
`Anim_Idle` returns. Whenever the action fires (whichever of the five choices
the draw selects), it returns with `current_expr = EXPR_NORMAL` and
`last_action = t`, the calls it made end with the frame
`Draw_Expression(EXPR_NORMAL, 0, 0)`, and the display memory is the one this
frame alone produces. Whenever the blink fires, it returns with
`last_blink = t`. -/
theorem C22_idle_fired_outcome (t r1 r2 r3 : Nat) (s : AnimState) :
    ∃ s2 calls, Anim_Idle t r1 r2 r3 s = some (s2, calls) ∧
      (sub32 t s.last_action > 6000 + r2 % 4000 →
        s2.current_expr = EXPR_NORMAL ∧ s2.last_action = t ∧
        ∃ pre frame, calls = pre ++ frame ∧
          Draw_Expression EXPR_NORMAL 0 0 = some frame ∧
          ∀ (l : Lcd) (p : Pins), gramAfter l p calls = gramAfter l p frame) ∧
      (sub32 t s.last_blink > 2500 + r1 % 2000 → s2.last_blink = t) := by
  obtain ⟨sb, cb, hB, hsb, hla, hlb⟩ := idle_blink_part t r1 s
  unfold Anim_Idle
  rw [hB]
  by_cases ha : sub32 t s.last_action > 6000 + r2 % 4000
  · obtain ⟨ca, eyes, hA, hsa, he, hr⟩ := idle_action_part t r3 sb
    refine ⟨⟨EXPR_NORMAL, sb.last_blink, t⟩, cb ++ (ca ++ (Eye_Clear ++ eyes)), ?_, ?_, hlb⟩
    · refine thenRun_some _ _ _ _ _ ?_
      rw [hla, if_pos ha]
      exact hA
    · intro _
      refine ⟨rfl, rfl, cb ++ ca, Eye_Clear ++ eyes, (List.append_assoc _ _ _).symm, he, ?_⟩
      intro l p
      rw [← List.append_assoc]
      exact gram_redraw _ _ (stays_append _ _ hsb hsa) hr l p
  · refine ⟨sb, cb ++ [], ?_, fun h => absurd h ha, hlb⟩
    refine thenRun_some _ _ _ _ _ ?_
    rw [hla, if_neg ha]

theorem C22_idle_fired_outcome_witness :
    (sub32 10000 AnimState.init.last_action > 6000 + 0 % 4000 ∧
      sub32 10000 AnimState.init.last_blink > 2500 + 0 % 2000) ∧
    ∃ s2 calls, Anim_Idle 10000 0 0 2 AnimState.init = some (s2, calls) ∧
      (sub32 10000 AnimState.init.last_action > 6000 + 0 % 4000 →
        s2.current_expr = EXPR_NORMAL ∧ s2.last_action = 10000 ∧
        ∃ pre frame, calls = pre ++ frame ∧
          Draw_Expression EXPR_NORMAL 0 0 = some frame ∧
          ∀ (l : Lcd) (p : Pins), gramAfter l p calls = gramAfter l p frame) ∧
      (sub32 10000 AnimState.init.last_blink > 2500 + 0 % 2000 → s2.last_blink = 10000) :=
  ⟨by decide, C22_idle_fired_outcome 10000 0 0 2 AnimState.init⟩

end ILI9341
